import Mathlib

/-!
# Instruction pipeline and cache simulator (`iplc-sim.c`)

A shallow embedding of the simulator's global state and of its functions
(`iplc_sim_init`, `iplc_sim_LRU_replace_on_miss`, `iplc_sim_LRU_update_on_hit`,
`iplc_sim_trap_address`, `iplc_sim_push_pipeline_stage`, the
`iplc_sim_process_pipeline_*` family, `iplc_sim_parse_instruction`,
`iplc_sim_finalize`), followed by theorems about them.

Conventions of the embedding.

* The C globals are gathered in one record `Sim`; every C function becomes a
  function from `Sim` to `Sim` (with a result where the C function returns one).
* `unsigned int` values are natural numbers; the `unsigned int` counters wrap
  with an explicit `% 2 ^ 32`. The `long` cache counters are natural numbers
  (they start at 0 and are only incremented; signed overflow has no defined
  behaviour to model).
* `int` fields only ever compared for equality (`tag`, `vb`, register numbers)
  are stored as the 32-bit pattern they hold; equality of patterns is equality
  of the `int` values.
* C arrays are lists read with `List.getD` and written with `List.set`.
* A `for` loop whose counter runs up to a bound is a structural recursion on
  the number of iterations still to run.
* Output (`printf`) is not modelled.
-/

namespace IplcSim

/-! ## Data model -/

/-- One way of a set: `struct associativity { int vb; int tag; }`. -/
structure assoc_t where
  vb : Nat
  tag : Nat
deriving DecidableEq, Repr, Inhabited

/-- One set: `struct cache_line { assoc_t *assoc; int *replacement; }`. -/
structure cache_line_t where
  assoc : List assoc_t
  replacement : List Nat
deriving DecidableEq, Repr, Inhabited

/-- The C enumeration `enum instruction_type`; `NOP` is the value 0. -/
inductive instruction_type where
  | NOP
  | RTYPE
  | LW
  | SW
  | BRANCH
  | JUMP
  | JAL
  | SYSCALL
deriving DecidableEq, Repr, Inhabited

/-- The union `stage` of `struct pipeline`, seen as its seven 32-bit words.
Word 0 is `lw.data_address`, `sw.data_address`, `branch.reg1` and characters
0..3 of `rtype.instruction` and `jump.instruction`; word 1 is `lw.dest_reg`,
`sw.src_reg`, `branch.reg2` and characters 4..7; word 2 is `lw.base_reg`,
`sw.base_reg` and characters 8..11; word 3 is characters 12..15; words 4, 5
and 6 are `rtype.reg1`, `rtype.reg2_or_constant` and `rtype.dest_reg`. -/
structure stage_t where
  data_address : Nat
  word1 : Nat
  word2 : Nat
  word3 : Nat
  reg1 : Nat
  reg2_or_constant : Nat
  dest_reg : Nat
deriving DecidableEq, Repr, Inhabited

/-- One pipeline slot: `struct pipeline`. -/
structure pipeline_t where
  itype : instruction_type
  instruction_address : Nat
  stage : stage_t
deriving DecidableEq, Repr, Inhabited

/-- The array `pipeline[MAX_STAGES]`, one field per value of
`enum pipeline_stages`. -/
structure Pipeline where
  FETCH : pipeline_t
  DECODE : pipeline_t
  ALU : pipeline_t
  MEM : pipeline_t
  WRITEBACK : pipeline_t
deriving DecidableEq, Repr, Inhabited

/-- The global variables of the program. -/
structure Sim where
  cache : List cache_line_t
  cache_index : Nat
  cache_blocksize : Nat
  cache_blockoffsetbits : Nat
  cache_assoc : Nat
  cache_miss : Nat
  cache_access : Nat
  cache_hit : Nat
  data_address : Nat
  instruction_address : Nat
  pipeline_cycles : Nat
  instruction_count : Nat
  branch_predict_taken : Nat
  branch_count : Nat
  correct_branch_predictions : Nat
  pipeline : Pipeline
deriving DecidableEq, Repr, Inhabited

/-- The constant `MAX_CACHE_SIZE`. -/
def MAX_CACHE_SIZE : Nat := 10240

/-- The constant `CACHE_MISS_DELAY`. -/
def CACHE_MISS_DELAY : Nat := 10

/-- A slot after `bzero`: kind `NOP`, address 0, all payload words 0. -/
def pipeline_t.zero : pipeline_t :=
  { itype := instruction_type.NOP, instruction_address := 0,
    stage := { data_address := 0, word1 := 0, word2 := 0, word3 := 0,
               reg1 := 0, reg2_or_constant := 0, dest_reg := 0 } }

/-- The globals at program start (static storage is zero-initialised, `cache`
is `NULL`). -/
def Sim.start : Sim :=
  { cache := [], cache_index := 0, cache_blocksize := 0, cache_blockoffsetbits := 0,
    cache_assoc := 0, cache_miss := 0, cache_access := 0, cache_hit := 0,
    data_address := 0, instruction_address := 0, pipeline_cycles := 0,
    instruction_count := 0, branch_predict_taken := 0, branch_count := 0,
    correct_branch_predictions := 0,
    pipeline := { FETCH := pipeline_t.zero, DECODE := pipeline_t.zero, ALU := pipeline_t.zero,
                  MEM := pipeline_t.zero, WRITEBACK := pipeline_t.zero } }

/-! ## Cache functions -/

/-- Integer part of the base-2 logarithm, by repeated halving (`fuel` bounds the
number of halvings; `n` itself is always enough). -/
def floorLog2 : Nat → Nat → Nat
  | 0, _ => 0
  | fuel + 1, n => if n < 2 then 0 else floorLog2 fuel (n / 2) + 1

/-- The value of `(int) rint(log((double) n) / log(2))` for `n ≥ 1`: the integer
nearest to the base-2 logarithm of `n`. With `k` the integer part of the
logarithm, the nearest integer is `k + 1` exactly when `n > 2 ^ (k + 1/2)`,
that is when `n * n > 2 ^ (2 * k + 1)` (equality cannot occur). -/
def rintLog2 (n : Nat) : Nat :=
  let k := floorLog2 n n
  if 2 ^ (2 * k + 1) < n * n then k + 1 else k

/-- The cache as allocated and filled by the two nested loops of
`iplc_sim_init`: `1 << index` sets, each with `assoc` ways holding `vb = 0`,
`tag = 0`, and `replacement[j] = j`. -/
def iplc_sim_init.allocate (index assoc : Nat) : List cache_line_t :=
  List.replicate (1 <<< index)
    { assoc := List.replicate assoc { vb := 0, tag := 0 },
      replacement := List.range assoc }

/-- The function `iplc_sim_init`. The result is `none` where the C function
calls `exit(-1)` (cache too big). `cache_size` is computed in `int` arithmetic
and converted to `unsigned long` for the comparison. -/
def iplc_sim_init (g : Sim) (index blocksize assoc : Nat) : Option Sim :=
  let cache_blockoffsetbits := rintLog2 (blocksize * 4)
  let cache_size : Int :=
    (assoc : Int) * (1 <<< index : Nat) *
      ((32 * (blocksize : Int)) + 33 - (index : Int) - (cache_blockoffsetbits : Int))
  if cache_size % 2 ^ 64 > (MAX_CACHE_SIZE : Int) then none
  else some
    { g with
      cache_index := index
      cache_blocksize := blocksize
      cache_assoc := assoc
      cache_blockoffsetbits := cache_blockoffsetbits
      cache := iplc_sim_init.allocate index assoc
      pipeline := { FETCH := pipeline_t.zero, DECODE := pipeline_t.zero, ALU := pipeline_t.zero,
                    MEM := pipeline_t.zero, WRITEBACK := pipeline_t.zero } }

/-- First loop of `iplc_sim_LRU_replace_on_miss`:
`for (i = 0; i < cache_assoc; i++) if (assoc[i].vb != 1) break;`.
The first argument is `cache_assoc - i`; the result is the final `i`. -/
def iplc_sim_LRU_replace_on_miss.scan (assoc : List assoc_t) : Nat → Nat → Nat
  | 0, i => i
  | n + 1, i =>
    if (assoc.getD i default).vb ≠ 1 then i
    else iplc_sim_LRU_replace_on_miss.scan assoc n (i + 1)

/-- The assignment `assoc[k].tag = t`. -/
def setTag (assoc : List assoc_t) (k t : Nat) : List assoc_t :=
  assoc.set k { assoc.getD k default with tag := t }

/-- The assignment `assoc[k].vb = v`. -/
def setVb (assoc : List assoc_t) (k v : Nat) : List assoc_t :=
  assoc.set k { assoc.getD k default with vb := v }

/-- Second loop of `iplc_sim_LRU_replace_on_miss`:
`for (j = 1; j < i; j++) assoc[j-1].tag = assoc[j].tag;`.
The first argument is `i - j`. -/
def iplc_sim_LRU_replace_on_miss.percolate : Nat → Nat → List assoc_t → List assoc_t
  | 0, _, assoc => assoc
  | n + 1, j, assoc =>
    iplc_sim_LRU_replace_on_miss.percolate n (j + 1)
      (setTag assoc (j - 1) (assoc.getD j default).tag)

/-- The effect of `iplc_sim_LRU_replace_on_miss` on the ways of the set. -/
def iplc_sim_LRU_replace_on_miss.ways (cache_assoc : Nat) (assoc : List assoc_t) (tag : Nat) :
    List assoc_t :=
  let i := iplc_sim_LRU_replace_on_miss.scan assoc cache_assoc 0
  let assoc := iplc_sim_LRU_replace_on_miss.percolate (i - 1) 1 assoc
  if i = cache_assoc then setVb (setTag assoc (i - 1) tag) (i - 1) 1
  else setVb (setTag assoc i tag) i 1

/-- The function `iplc_sim_LRU_replace_on_miss`. -/
def iplc_sim_LRU_replace_on_miss (s : Sim) (index tag : Nat) : Sim :=
  let line := s.cache.getD index default
  { s with
    cache := s.cache.set index
      { line with assoc := iplc_sim_LRU_replace_on_miss.ways s.cache_assoc line.assoc tag }
    cache_miss := s.cache_miss + 1 }

/-- First loop of `iplc_sim_LRU_update_on_hit`:
`for (j = 0; j < cache_assoc; j++) if (replacement[j] == assoc) break;`.
The first argument is `cache_assoc - j`; the result is the final `j`. -/
def iplc_sim_LRU_update_on_hit.scan (replacement : List Nat) (assoc : Nat) : Nat → Nat → Nat
  | 0, j => j
  | n + 1, j =>
    if replacement.getD j 0 = assoc then j
    else iplc_sim_LRU_update_on_hit.scan replacement assoc n (j + 1)

/-- Second loop of `iplc_sim_LRU_update_on_hit`:
`for (i = j+1; i < cache_assoc; i++) replacement[i-1] = replacement[i];`.
The first argument is `cache_assoc - i`. -/
def iplc_sim_LRU_update_on_hit.percolate : Nat → Nat → List Nat → List Nat
  | 0, _, replacement => replacement
  | n + 1, i, replacement =>
    iplc_sim_LRU_update_on_hit.percolate n (i + 1)
      (replacement.set (i - 1) (replacement.getD i 0))

/-- The effect of `iplc_sim_LRU_update_on_hit` on the recency list of the set. -/
def iplc_sim_LRU_update_on_hit.recency (cache_assoc : Nat) (replacement : List Nat)
    (assoc : Nat) : List Nat :=
  let j := iplc_sim_LRU_update_on_hit.scan replacement assoc cache_assoc 0
  let replacement := iplc_sim_LRU_update_on_hit.percolate (cache_assoc - (j + 1)) (j + 1) replacement
  replacement.set (cache_assoc - 1) assoc

/-- The function `iplc_sim_LRU_update_on_hit`. -/
def iplc_sim_LRU_update_on_hit (s : Sim) (index assoc : Nat) : Sim :=
  let line := s.cache.getD index default
  { s with
    cache := s.cache.set index
      { line with
        replacement := iplc_sim_LRU_update_on_hit.recency s.cache_assoc line.replacement assoc }
    cache_hit := s.cache_hit + 1 }

/-- The set index computed by `iplc_sim_trap_address`:
`(address >> cache_blockoffsetbits) % (1 << cache_index)`. -/
def indexOf (s : Sim) (address : Nat) : Nat :=
  (address >>> s.cache_blockoffsetbits) % (1 <<< s.cache_index)

/-- The tag computed by `iplc_sim_trap_address`:
`address >> (cache_blockoffsetbits + cache_index)`. -/
def tagOf (s : Sim) (address : Nat) : Nat :=
  address >>> (s.cache_blockoffsetbits + s.cache_index)

/-- The loop of `iplc_sim_trap_address` over the ways of the set, followed by
the miss path. The first numeric argument is `cache_assoc - i`. -/
def iplc_sim_trap_address.scan (s : Sim) (index tag : Nat) : Nat → Nat → Sim × Nat
  | 0, _ => (iplc_sim_LRU_replace_on_miss s index tag, 0)
  | n + 1, i =>
    if ((s.cache.getD index default).assoc.getD i default).tag = tag
        ∧ ((s.cache.getD index default).assoc.getD i default).vb = 1 then
      (iplc_sim_LRU_update_on_hit s index i, 1)
    else iplc_sim_trap_address.scan s index tag n (i + 1)

/-- The function `iplc_sim_trap_address`: the new globals and the returned
`int` (1 for a hit, 0 for a miss). -/
def iplc_sim_trap_address (s : Sim) (address : Nat) : Sim × Nat :=
  iplc_sim_trap_address.scan s (indexOf s address) (tagOf s address) s.cache_assoc 0

/-! ## Pipeline functions -/

/-- Wrap-around of `unsigned int` arithmetic. -/
def u32 (n : Nat) : Nat := n % 2 ^ 32

/-- The assignments `x.itype = y.itype; x.instruction_address = y.instruction_address;`. -/
def pipeline_t.copyKind (x y : pipeline_t) : pipeline_t :=
  { x with itype := y.itype, instruction_address := y.instruction_address }

/-- The assignment `x.stage.lw.data_address = d` (the same word as
`x.stage.sw.data_address`). -/
def pipeline_t.setData (x : pipeline_t) (d : Nat) : pipeline_t :=
  { x with stage := { x.stage with data_address := d } }

/-- The assignment `x.stage.rtype.dest_reg = r`. -/
def pipeline_t.setDest (x : pipeline_t) (r : Nat) : pipeline_t :=
  { x with stage := { x.stage with dest_reg := r } }

/-- The statements `pipeline[WRITEBACK].itype = pipeline[MEM].itype;`
`pipeline[WRITEBACK].instruction_address = pipeline[MEM].instruction_address;`. -/
def Pipeline.kindWM (p : Pipeline) : Pipeline :=
  { p with WRITEBACK := p.WRITEBACK.copyKind p.MEM }

/-- The statements `pipeline[MEM].itype = pipeline[ALU].itype;`
`pipeline[MEM].instruction_address = pipeline[ALU].instruction_address;`. -/
def Pipeline.kindMA (p : Pipeline) : Pipeline :=
  { p with MEM := p.MEM.copyKind p.ALU }

/-- The statements `pipeline[ALU].itype = pipeline[DECODE].itype;`
`pipeline[ALU].instruction_address = pipeline[DECODE].instruction_address;`. -/
def Pipeline.kindAD (p : Pipeline) : Pipeline :=
  { p with ALU := p.ALU.copyKind p.DECODE }

/-- The statements `pipeline[DECODE].itype = pipeline[FETCH].itype;`
`pipeline[DECODE].instruction_address = pipeline[FETCH].instruction_address;`. -/
def Pipeline.kindDF (p : Pipeline) : Pipeline :=
  { p with DECODE := p.DECODE.copyKind p.FETCH }

/-- The statements `pipeline[DECODE].itype = NOP;`
`pipeline[DECODE].instruction_address = 0x0;`. -/
def Pipeline.nopD (p : Pipeline) : Pipeline :=
  { p with DECODE := { p.DECODE with itype := instruction_type.NOP, instruction_address := 0 } }

/-- The statement `if (pipeline[WRITEBACK].itype == k)`
`pipeline[WRITEBACK].stage.lw.data_address = pipeline[MEM].stage.lw.data_address;`
for `k = LW`, and the same with `sw` for `k = SW`. -/
def Pipeline.dataWM (k : instruction_type) (p : Pipeline) : Pipeline :=
  if p.WRITEBACK.itype = k then
    { p with WRITEBACK := p.WRITEBACK.setData p.MEM.stage.data_address }
  else p

/-- The statement `if (pipeline[MEM].itype == k)`
`pipeline[MEM].stage.lw.data_address = pipeline[ALU].stage.lw.data_address;`
for `k = LW`, and the same with `sw` for `k = SW`. -/
def Pipeline.dataMA (k : instruction_type) (p : Pipeline) : Pipeline :=
  if p.MEM.itype = k then
    { p with MEM := p.MEM.setData p.ALU.stage.data_address }
  else p

/-- The statement `if (pipeline[ALU].itype == k)`
`pipeline[ALU].stage.lw.data_address = pipeline[DECODE].stage.lw.data_address;`
for `k = LW`, and the same with `sw` for `k = SW`. -/
def Pipeline.dataAD (k : instruction_type) (p : Pipeline) : Pipeline :=
  if p.ALU.itype = k then
    { p with ALU := p.ALU.setData p.DECODE.stage.data_address }
  else p

/-- The statement `if (pipeline[DECODE].itype == k)`
`pipeline[DECODE].stage.lw.data_address = pipeline[FETCH].stage.lw.data_address;`
for `k = LW`, and the same with `sw` for `k = SW`. -/
def Pipeline.dataDF (k : instruction_type) (p : Pipeline) : Pipeline :=
  if p.DECODE.itype = k then
    { p with DECODE := p.DECODE.setData p.FETCH.stage.data_address }
  else p

/-- The forced shift written out in both misprediction arms of step 2 of
`iplc_sim_push_pipeline_stage` (the two arms are the same statements), up to
the last data-address copy. -/
def iplc_sim_push_pipeline_stage.squash (p : Pipeline) : Pipeline :=
  -- Forward DECODE to WRITEBACK
  let p := p.kindWM
  let p := p.kindMA
  let p := p.kindAD
  -- Place NOP in DECODE
  let p := p.nopD
  -- If LW
  let p := p.dataWM instruction_type.LW
  let p := p.dataMA instruction_type.LW
  let p := p.dataAD instruction_type.LW
  -- If SW
  let p := p.dataWM instruction_type.SW
  let p := p.dataMA instruction_type.SW
  let p := p.dataAD instruction_type.SW
  p

/-- A misprediction arm of step 2: the penalty cycle, the forced shift and the
second retirement. -/
def iplc_sim_push_pipeline_stage.mispredict (s : Sim) : Sim :=
  let s := { s with pipeline_cycles := u32 (s.pipeline_cycles + 1) }
  let s := { s with pipeline := iplc_sim_push_pipeline_stage.squash s.pipeline }
  if s.pipeline.WRITEBACK.instruction_address ≠ 0 then
    { s with instruction_count := u32 (s.instruction_count + 1) }
  else s

/-- Step 1 of `iplc_sim_push_pipeline_stage`: retire the WRITEBACK slot. -/
def iplc_sim_push_pipeline_stage.retire (s : Sim) : Sim :=
  if s.pipeline.WRITEBACK.instruction_address ≠ 0 then
    { s with instruction_count := u32 (s.instruction_count + 1) }
  else s

/-- The local `branch_taken` of step 2 (meaningful when DECODE holds a BRANCH). -/
def iplc_sim_push_pipeline_stage.branch_taken (s : Sim) : Nat :=
  if s.pipeline.FETCH.instruction_address ≠ u32 (s.pipeline.DECODE.instruction_address + 4)
  then 1 else 0

/-- Step 2 of `iplc_sim_push_pipeline_stage`: branch outcome against the
prediction. -/
def iplc_sim_push_pipeline_stage.branch (s : Sim) : Sim :=
  if s.pipeline.DECODE.itype = instruction_type.BRANCH then
    if iplc_sim_push_pipeline_stage.branch_taken s ≠ 0 then
      if s.branch_predict_taken ≠ 0 then
        { s with correct_branch_predictions := u32 (s.correct_branch_predictions + 1) }
      else iplc_sim_push_pipeline_stage.mispredict s
    else if ¬ (iplc_sim_push_pipeline_stage.branch_taken s ≠ 0) then
      if ¬ (s.branch_predict_taken ≠ 0) then
        { s with correct_branch_predictions := u32 (s.correct_branch_predictions + 1) }
      else iplc_sim_push_pipeline_stage.mispredict s
    else s
  else s

/-- The body shared by steps 3 and 4: probe the cache with the data address of
the MEM slot and add 9 cycles on a miss. -/
def iplc_sim_push_pipeline_stage.dataProbe (s : Sim) : Sim :=
  let r := iplc_sim_trap_address s s.pipeline.MEM.stage.data_address
  if r.2 = 0 then { r.1 with pipeline_cycles := u32 (r.1.pipeline_cycles + 9) } else r.1

/-- Steps 3 and 4 of `iplc_sim_push_pipeline_stage`. -/
def iplc_sim_push_pipeline_stage.memory (s : Sim) : Sim :=
  let s := if s.pipeline.MEM.itype = instruction_type.LW then
      iplc_sim_push_pipeline_stage.dataProbe s else s
  let s := if s.pipeline.MEM.itype = instruction_type.SW then
      iplc_sim_push_pipeline_stage.dataProbe s else s
  s

/-- Step 6 of `iplc_sim_push_pipeline_stage`: the four stage copies, each one
the kind and address, then the data address when the copied kind is LW, then
when it is SW. -/
def iplc_sim_push_pipeline_stage.shift (p : Pipeline) : Pipeline :=
  -- MEM Forwarded to WB
  let p := p.kindWM
  let p := p.dataWM instruction_type.LW
  let p := p.dataWM instruction_type.SW
  -- ALU Forwarded to MEM
  let p := p.kindMA
  let p := p.dataMA instruction_type.LW
  let p := p.dataMA instruction_type.SW
  -- DECODE Forwarded to ALU
  let p := p.kindAD
  let p := p.dataAD instruction_type.LW
  let p := p.dataAD instruction_type.SW
  -- FETCH Forwarded to DECODE
  let p := p.kindDF
  let p := p.dataDF instruction_type.LW
  let p := p.dataDF instruction_type.SW
  p

/-- The statement `if (pipeline[DECODE].stage.rtype.reg1 == pipeline[ALU].stage.rtype.dest_reg)`
`pipeline[ALU].stage.rtype.dest_reg = pipeline[DECODE].stage.rtype.reg1;`. -/
def Pipeline.forwardA1 (p : Pipeline) : Pipeline :=
  if p.DECODE.stage.reg1 = p.ALU.stage.dest_reg then
    { p with ALU := p.ALU.setDest p.DECODE.stage.reg1 }
  else p

/-- The statement
`if (pipeline[DECODE].stage.rtype.reg2_or_constant == pipeline[ALU].stage.rtype.dest_reg)`
`pipeline[ALU].stage.rtype.dest_reg = pipeline[DECODE].stage.rtype.reg2_or_constant;`. -/
def Pipeline.forwardA2 (p : Pipeline) : Pipeline :=
  if p.DECODE.stage.reg2_or_constant = p.ALU.stage.dest_reg then
    { p with ALU := p.ALU.setDest p.DECODE.stage.reg2_or_constant }
  else p

/-- The statement `if (pipeline[DECODE].stage.rtype.reg1 == pipeline[MEM].stage.rtype.dest_reg)`
`pipeline[MEM].stage.rtype.dest_reg = pipeline[DECODE].stage.rtype.reg1;`. -/
def Pipeline.forwardM1 (p : Pipeline) : Pipeline :=
  if p.DECODE.stage.reg1 = p.MEM.stage.dest_reg then
    { p with MEM := p.MEM.setDest p.DECODE.stage.reg1 }
  else p

/-- The statement
`if (pipeline[DECODE].stage.rtype.reg2_or_constant == pipeline[MEM].stage.rtype.dest_reg)`
`pipeline[MEM].stage.rtype.dest_reg = pipeline[DECODE].stage.rtype.reg2_or_constant;`. -/
def Pipeline.forwardM2 (p : Pipeline) : Pipeline :=
  if p.DECODE.stage.reg2_or_constant = p.MEM.stage.dest_reg then
    { p with MEM := p.MEM.setDest p.DECODE.stage.reg2_or_constant }
  else p

/-- The register forwarding block of `iplc_sim_push_pipeline_stage`. -/
def iplc_sim_push_pipeline_stage.forward (p : Pipeline) : Pipeline :=
  let p := p.forwardA1
  let p := p.forwardA2
  let p := p.forwardM1
  let p := p.forwardM2
  p

/-- The function `iplc_sim_push_pipeline_stage`. -/
def iplc_sim_push_pipeline_stage (s : Sim) : Sim :=
  let s := iplc_sim_push_pipeline_stage.retire s
  let s := iplc_sim_push_pipeline_stage.branch s
  let s := iplc_sim_push_pipeline_stage.memory s
  let s := { s with pipeline_cycles := u32 (s.pipeline_cycles + 1) }
  let s := { s with pipeline := iplc_sim_push_pipeline_stage.shift s.pipeline }
  let s := { s with pipeline := iplc_sim_push_pipeline_stage.forward s.pipeline }
  { s with pipeline := { s.pipeline with FETCH := pipeline_t.zero } }

/-- The 32-bit pattern of the `int` value `-1`. -/
def minusOne : Nat := 2 ^ 32 - 1

/-- Word `k` of a 16-byte buffer that was all zero and then received the
string `instruction` (its bytes, without the terminating 0) by `strcpy`;
bytes are packed least significant first. -/
def strcpyWord (instruction : List Nat) (k : Nat) : Nat :=
  instruction.getD (4 * k) 0 + 2 ^ 8 * instruction.getD (4 * k + 1) 0
    + 2 ^ 16 * instruction.getD (4 * k + 2) 0 + 2 ^ 24 * instruction.getD (4 * k + 3) 0

/-- The assignment of `pipeline[FETCH]`. -/
def Sim.setFetch (s : Sim) (x : pipeline_t) : Sim :=
  { s with pipeline := { s.pipeline with FETCH := x } }

/-- The function `iplc_sim_process_pipeline_rtype`. The FETCH slot is all zero
when `strcpy` runs, since the push ends with `bzero`. -/
def iplc_sim_process_pipeline_rtype (s : Sim) (instruction : List Nat)
    (dest_reg reg1 reg2_or_constant : Nat) : Sim :=
  let s := iplc_sim_push_pipeline_stage s
  let f := s.pipeline.FETCH
  let f := { f with itype := instruction_type.RTYPE }
  let f := { f with instruction_address := s.instruction_address }
  let f := { f with stage := { f.stage with
              data_address := strcpyWord instruction 0, word1 := strcpyWord instruction 1,
              word2 := strcpyWord instruction 2, word3 := strcpyWord instruction 3 } }
  let f := { f with stage := { f.stage with reg1 := reg1 } }
  let f := { f with stage := { f.stage with reg2_or_constant := reg2_or_constant } }
  let f := { f with stage := { f.stage with dest_reg := dest_reg } }
  s.setFetch f

/-- The function `iplc_sim_process_pipeline_lw`. -/
def iplc_sim_process_pipeline_lw (s : Sim) (dest_reg base_reg data_address : Nat) : Sim :=
  let s := iplc_sim_push_pipeline_stage s
  let f := s.pipeline.FETCH
  let f := { f with itype := instruction_type.LW }
  let f := { f with instruction_address := s.instruction_address }
  let f := { f with stage := { f.stage with word2 := base_reg } }
  let f := { f with stage := { f.stage with word1 := dest_reg } }
  let f := { f with stage := { f.stage with data_address := data_address } }
  let s := s.setFetch f
  { s with cache_access := s.cache_access + 1 }

/-- The function `iplc_sim_process_pipeline_sw` (it stores `src_reg` and then
`base_reg` into the same field `sw.base_reg`). -/
def iplc_sim_process_pipeline_sw (s : Sim) (src_reg base_reg data_address : Nat) : Sim :=
  let s := iplc_sim_push_pipeline_stage s
  let f := s.pipeline.FETCH
  let f := { f with itype := instruction_type.SW }
  let f := { f with instruction_address := s.instruction_address }
  let f := { f with stage := { f.stage with word2 := src_reg } }
  let f := { f with stage := { f.stage with word2 := base_reg } }
  let f := { f with stage := { f.stage with data_address := data_address } }
  let s := s.setFetch f
  { s with cache_access := s.cache_access + 1 }

/-- The function `iplc_sim_process_pipeline_branch` (`branch.reg1` and
`branch.reg2` are words 0 and 1 of the union). -/
def iplc_sim_process_pipeline_branch (s : Sim) (reg1 reg2 : Nat) : Sim :=
  let s := iplc_sim_push_pipeline_stage s
  let f := s.pipeline.FETCH
  let f := { f with itype := instruction_type.BRANCH }
  let f := { f with instruction_address := s.instruction_address }
  let f := { f with stage := { f.stage with data_address := reg1 } }
  let f := { f with stage := { f.stage with word1 := reg2 } }
  s.setFetch f

/-- The function `iplc_sim_process_pipeline_jump`. -/
def iplc_sim_process_pipeline_jump (s : Sim) (instruction : List Nat) : Sim :=
  let s := iplc_sim_push_pipeline_stage s
  let f := s.pipeline.FETCH
  let f := { f with itype := instruction_type.JUMP }
  let f := { f with instruction_address := s.instruction_address }
  let f := { f with stage := { f.stage with
              data_address := strcpyWord instruction 0, word1 := strcpyWord instruction 1,
              word2 := strcpyWord instruction 2, word3 := strcpyWord instruction 3 } }
  s.setFetch f

/-- The function `iplc_sim_process_pipeline_syscall`. -/
def iplc_sim_process_pipeline_syscall (s : Sim) : Sim :=
  let s := iplc_sim_push_pipeline_stage s
  let f := s.pipeline.FETCH
  let f := { f with itype := instruction_type.SYSCALL }
  let f := { f with instruction_address := s.instruction_address }
  s.setFetch f

/-- The function `iplc_sim_process_pipeline_nop`. -/
def iplc_sim_process_pipeline_nop (s : Sim) : Sim :=
  let s := iplc_sim_push_pipeline_stage s
  let f := s.pipeline.FETCH
  let f := { f with itype := instruction_type.NOP }
  let f := { f with instruction_address := s.instruction_address }
  s.setFetch f

/-! ## Driver -/

/-- What the `sscanf` and `strncmp` calls of `iplc_sim_parse_instruction`
extract from a well-formed trace line after its address: the arm of the
mnemonic dispatch together with the values that arm passes on. Mnemonics are
given by their bytes. For `lui` the arm passes `reg1 = reg2_or_constant = -1`. -/
inductive TraceOp where
  | rtype (instruction : List Nat) (dest_reg reg1 reg2_or_constant : Nat)
  | lw (dest_reg data_address : Nat)
  | sw (src_reg data_address : Nat)
  | beq
  | jump (instruction : List Nat)
  | syscall
  | nop
deriving DecidableEq, Repr, Inhabited

/-- The stall loop of `iplc_sim_parse_instruction`:
`for (i = pipeline_cycles, j = pipeline_cycles; i < j + CACHE_MISS_DELAY - 1; i++)`
`iplc_sim_push_pipeline_stage();`. The first argument is `j + CACHE_MISS_DELAY - 1 - i`. -/
def iplc_sim_parse_instruction.stall : Nat → Sim → Sim
  | 0, s => s
  | n + 1, s => iplc_sim_parse_instruction.stall n (iplc_sim_push_pipeline_stage s)

/-- The instruction fetch of `iplc_sim_parse_instruction`: the address read by
`sscanf`, the probe of the instruction address and `cache_access++`. The
result carries `instruction_hit`. -/
def iplc_sim_parse_instruction.probe (s : Sim) (address : Nat) : Sim × Nat :=
  let s := { s with instruction_address := address }
  let r := iplc_sim_trap_address s s.instruction_address
  let instruction_hit := r.2
  let s := r.1
  let s := { s with cache_access := s.cache_access + 1 }
  (s, instruction_hit)

/-- The mnemonic dispatch of `iplc_sim_parse_instruction`: the call of the
`iplc_sim_process_pipeline_*` function of the trace line. -/
def iplc_sim_parse_instruction.dispatch (s : Sim) (op : TraceOp) : Sim :=
  match op with
  | TraceOp.rtype instruction dest_reg reg1 reg2_or_constant =>
    iplc_sim_process_pipeline_rtype s instruction dest_reg reg1 reg2_or_constant
  | TraceOp.lw dest_reg data_address =>
    let s := { s with data_address := data_address }
    iplc_sim_process_pipeline_lw s dest_reg minusOne s.data_address
  | TraceOp.sw src_reg data_address =>
    let s := { s with data_address := data_address }
    iplc_sim_process_pipeline_sw s src_reg minusOne s.data_address
  | TraceOp.beq =>
    let s := { s with branch_count := u32 (s.branch_count + 1) }
    iplc_sim_process_pipeline_branch s minusOne minusOne
  | TraceOp.jump instruction => iplc_sim_process_pipeline_jump s instruction
  | TraceOp.syscall => iplc_sim_process_pipeline_syscall s
  | TraceOp.nop => iplc_sim_process_pipeline_nop s

/-- The function `iplc_sim_parse_instruction` on a well-formed trace line with
instruction address `address` (malformed lines end the program): the fetch
probe, the stall cycles on a miss, the dispatch. -/
def iplc_sim_parse_instruction (s : Sim) (address : Nat) (op : TraceOp) : Sim :=
  let r := iplc_sim_parse_instruction.probe s address
  let instruction_hit := r.2
  let s := r.1
  let s := if instruction_hit = 0 then iplc_sim_parse_instruction.stall (CACHE_MISS_DELAY - 1) s
    else s
  iplc_sim_parse_instruction.dispatch s op

/-- The loop condition of `iplc_sim_finalize`: some slot is not a NOP. -/
def Pipeline.busy (p : Pipeline) : Bool :=
  p.FETCH.itype ≠ instruction_type.NOP || p.DECODE.itype ≠ instruction_type.NOP
    || p.ALU.itype ≠ instruction_type.NOP || p.MEM.itype ≠ instruction_type.NOP
    || p.WRITEBACK.itype ≠ instruction_type.NOP

/-- The loop of `iplc_sim_finalize`, run for at most `fuel` iterations:
`while (some slot is not NOP) iplc_sim_push_pipeline_stage();`. -/
def iplc_sim_finalize.drain : Nat → Sim → Sim
  | 0, s => s
  | fuel + 1, s =>
    if s.pipeline.busy then iplc_sim_finalize.drain fuel (iplc_sim_push_pipeline_stage s)
    else s

/-- The function `iplc_sim_finalize` up to its output: the drain loop. Every
cycle empties FETCH and moves the other slots on, so the loop ends within
five iterations (theorem `finalize_settles`). -/
def iplc_sim_finalize (s : Sim) : Sim := iplc_sim_finalize.drain 5 s

/-- The read loop of `main`: every trace line is handed to
`iplc_sim_parse_instruction`, in order. -/
def runTrace (s : Sim) : List (Nat × TraceOp) → Sim
  | [] => s
  | line :: rest => runTrace (iplc_sim_parse_instruction s line.1 line.2) rest

/-! ## Vocabulary of the statements -/

/-- Way `i` of set `index`: `cache[index].assoc[i]`. -/
def wayOf (s : Sim) (index i : Nat) : assoc_t :=
  (s.cache.getD index default).assoc.getD i default

/-- The states reached from `iplc_sim_init index blocksize assoc` by calls of
`iplc_sim_trap_address`. -/
inductive CacheReachable (index blocksize assoc : Nat) : Sim → Prop where
  | configure (g s : Sim) :
      iplc_sim_init g index blocksize assoc = some s → CacheReachable index blocksize assoc s
  | probe (s : Sim) (address : Nat) :
      CacheReachable index blocksize assoc s →
      CacheReachable index blocksize assoc (iplc_sim_trap_address s address).1

/-- The shape every configured cache keeps: `1 << index` sets of `assoc` ways,
each recency list a permutation of the way indices. -/
def CacheShape (index assoc : Nat) (s : Sim) : Prop :=
  s.cache_index = index ∧ s.cache_assoc = assoc ∧ s.cache.length = 1 <<< index ∧
    ∀ line ∈ s.cache, line.assoc.length = assoc ∧ line.replacement.Perm (List.range assoc)

/-- A probe together with the caller's count of it, as in
`iplc_sim_parse_instruction`:
`instruction_hit = iplc_sim_trap_address(instruction_address); cache_access++;`. -/
def countedProbe (s : Sim) (address : Nat) : Sim :=
  let r := iplc_sim_trap_address s address
  { r.1 with cache_access := r.1.cache_access + 1 }

/-- A sequence of counted probes. -/
def countedProbes (s : Sim) : List Nat → Sim
  | [] => s
  | address :: rest => countedProbes (countedProbe s address) rest

/-- The value 1 when the slot holds a LW or a SW, else 0. -/
def pipeline_t.isMemory (x : pipeline_t) : Nat :=
  if x.itype = instruction_type.LW ∨ x.itype = instruction_type.SW then 1 else 0

/-- The number of LW and SW slots among FETCH, DECODE, ALU and MEM: the
memory instructions whose data probe has not happened yet. -/
def Pipeline.pending (p : Pipeline) : Nat :=
  p.FETCH.isMemory + p.DECODE.isMemory + p.ALU.isMemory + p.MEM.isMemory

/-- The comparison of step 2 of `iplc_sim_push_pipeline_stage` comes out as a
misprediction: the branch is taken and the mode is not-taken, or the reverse. -/
def Sim.mispredicts (s : Sim) : Prop :=
  (iplc_sim_push_pipeline_stage.branch_taken s ≠ 0 ∧ s.branch_predict_taken = 0)
    ∨ (iplc_sim_push_pipeline_stage.branch_taken s = 0 ∧ s.branch_predict_taken ≠ 0)

instance (s : Sim) : Decidable s.mispredicts := by
  unfold Sim.mispredicts
  exact inferInstance

/-- The number of data probes that the cycle started in this state leaves out:
1 when it resolves a mispredicted BRANCH in DECODE while MEM holds a LW or a
SW (the forced shift moves that slot to WRITEBACK before steps 3 and 4 look at
MEM), else 0. -/
def Sim.skipped (s : Sim) : Nat :=
  if s.pipeline.DECODE.itype = instruction_type.BRANCH ∧ s.mispredicts then
    s.pipeline.MEM.isMemory
  else 0

/-- The states reached from a fresh program (all counters 0, prediction mode
`predict`) configured by `iplc_sim_init`, through the parts of a driver step
(the fetch probe with its `cache_access++`, cycles, the dispatch that inserts
the instruction) and through further cycles (advance, drain). A cycle may
start only in a state that satisfies `guard`. -/
inductive DriverReachable (guard : Sim → Prop) (index blocksize assoc predict : Nat) :
    Sim → Prop where
  | configure (s : Sim) :
      iplc_sim_init { Sim.start with branch_predict_taken := predict } index blocksize assoc
        = some s →
      DriverReachable guard index blocksize assoc predict s
  | fetch (s : Sim) (address : Nat) :
      DriverReachable guard index blocksize assoc predict s →
      DriverReachable guard index blocksize assoc predict
        (iplc_sim_parse_instruction.probe s address).1
  | advance (s : Sim) :
      DriverReachable guard index blocksize assoc predict s → guard s →
      DriverReachable guard index blocksize assoc predict (iplc_sim_push_pipeline_stage s)
  | insert (s : Sim) (op : TraceOp) :
      DriverReachable guard index blocksize assoc predict s → guard s →
      DriverReachable guard index blocksize assoc predict
        (iplc_sim_parse_instruction.dispatch s op)

/-- No restriction on the cycles. -/
def anyCycle (_ : Sim) : Prop := True

/-- Only cycles that do not resolve a mispredicted BRANCH while MEM holds a LW
or a SW. -/
def noSquashedMemory (s : Sim) : Prop := s.skipped = 0

/-! ## Concrete configurations -/

/-- A fresh program configured with 1 index bit, blocks of 1 word and 1 way. -/
def directMapped : Sim := (iplc_sim_init Sim.start 1 1 1).getD Sim.start

/-- A fresh program configured with one set of 2 ways, blocks of 1 word. -/
def twoWay : Sim := (iplc_sim_init Sim.start 0 1 2).getD Sim.start

/-- A fresh program configured with one set of 3 ways, blocks of 1 word. -/
def threeWay : Sim := (iplc_sim_init Sim.start 0 1 3).getD Sim.start

/-- The state after the driver step for the trace line `100 lw $1 0($2) 200`
(hexadecimal addresses) on `directMapped`. -/
def afterLoad : Sim := iplc_sim_parse_instruction directMapped 256 (TraceOp.lw 1 512)

/-- The result flags of a sequence of probes, with the final state. -/
def probeAll (s : Sim) : List Nat → Sim × List Nat
  | [] => (s, [])
  | address :: rest =>
    let r := iplc_sim_trap_address s address
    let q := probeAll r.1 rest
    (q.1, r.2 :: q.2)

/-- The first `k` slots, counted from FETCH, hold a NOP. -/
def Pipeline.leading (k : Nat) (p : Pipeline) : Prop :=
  (1 ≤ k → p.FETCH.itype = instruction_type.NOP)
  ∧ (2 ≤ k → p.DECODE.itype = instruction_type.NOP)
  ∧ (3 ≤ k → p.ALU.itype = instruction_type.NOP)
  ∧ (4 ≤ k → p.MEM.itype = instruction_type.NOP)
  ∧ (5 ≤ k → p.WRITEBACK.itype = instruction_type.NOP)

/-! ## Vocabulary of the statements: configuration -/

/-- The globals when `iplc_sim_init` reaches its size check (the assignments
before `if (cache_size > MAX_CACHE_SIZE)`): the four configuration variables
are set, `cache` has not been assigned yet. -/
def iplc_sim_init.checked (g : Sim) (index blocksize assoc : Nat) : Sim :=
  { g with
    cache_index := index
    cache_blocksize := blocksize
    cache_assoc := assoc
    cache_blockoffsetbits := rintLog2 (blocksize * 4) }

/-- The value of the `int` expression assigned to `cache_size`, as an integer. -/
def cacheSize (index blocksize assoc : Nat) : Int :=
  (assoc : Int) * 2 ^ index *
    (32 * (blocksize : Int) + 33 - (index : Int) - (rintLog2 (blocksize * 4) : Int))

/-! ## Vocabulary of the statements: one cycle -/

/-- The globals when step 3 of `iplc_sim_push_pipeline_stage` starts, that is
after steps 1 and 2. -/
def Sim.atStep3 (s : Sim) : Sim :=
  iplc_sim_push_pipeline_stage.branch (iplc_sim_push_pipeline_stage.retire s)

/-- The value 1 when DECODE holds a BRANCH whose outcome differs from the
configured prediction, else 0. -/
def Sim.penalty (s : Sim) : Nat :=
  if s.pipeline.DECODE.itype = instruction_type.BRANCH ∧ s.mispredicts then 1 else 0

/-- The value 1 when the slot in MEM at step 3 holds a LW or a SW and the probe
of its data address returns 0 (miss), else 0. -/
def Sim.dataMiss (s : Sim) : Nat :=
  if s.atStep3.pipeline.MEM.isMemory = 1
      ∧ (iplc_sim_trap_address s.atStep3 s.atStep3.pipeline.MEM.stage.data_address).2 = 0
  then 1 else 0

/-- A fresh program configured with 1 index bit, blocks of 4 words and 1 way. -/
def wideBlock : Sim := (iplc_sim_init Sim.start 1 4 1).getD Sim.start

/-- The state of Scenario C: on `wideBlock` (prediction mode not-taken) a `beq`
at address 256 and then a `nop` at address 260, of the same block, have been
processed, so DECODE holds the BRANCH and FETCH the address `256 + 4`. -/
def scenarioC : Sim :=
  runTrace wideBlock [(256, TraceOp.beq), (260, TraceOp.nop)]

/-- The number of calls of `iplc_sim_push_pipeline_stage` that the loop of
`iplc_sim_finalize` makes when it is run for at most `fuel` iterations. -/
def iplc_sim_finalize.calls : Nat → Sim → Nat
  | 0, _ => 0
  | fuel + 1, s =>
    if s.pipeline.busy then iplc_sim_finalize.calls fuel (iplc_sim_push_pipeline_stage s) + 1
    else 0

/-- All five slots hold a NOP. -/
def Pipeline.idle (p : Pipeline) : Prop :=
  p.FETCH.itype = instruction_type.NOP ∧ p.DECODE.itype = instruction_type.NOP
  ∧ p.ALU.itype = instruction_type.NOP ∧ p.MEM.itype = instruction_type.NOP
  ∧ p.WRITEBACK.itype = instruction_type.NOP

/-- The run of Scenario A: the one-line trace `100 nop` (hexadecimal address)
on `directMapped`, then `iplc_sim_finalize`. -/
def scenarioA : Sim := iplc_sim_finalize (runTrace directMapped [(256, TraceOp.nop)])

/-- The cycle counter is far enough below `2^32` for one cycle, which adds at
most 11. -/
def cyclesFit (s : Sim) : Prop := s.pipeline_cycles + 11 < 2 ^ 32

/-- The branch counter is far enough below `2^32` for one more BRANCH. -/
def branchesFit (s : Sim) : Prop := s.branch_count + 1 < 2 ^ 32

/-- The value 1 when the slot holds a BRANCH, else 0. -/
def pipeline_t.isBranch (x : pipeline_t) : Nat :=
  if x.itype = instruction_type.BRANCH then 1 else 0

/-- The number of BRANCH slots in FETCH and DECODE: the branches that have not
been compared with the prediction yet. -/
def Pipeline.unresolved (p : Pipeline) : Nat := p.FETCH.isBranch + p.DECODE.isBranch


/-! ## Vocabulary of the statements: the data probes of a run -/

/-- The block number of an address: `address >> cache_blockoffsetbits`. -/
def blockOf (s : Sim) (address : Nat) : Nat := address >>> s.cache_blockoffsetbits

/-- Some valid way of the set of `address` holds the tag of `address`. -/
def Sim.resident (s : Sim) (address : Nat) : Prop :=
  ∃ k, k < s.cache_assoc ∧ (wayOf s (indexOf s address) k).vb = 1
    ∧ (wayOf s (indexOf s address) k).tag = tagOf s address

/-- The two states have the same cache and the same cache geometry. -/
def Sim.sameCache (s t : Sim) : Prop :=
  s.cache = t.cache ∧ s.cache_index = t.cache_index
    ∧ s.cache_blockoffsetbits = t.cache_blockoffsetbits ∧ s.cache_assoc = t.cache_assoc

/-- One MEM-stage data probe: the probed address, the value returned by
`iplc_sim_trap_address` (1 for a hit, 0 for a miss) and the number of cycles
that the cycle of the probe adds to `pipeline_cycles` (1 is the base cost). -/
structure DataProbe where
  address : Nat
  result : Nat
  cycles : Nat
deriving DecidableEq, Repr

/-- The data probe made by the cycle started in `s`, if it makes one: steps 3
and 4 of `iplc_sim_push_pipeline_stage` call `iplc_sim_trap_address` when the
MEM slot holds a LW or a SW. -/
def iplc_sim_push_pipeline_stage.probes (s : Sim) : List DataProbe :=
  if s.atStep3.pipeline.MEM.isMemory = 1 then
    [{ address := s.atStep3.pipeline.MEM.stage.data_address,
       result := (iplc_sim_trap_address s.atStep3 s.atStep3.pipeline.MEM.stage.data_address).2,
       cycles := (iplc_sim_push_pipeline_stage s).pipeline_cycles - s.pipeline_cycles }]
  else []

/-- The data probes made by the stall loop of `iplc_sim_parse_instruction`, in
order. -/
def iplc_sim_parse_instruction.stall.probes : Nat → Sim → List DataProbe
  | 0, _ => []
  | n + 1, s =>
    iplc_sim_push_pipeline_stage.probes s
      ++ iplc_sim_parse_instruction.stall.probes n (iplc_sim_push_pipeline_stage s)

/-- The globals when the `iplc_sim_process_pipeline_*` function called by the
dispatch calls `iplc_sim_push_pipeline_stage`: the arm of a `lw` or `sw` has
stored the data address, the arm of a branch has counted it. -/
def iplc_sim_parse_instruction.dispatch.entry (s : Sim) : TraceOp → Sim
  | TraceOp.lw _ data_address => { s with data_address := data_address }
  | TraceOp.sw _ data_address => { s with data_address := data_address }
  | TraceOp.beq => { s with branch_count := u32 (s.branch_count + 1) }
  | _ => s

/-- The data probes made by `iplc_sim_parse_instruction` on one trace line:
those of the stall cycles after a fetch miss, then that of the cycle run by
the dispatched `iplc_sim_process_pipeline_*` function. -/
def iplc_sim_parse_instruction.probes (s : Sim) (address : Nat) (op : TraceOp) :
    List DataProbe :=
  let r := iplc_sim_parse_instruction.probe s address
  if r.2 = 0 then
    iplc_sim_parse_instruction.stall.probes (CACHE_MISS_DELAY - 1) r.1
      ++ iplc_sim_push_pipeline_stage.probes
          (iplc_sim_parse_instruction.dispatch.entry
            (iplc_sim_parse_instruction.stall (CACHE_MISS_DELAY - 1) r.1) op)
  else
    iplc_sim_push_pipeline_stage.probes (iplc_sim_parse_instruction.dispatch.entry r.1 op)

/-- The data probes made by the read loop of `main`, in order. -/
def runTrace.probes (s : Sim) : List (Nat × TraceOp) → List DataProbe
  | [] => []
  | line :: rest =>
    iplc_sim_parse_instruction.probes s line.1 line.2
      ++ runTrace.probes (iplc_sim_parse_instruction s line.1 line.2) rest

/-- The data probes made by the loop of `iplc_sim_finalize`, in order. -/
def iplc_sim_finalize.drain.probes : Nat → Sim → List DataProbe
  | 0, _ => []
  | fuel + 1, s =>
    if s.pipeline.busy then
      iplc_sim_push_pipeline_stage.probes s
        ++ iplc_sim_finalize.drain.probes fuel (iplc_sim_push_pipeline_stage s)
    else []

/-- The data probes made by `iplc_sim_finalize`. -/
def iplc_sim_finalize.probes (s : Sim) : List DataProbe := iplc_sim_finalize.drain.probes 5 s

/-- The data probes of a whole run: the trace, then `iplc_sim_finalize`. -/
def dataProbes (s : Sim) (trace : List (Nat × TraceOp)) : List DataProbe :=
  runTrace.probes s trace ++ iplc_sim_finalize.probes (runTrace s trace)

/-! ## Vocabulary of the statements: a run of loads of one data address -/

/-- What matters of a state in a run that inserts only loads of one data
address: which slots hold such a load (the others hold a NOP), whether the
block of the address is in the cache, and the cycle counter. -/
structure LoadFlow where
  FETCH : Bool
  DECODE : Bool
  ALU : Bool
  MEM : Bool
  WRITEBACK : Bool
  resident : Bool
  pipeline_cycles : Nat
deriving DecidableEq, Repr

/-- The slot holds a load of `address` when `b` is true, a NOP when it is false. -/
def pipeline_t.loads (x : pipeline_t) (address : Nat) (b : Bool) : Prop :=
  (b = true → x.itype = instruction_type.LW ∧ x.stage.data_address = address)
    ∧ (b = false → x.itype = instruction_type.NOP)

/-- The state `s`, with a direct-mapped cache, is described by `x`. -/
def LoadFlow.Models (x : LoadFlow) (address : Nat) (s : Sim) : Prop :=
  s.pipeline.FETCH.loads address x.FETCH ∧ s.pipeline.DECODE.loads address x.DECODE
    ∧ s.pipeline.ALU.loads address x.ALU ∧ s.pipeline.MEM.loads address x.MEM
    ∧ s.pipeline.WRITEBACK.loads address x.WRITEBACK
    ∧ CacheShape s.cache_index 1 s
    ∧ (s.resident address ↔ x.resident = true)
    ∧ s.pipeline_cycles = x.pipeline_cycles

/-- One cycle: the slots move on, a load in MEM probes the cache, which makes
the block resident and costs 9 more cycles when it was not. -/
def LoadFlow.push (x : LoadFlow) : LoadFlow :=
  { FETCH := false, DECODE := x.FETCH, ALU := x.DECODE, MEM := x.ALU, WRITEBACK := x.MEM,
    resident := x.resident || x.MEM,
    pipeline_cycles :=
      u32 (x.pipeline_cycles + 1 + 9 * (if x.MEM = true ∧ x.resident = false then 1 else 0)) }

/-- The data probe of one cycle. -/
def LoadFlow.probes (x : LoadFlow) (address : Nat) : List DataProbe :=
  if x.MEM = true then
    [{ address := address, result := if x.resident = true then 1 else 0,
       cycles := x.push.pipeline_cycles - x.pipeline_cycles }]
  else []

/-- The stall loop. -/
def LoadFlow.stall : Nat → LoadFlow → LoadFlow
  | 0, x => x
  | n + 1, x => LoadFlow.stall n x.push

/-- The data probes of the stall loop. -/
def LoadFlow.stallProbes (address : Nat) : Nat → LoadFlow → List DataProbe
  | 0, _ => []
  | n + 1, x => x.probes address ++ LoadFlow.stallProbes address n x.push

/-- The dispatch of a load: one cycle, then the load is written into FETCH. -/
def LoadFlow.insert (x : LoadFlow) : LoadFlow := { x.push with FETCH := true }

/-- Some slot holds a load. -/
def LoadFlow.busy (x : LoadFlow) : Bool := x.FETCH || x.DECODE || x.ALU || x.MEM || x.WRITEBACK

/-- The drain loop. -/
def LoadFlow.drain : Nat → LoadFlow → LoadFlow
  | 0, x => x
  | fuel + 1, x => if x.busy then LoadFlow.drain fuel x.push else x

/-- The data probes of the drain loop. -/
def LoadFlow.drainProbes (address : Nat) : Nat → LoadFlow → List DataProbe
  | 0, _ => []
  | fuel + 1, x =>
    if x.busy then x.probes address ++ LoadFlow.drainProbes address fuel x.push else []

/-- The description of a freshly configured simulator. -/
def LoadFlow.start : LoadFlow :=
  { FETCH := false, DECODE := false, ALU := false, MEM := false, WRITEBACK := false,
    resident := false, pipeline_cycles := 0 }

/-! ## Vocabulary of the statements: valid ways -/

/-- The number of valid ways (`vb == 1`) of set `index`. -/
def validWays (s : Sim) (index : Nat) : Nat :=
  (s.cache.getD index default).assoc.countP (fun w => w.vb = 1)

/-- The valid ways of set `index` are exactly the ways `0 .. k-1`. -/
def validPrefix (s : Sim) (index k : Nat) : Prop :=
  k ≤ s.cache_assoc ∧ ∀ p, p < s.cache_assoc → ((wayOf s index p).vb = 1 ↔ p < k)

/-! ## Vocabulary of the statements: a misprediction with loads in flight -/

/-- The trace `100 lw`, `104 lw`, `108 beq`, `100 nop` (hexadecimal addresses,
data addresses `0x200` and `0x204`): two loads, a branch, and the branch
target instead of the instruction after the branch. -/
def takenBranchTrace : List (Nat × TraceOp) :=
  [(256, TraceOp.lw 1 512), (260, TraceOp.lw 2 516), (264, TraceOp.beq), (256, TraceOp.nop)]

/-- The state after `takenBranchTrace` on `wideBlock` (prediction mode
not-taken): FETCH holds the `nop` of the branch target, DECODE the BRANCH, ALU
the second load and MEM the first load. -/
def takenBranch : Sim := runTrace wideBlock takenBranchTrace

/-- The function `iplc_sim_push_pipeline_stage` with the register forwarding
block (the four `if` statements before the final `bzero`) removed. -/
def iplc_sim_push_pipeline_stage.withoutForwarding (s : Sim) : Sim :=
  let s := iplc_sim_push_pipeline_stage.retire s
  let s := iplc_sim_push_pipeline_stage.branch s
  let s := iplc_sim_push_pipeline_stage.memory s
  let s := { s with pipeline_cycles := u32 (s.pipeline_cycles + 1) }
  let s := { s with pipeline := iplc_sim_push_pipeline_stage.shift s.pipeline }
  { s with pipeline := { s.pipeline with FETCH := pipeline_t.zero } }

/-! ## Vocabulary of the statements: a long run of branches -/

/-- A fresh program in prediction mode taken, configured with 1 index bit,
blocks of 1 word and 1 way. -/
def takenMode : Sim :=
  (iplc_sim_init { Sim.start with branch_predict_taken := 1 } 1 1 1).getD Sim.start

/-- The trace of `n` lines `100 beq` (hexadecimal address): a branch that is
followed by itself, so it is taken every time. -/
def branchLoop (n : Nat) : List (Nat × TraceOp) := List.replicate n (256, TraceOp.beq)

/-- The state after `n ≥ 2` lines of `branchLoop` on `takenMode`: FETCH and
DECODE hold the BRANCH at `0x100`, no LW or SW is in ALU or MEM, the block of
`0x100` is in the cache, and the two `unsigned int` counters hold `n` and
`n - 2` modulo `2^32`. -/
def LoopState (n : Nat) (s : Sim) : Prop :=
  s.pipeline.FETCH.itype = instruction_type.BRANCH
  ∧ s.pipeline.FETCH.instruction_address = 256
  ∧ s.pipeline.DECODE.itype = instruction_type.BRANCH
  ∧ s.pipeline.DECODE.instruction_address = 256
  ∧ s.pipeline.ALU.isMemory = 0
  ∧ s.pipeline.MEM.isMemory = 0
  ∧ s.branch_predict_taken = 1
  ∧ s.resident 256
  ∧ s.branch_count = n % 2 ^ 32
  ∧ s.correct_branch_predictions = (n - 2) % 2 ^ 32
/-! ## Theorems: the cache -/

theorem hit_scan_eq (l : List Nat) (w t : Nat) (ht : l.getD t 0 = w) :
    ∀ n j, (∀ k, j ≤ k → k < t → l.getD k 0 ≠ w) → j ≤ t → t < j + n →
      iplc_sim_LRU_update_on_hit.scan l w n j = t := by
  intro n
  induction n with
  | zero => intro j _ h1 h2; omega
  | succ n ih =>
    intro j hne h1 h2
    unfold iplc_sim_LRU_update_on_hit.scan
    by_cases hj : j = t
    · subst hj
      rw [if_pos ht]
    · rw [if_neg (hne j (le_refl j) (by omega))]
      exact ih (j + 1) (fun k hk1 hk2 => hne k (by omega) hk2) (by omega) (by omega)

theorem hit_percolate_eq (w : Nat) :
    ∀ (rest pre : List Nat) (x : Nat),
      (iplc_sim_LRU_update_on_hit.percolate rest.length (pre.length + 1)
          (pre ++ x :: rest)).set (pre.length + rest.length) w = pre ++ rest ++ [w] := by
  intro rest
  induction rest with
  | nil =>
    intro pre x
    simp [iplc_sim_LRU_update_on_hit.percolate]
  | cons y rest ih =>
    intro pre x
    have hg : (pre ++ x :: y :: rest)[pre.length + 1]? = some y := by
      rw [List.getElem?_append_right (by omega)]
      simp
    have hstep : (pre ++ x :: y :: rest).set (pre.length + 1 - 1)
        ((pre ++ x :: y :: rest).getD (pre.length + 1) 0) = (pre ++ [y]) ++ y :: rest := by
      rw [List.getD_eq_getElem?_getD, hg]
      simp
    have h2 := ih (pre ++ [y]) y
    simp only [List.length_append, List.length_singleton] at h2
    simp only [List.length_cons]
    unfold iplc_sim_LRU_update_on_hit.percolate
    rw [hstep]
    have e : pre.length + (rest.length + 1) = pre.length + 1 + rest.length := by omega
    rw [e, h2]
    simp

theorem hit_recency_eq (A : Nat) (l : List Nat) (w : Nat) (hlen : l.length = A) (hw : w ∈ l) :
    iplc_sim_LRU_update_on_hit.recency A l w = l.erase w ++ [w] := by
  obtain ⟨pre, rest, hl, hpre⟩ := List.eq_append_cons_of_mem hw
  subst hl
  have hA : A = pre.length + 1 + rest.length := by
    rw [← hlen]; simp; omega
  have hget : (pre ++ w :: rest).getD pre.length 0 = w := by
    rw [List.getD_eq_getElem?_getD, List.getElem?_append_right (le_refl _)]
    simp
  have hscan : iplc_sim_LRU_update_on_hit.scan (pre ++ w :: rest) w A 0 = pre.length := by
    apply hit_scan_eq _ _ _ hget
    · intro k _ hk h
      apply hpre
      rw [List.getD_eq_getElem?_getD, List.getElem?_append_left hk] at h
      rw [List.getElem?_eq_getElem hk] at h
      simp at h
      rw [← h]
      exact List.getElem_mem _
    · omega
    · omega
  unfold iplc_sim_LRU_update_on_hit.recency
  simp only [hscan]
  have e1 : A - (pre.length + 1) = rest.length := by omega
  have e2 : A - 1 = pre.length + rest.length := by omega
  rw [e1, e2, hit_percolate_eq]
  rw [List.erase_append_right _ hpre]
  simp

theorem getD_set_self {α : Type} (l : List α) (i : Nat) (x d : α) (h : i < l.length) :
    (l.set i x).getD i d = x := by
  simp [List.getD_eq_getElem?_getD, List.getElem?_set, h]

theorem getD_set_other {α : Type} (l : List α) (i j : Nat) (x d : α) (h : i ≠ j) :
    (l.set i x).getD j d = l.getD j d := by
  simp [List.getD_eq_getElem?_getD, List.getElem?_set, h]

theorem getD_mem {α : Type} (l : List α) (i : Nat) (d : α) (h : i < l.length) :
    l.getD i d ∈ l := by
  rw [List.getD_eq_getElem?_getD, List.getElem?_eq_getElem h]
  exact List.getElem_mem _

theorem indexOf_lt (s : Sim) (address : Nat) : indexOf s address < 1 <<< s.cache_index := by
  unfold indexOf
  apply Nat.mod_lt
  rw [Nat.one_shiftLeft]
  exact Nat.pos_pow_of_pos _ (by decide)

/-- The loop of `iplc_sim_trap_address` either finds the first matching valid
way `k` and takes the hit path on it, or finds none and takes the miss path. -/
theorem trap_scan_cases (s : Sim) (index tag : Nat) :
    ∀ n i,
      (iplc_sim_trap_address.scan s index tag n i = (iplc_sim_LRU_replace_on_miss s index tag, 0)
        ∧ ∀ k, i ≤ k → k < i + n → ¬ ((wayOf s index k).vb = 1 ∧ (wayOf s index k).tag = tag))
      ∨ ∃ k, i ≤ k ∧ k < i + n ∧ (wayOf s index k).vb = 1 ∧ (wayOf s index k).tag = tag
          ∧ iplc_sim_trap_address.scan s index tag n i = (iplc_sim_LRU_update_on_hit s index k, 1) := by
  intro n
  induction n with
  | zero =>
    intro i
    left
    exact ⟨rfl, fun k h1 h2 => by omega⟩
  | succ n ih =>
    intro i
    unfold iplc_sim_trap_address.scan
    split
    · rename_i h
      right
      exact ⟨i, le_refl i, by omega, h.2, h.1, rfl⟩
    · rename_i h
      rcases ih (i + 1) with ⟨h1, h2⟩ | ⟨k, h1, h2, h3, h4, h5⟩
      · left
        refine ⟨h1, fun k hk1 hk2 => ?_⟩
        by_cases hk : k = i
        · subst hk
          rintro ⟨a, b⟩
          exact h ⟨b, a⟩
        · exact h2 k (by omega) (by omega)
      · right
        exact ⟨k, by omega, by omega, h3, h4, h5⟩

theorem trap_cases (s : Sim) (address : Nat) :
    (iplc_sim_trap_address s address
        = (iplc_sim_LRU_replace_on_miss s (indexOf s address) (tagOf s address), 0)
      ∧ ∀ k, k < s.cache_assoc → ¬ ((wayOf s (indexOf s address) k).vb = 1
          ∧ (wayOf s (indexOf s address) k).tag = tagOf s address))
    ∨ ∃ k, k < s.cache_assoc ∧ (wayOf s (indexOf s address) k).vb = 1
        ∧ (wayOf s (indexOf s address) k).tag = tagOf s address
        ∧ iplc_sim_trap_address s address
          = (iplc_sim_LRU_update_on_hit s (indexOf s address) k, 1) := by
  unfold iplc_sim_trap_address
  rcases trap_scan_cases s (indexOf s address) (tagOf s address) s.cache_assoc 0 with
    ⟨h1, h2⟩ | ⟨k, _, h2, h3, h4, h5⟩
  · left
    exact ⟨h1, fun k hk => h2 k (Nat.zero_le k) (by omega)⟩
  · right
    exact ⟨k, by omega, h3, h4, h5⟩

/-- C1. A probe returns 1 exactly when some way of the set with index
`(address >> offsetBits) mod 2^I` is valid and holds the tag
`address >> (offsetBits + I)`, and returns 0 otherwise. -/
theorem trap_address_hit_iff (s : Sim) (address : Nat) :
    ((iplc_sim_trap_address s address).2 = 1 ↔
      ∃ i, i < s.cache_assoc ∧
        (wayOf s ((address >>> s.cache_blockoffsetbits) % 2 ^ s.cache_index) i).vb = 1 ∧
        (wayOf s ((address >>> s.cache_blockoffsetbits) % 2 ^ s.cache_index) i).tag
          = address >>> (s.cache_blockoffsetbits + s.cache_index))
    ∧ ((iplc_sim_trap_address s address).2 = 0 ↔
      ¬ ∃ i, i < s.cache_assoc ∧
        (wayOf s ((address >>> s.cache_blockoffsetbits) % 2 ^ s.cache_index) i).vb = 1 ∧
        (wayOf s ((address >>> s.cache_blockoffsetbits) % 2 ^ s.cache_index) i).tag
          = address >>> (s.cache_blockoffsetbits + s.cache_index)) := by
  have hi : (address >>> s.cache_blockoffsetbits) % 2 ^ s.cache_index = indexOf s address := by
    unfold indexOf
    rw [Nat.one_shiftLeft]
  have ht : address >>> (s.cache_blockoffsetbits + s.cache_index) = tagOf s address := rfl
  rw [hi, ht]
  rcases trap_cases s address with ⟨h1, h2⟩ | ⟨k, h1, h2, h3, h4⟩
  · rw [h1]
    refine ⟨⟨fun h => absurd h (by simp), fun ⟨i, hi1, hi2⟩ => absurd hi2 (h2 i hi1)⟩, ?_⟩
    exact ⟨fun _ ⟨i, hi1, hi2⟩ => h2 i hi1 hi2, fun _ => rfl⟩
  · rw [h4]
    refine ⟨⟨fun _ => ⟨k, h1, h2, h3⟩, fun _ => rfl⟩, ?_⟩
    exact ⟨fun h => absurd h (by simp), fun h => absurd ⟨k, h1, h2, h3⟩ h⟩

theorem miss_percolate_length : ∀ (n j : Nat) (assoc : List assoc_t),
    (iplc_sim_LRU_replace_on_miss.percolate n j assoc).length = assoc.length := by
  intro n
  induction n with
  | zero => intro j assoc; rfl
  | succ n ih =>
    intro j assoc
    unfold iplc_sim_LRU_replace_on_miss.percolate
    rw [ih]
    simp [setTag]

theorem miss_ways_length (A : Nat) (assoc : List assoc_t) (tag : Nat) :
    (iplc_sim_LRU_replace_on_miss.ways A assoc tag).length = assoc.length := by
  unfold iplc_sim_LRU_replace_on_miss.ways
  simp only
  split <;> simp [setVb, setTag, miss_percolate_length]

theorem cacheShape_init (g s : Sim) (index blocksize assoc : Nat)
    (h : iplc_sim_init g index blocksize assoc = some s) : CacheShape index assoc s := by
  unfold iplc_sim_init at h
  simp only at h
  split at h
  · exact absurd h (by simp)
  · injection h with h
    subst h
    refine ⟨rfl, rfl, by simp [iplc_sim_init.allocate], ?_⟩
    intro line hline
    simp only [iplc_sim_init.allocate] at hline
    rw [List.eq_of_mem_replicate hline]
    exact ⟨by simp, List.Perm.refl _⟩

theorem cacheShape_miss (index assoc : Nat) (s : Sim) (i tag : Nat)
    (h : CacheShape index assoc s) (hi : i < s.cache.length) :
    CacheShape index assoc (iplc_sim_LRU_replace_on_miss s i tag) := by
  obtain ⟨h1, h2, h3, h4⟩ := h
  refine ⟨h1, h2, by simpa [iplc_sim_LRU_replace_on_miss] using h3, ?_⟩
  intro line hline
  simp only [iplc_sim_LRU_replace_on_miss] at hline
  rcases List.mem_or_eq_of_mem_set hline with hm | rfl
  · exact h4 line hm
  · have := h4 _ (getD_mem s.cache i default hi)
    exact ⟨by simpa [miss_ways_length] using this.1, this.2⟩

theorem cacheShape_hit (index assoc : Nat) (s : Sim) (i w : Nat)
    (h : CacheShape index assoc s) (hi : i < s.cache.length) (hw : w < s.cache_assoc) :
    CacheShape index assoc (iplc_sim_LRU_update_on_hit s i w) := by
  obtain ⟨h1, h2, h3, h4⟩ := h
  refine ⟨h1, h2, by simpa [iplc_sim_LRU_update_on_hit] using h3, ?_⟩
  intro line hline
  simp only [iplc_sim_LRU_update_on_hit] at hline
  rcases List.mem_or_eq_of_mem_set hline with hm | rfl
  · exact h4 line hm
  · have hl := h4 _ (getD_mem s.cache i default hi)
    refine ⟨hl.1, ?_⟩
    have hmem : w ∈ (s.cache.getD i default).replacement := by
      rw [hl.2.mem_iff, List.mem_range, ← h2]
      exact hw
    have hlen : (s.cache.getD i default).replacement.length = s.cache_assoc := by
      rw [hl.2.length_eq, List.length_range, h2]
    simp only
    rw [hit_recency_eq _ _ _ hlen hmem]
    exact (List.perm_append_singleton _ _).trans ((List.perm_cons_erase hmem).symm.trans hl.2)

theorem cacheShape_trap (index assoc : Nat) (s : Sim) (address : Nat)
    (h : CacheShape index assoc s) :
    CacheShape index assoc (iplc_sim_trap_address s address).1 := by
  have hidx : indexOf s address < s.cache.length := by
    rw [h.2.2.1, ← h.1]
    exact indexOf_lt s address
  rcases trap_cases s address with ⟨h1, _⟩ | ⟨k, hk, _, _, h4⟩
  · rw [h1]
    exact cacheShape_miss index assoc s _ _ h hidx
  · rw [h4]
    exact cacheShape_hit index assoc s _ _ h hidx hk

theorem cacheShape_reachable (index blocksize assoc : Nat) (s : Sim)
    (h : CacheReachable index blocksize assoc s) : CacheShape index assoc s := by
  induction h with
  | configure g s hs => exact cacheShape_init g s index blocksize assoc hs
  | probe s address _ ih => exact cacheShape_trap index assoc s address ih

/-- C2. On a set whose recency list is a permutation of the way indices, a hit
on way `w` turns the list into the old list with `w` removed, followed by `w`,
and adds one to `cache_hit`. -/
theorem update_on_hit_moves_way_to_end (s : Sim) (index w : Nat)
    (hindex : index < s.cache.length)
    (hperm : (s.cache.getD index default).replacement.Perm (List.range s.cache_assoc))
    (hw : w < s.cache_assoc) :
    ((iplc_sim_LRU_update_on_hit s index w).cache.getD index default).replacement
        = (s.cache.getD index default).replacement.erase w ++ [w]
      ∧ (iplc_sim_LRU_update_on_hit s index w).cache_hit = s.cache_hit + 1 := by
  have hmem : w ∈ (s.cache.getD index default).replacement := by
    rw [hperm.mem_iff, List.mem_range]
    exact hw
  have hlen : (s.cache.getD index default).replacement.length = s.cache_assoc := by
    rw [hperm.length_eq, List.length_range]
  refine ⟨?_, rfl⟩
  simp only [iplc_sim_LRU_update_on_hit]
  rw [getD_set_self _ _ _ _ hindex]
  exact hit_recency_eq _ _ _ hlen hmem

/-- C3. In every state reached from a configuration with `assoc ≥ 1` by probes,
there are `2^index` sets and the recency list of each is a permutation of
`0..assoc-1`: it has length `assoc` and holds every way index exactly once. -/
theorem recency_list_is_permutation (index blocksize assoc : Nat) (s : Sim)
    (_hassoc : 1 ≤ assoc) (h : CacheReachable index blocksize assoc s) :
    s.cache.length = 2 ^ index ∧
      ∀ line ∈ s.cache, line.replacement.Perm (List.range assoc)
        ∧ line.replacement.length = assoc
        ∧ ∀ w, w < assoc → line.replacement.count w = 1 := by
  have hs := cacheShape_reachable index blocksize assoc s h
  refine ⟨by rw [hs.2.2.1, Nat.one_shiftLeft], ?_⟩
  intro line hline
  have hp := (hs.2.2.2 line hline).2
  refine ⟨hp, by rw [hp.length_eq, List.length_range], ?_⟩
  intro w hw
  rw [hp.count_eq]
  exact List.count_eq_one_of_mem (List.nodup_range assoc) (List.mem_range.mpr hw)

/-- What a probe leaves alone and how it changes the counters: exactly one of
`cache_hit`, `cache_miss` grows by one, according to the result. -/
theorem trap_effect (s : Sim) (address : Nat) :
    (((iplc_sim_trap_address s address).2 = 1
        ∧ (iplc_sim_trap_address s address).1.cache_hit = s.cache_hit + 1
        ∧ (iplc_sim_trap_address s address).1.cache_miss = s.cache_miss)
      ∨ ((iplc_sim_trap_address s address).2 = 0
        ∧ (iplc_sim_trap_address s address).1.cache_miss = s.cache_miss + 1
        ∧ (iplc_sim_trap_address s address).1.cache_hit = s.cache_hit))
    ∧ (iplc_sim_trap_address s address).1.cache_access = s.cache_access
    ∧ (iplc_sim_trap_address s address).1.pipeline = s.pipeline
    ∧ (iplc_sim_trap_address s address).1.cache_index = s.cache_index
    ∧ (iplc_sim_trap_address s address).1.cache_blockoffsetbits = s.cache_blockoffsetbits
    ∧ (iplc_sim_trap_address s address).1.cache_assoc = s.cache_assoc := by
  rcases trap_cases s address with ⟨h1, _⟩ | ⟨k, _, _, _, h4⟩
  · rw [h1]
    exact ⟨Or.inr ⟨rfl, rfl, rfl⟩, rfl, rfl, rfl, rfl, rfl⟩
  · rw [h4]
    exact ⟨Or.inl ⟨rfl, rfl, rfl⟩, rfl, rfl, rfl, rfl, rfl⟩

theorem countedProbes_balance (addresses : List Nat) :
    ∀ s : Sim, s.cache_access = s.cache_hit + s.cache_miss →
      (countedProbes s addresses).cache_access
        = (countedProbes s addresses).cache_hit + (countedProbes s addresses).cache_miss := by
  induction addresses with
  | nil => intro s h; exact h
  | cons a rest ih =>
    intro s h
    apply ih
    obtain ⟨h1, h2, _⟩ := trap_effect s a
    simp only [countedProbe]
    rcases h1 with ⟨_, h3, h4⟩ | ⟨_, h3, h4⟩ <;> omega

/-- C4. A probe returns 1 or 0; when it returns 1 it adds one to `cache_hit`
and leaves `cache_miss`, when it returns 0 it adds one to `cache_miss` and
leaves `cache_hit`; it never changes `cache_access`. Hence, starting from
`cache_access = cache_hit + cache_miss`, after any sequence of probes each
counted once by the caller the equation holds again. -/
theorem probe_changes_one_counter (s : Sim) (address : Nat) (addresses : List Nat) :
    (((iplc_sim_trap_address s address).2 = 1
        ∧ (iplc_sim_trap_address s address).1.cache_hit = s.cache_hit + 1
        ∧ (iplc_sim_trap_address s address).1.cache_miss = s.cache_miss)
      ∨ ((iplc_sim_trap_address s address).2 = 0
        ∧ (iplc_sim_trap_address s address).1.cache_miss = s.cache_miss + 1
        ∧ (iplc_sim_trap_address s address).1.cache_hit = s.cache_hit))
    ∧ (iplc_sim_trap_address s address).1.cache_access = s.cache_access
    ∧ (s.cache_access = s.cache_hit + s.cache_miss →
        (countedProbes s addresses).cache_access
          = (countedProbes s addresses).cache_hit + (countedProbes s addresses).cache_miss) :=
  ⟨(trap_effect s address).1, (trap_effect s address).2.1, countedProbes_balance addresses s⟩

/-! ## Theorems: the statements of the cycle step, slot by slot -/

@[simp] theorem kindWM_slots (p : Pipeline) :
    (Pipeline.kindWM p).FETCH = p.FETCH
    ∧ (Pipeline.kindWM p).DECODE = p.DECODE
    ∧ (Pipeline.kindWM p).ALU = p.ALU
    ∧ (Pipeline.kindWM p).MEM = p.MEM
    ∧ (Pipeline.kindWM p).WRITEBACK.itype = p.MEM.itype
    ∧ (Pipeline.kindWM p).WRITEBACK.instruction_address = p.MEM.instruction_address
    ∧ (Pipeline.kindWM p).WRITEBACK.stage = p.WRITEBACK.stage :=
  ⟨rfl, rfl, rfl, rfl, rfl, rfl, rfl⟩

@[simp] theorem kindMA_slots (p : Pipeline) :
    (Pipeline.kindMA p).FETCH = p.FETCH
    ∧ (Pipeline.kindMA p).DECODE = p.DECODE
    ∧ (Pipeline.kindMA p).ALU = p.ALU
    ∧ (Pipeline.kindMA p).WRITEBACK = p.WRITEBACK
    ∧ (Pipeline.kindMA p).MEM.itype = p.ALU.itype
    ∧ (Pipeline.kindMA p).MEM.instruction_address = p.ALU.instruction_address
    ∧ (Pipeline.kindMA p).MEM.stage = p.MEM.stage :=
  ⟨rfl, rfl, rfl, rfl, rfl, rfl, rfl⟩

@[simp] theorem kindAD_slots (p : Pipeline) :
    (Pipeline.kindAD p).FETCH = p.FETCH
    ∧ (Pipeline.kindAD p).DECODE = p.DECODE
    ∧ (Pipeline.kindAD p).MEM = p.MEM
    ∧ (Pipeline.kindAD p).WRITEBACK = p.WRITEBACK
    ∧ (Pipeline.kindAD p).ALU.itype = p.DECODE.itype
    ∧ (Pipeline.kindAD p).ALU.instruction_address = p.DECODE.instruction_address
    ∧ (Pipeline.kindAD p).ALU.stage = p.ALU.stage :=
  ⟨rfl, rfl, rfl, rfl, rfl, rfl, rfl⟩

@[simp] theorem kindDF_slots (p : Pipeline) :
    (Pipeline.kindDF p).FETCH = p.FETCH
    ∧ (Pipeline.kindDF p).ALU = p.ALU
    ∧ (Pipeline.kindDF p).MEM = p.MEM
    ∧ (Pipeline.kindDF p).WRITEBACK = p.WRITEBACK
    ∧ (Pipeline.kindDF p).DECODE.itype = p.FETCH.itype
    ∧ (Pipeline.kindDF p).DECODE.instruction_address = p.FETCH.instruction_address
    ∧ (Pipeline.kindDF p).DECODE.stage = p.DECODE.stage :=
  ⟨rfl, rfl, rfl, rfl, rfl, rfl, rfl⟩

@[simp] theorem nopD_slots (p : Pipeline) :
    (Pipeline.nopD p).FETCH = p.FETCH
    ∧ (Pipeline.nopD p).ALU = p.ALU
    ∧ (Pipeline.nopD p).MEM = p.MEM
    ∧ (Pipeline.nopD p).WRITEBACK = p.WRITEBACK
    ∧ (Pipeline.nopD p).DECODE.itype = instruction_type.NOP
    ∧ (Pipeline.nopD p).DECODE.instruction_address = 0
    ∧ (Pipeline.nopD p).DECODE.stage = p.DECODE.stage :=
  ⟨rfl, rfl, rfl, rfl, rfl, rfl, rfl⟩

@[simp] theorem dataWM_slots (k : instruction_type) (p : Pipeline) :
    (Pipeline.dataWM k p).FETCH = p.FETCH
    ∧ (Pipeline.dataWM k p).DECODE = p.DECODE
    ∧ (Pipeline.dataWM k p).ALU = p.ALU
    ∧ (Pipeline.dataWM k p).MEM = p.MEM
    ∧ (Pipeline.dataWM k p).WRITEBACK.itype = p.WRITEBACK.itype
    ∧ (Pipeline.dataWM k p).WRITEBACK.instruction_address = p.WRITEBACK.instruction_address
    ∧ (Pipeline.dataWM k p).WRITEBACK.stage.data_address
        = (if p.WRITEBACK.itype = k then p.MEM.stage.data_address else p.WRITEBACK.stage.data_address)
    ∧ (Pipeline.dataWM k p).WRITEBACK.stage.word1 = p.WRITEBACK.stage.word1
    ∧ (Pipeline.dataWM k p).WRITEBACK.stage.word2 = p.WRITEBACK.stage.word2
    ∧ (Pipeline.dataWM k p).WRITEBACK.stage.word3 = p.WRITEBACK.stage.word3
    ∧ (Pipeline.dataWM k p).WRITEBACK.stage.reg1 = p.WRITEBACK.stage.reg1
    ∧ (Pipeline.dataWM k p).WRITEBACK.stage.reg2_or_constant = p.WRITEBACK.stage.reg2_or_constant
    ∧ (Pipeline.dataWM k p).WRITEBACK.stage.dest_reg = p.WRITEBACK.stage.dest_reg := by
  unfold Pipeline.dataWM
  split <;> simp [pipeline_t.setData, *]

@[simp] theorem dataMA_slots (k : instruction_type) (p : Pipeline) :
    (Pipeline.dataMA k p).FETCH = p.FETCH
    ∧ (Pipeline.dataMA k p).DECODE = p.DECODE
    ∧ (Pipeline.dataMA k p).ALU = p.ALU
    ∧ (Pipeline.dataMA k p).WRITEBACK = p.WRITEBACK
    ∧ (Pipeline.dataMA k p).MEM.itype = p.MEM.itype
    ∧ (Pipeline.dataMA k p).MEM.instruction_address = p.MEM.instruction_address
    ∧ (Pipeline.dataMA k p).MEM.stage.data_address
        = (if p.MEM.itype = k then p.ALU.stage.data_address else p.MEM.stage.data_address)
    ∧ (Pipeline.dataMA k p).MEM.stage.word1 = p.MEM.stage.word1
    ∧ (Pipeline.dataMA k p).MEM.stage.word2 = p.MEM.stage.word2
    ∧ (Pipeline.dataMA k p).MEM.stage.word3 = p.MEM.stage.word3
    ∧ (Pipeline.dataMA k p).MEM.stage.reg1 = p.MEM.stage.reg1
    ∧ (Pipeline.dataMA k p).MEM.stage.reg2_or_constant = p.MEM.stage.reg2_or_constant
    ∧ (Pipeline.dataMA k p).MEM.stage.dest_reg = p.MEM.stage.dest_reg := by
  unfold Pipeline.dataMA
  split <;> simp [pipeline_t.setData, *]

@[simp] theorem dataAD_slots (k : instruction_type) (p : Pipeline) :
    (Pipeline.dataAD k p).FETCH = p.FETCH
    ∧ (Pipeline.dataAD k p).DECODE = p.DECODE
    ∧ (Pipeline.dataAD k p).MEM = p.MEM
    ∧ (Pipeline.dataAD k p).WRITEBACK = p.WRITEBACK
    ∧ (Pipeline.dataAD k p).ALU.itype = p.ALU.itype
    ∧ (Pipeline.dataAD k p).ALU.instruction_address = p.ALU.instruction_address
    ∧ (Pipeline.dataAD k p).ALU.stage.data_address
        = (if p.ALU.itype = k then p.DECODE.stage.data_address else p.ALU.stage.data_address)
    ∧ (Pipeline.dataAD k p).ALU.stage.word1 = p.ALU.stage.word1
    ∧ (Pipeline.dataAD k p).ALU.stage.word2 = p.ALU.stage.word2
    ∧ (Pipeline.dataAD k p).ALU.stage.word3 = p.ALU.stage.word3
    ∧ (Pipeline.dataAD k p).ALU.stage.reg1 = p.ALU.stage.reg1
    ∧ (Pipeline.dataAD k p).ALU.stage.reg2_or_constant = p.ALU.stage.reg2_or_constant
    ∧ (Pipeline.dataAD k p).ALU.stage.dest_reg = p.ALU.stage.dest_reg := by
  unfold Pipeline.dataAD
  split <;> simp [pipeline_t.setData, *]

@[simp] theorem dataDF_slots (k : instruction_type) (p : Pipeline) :
    (Pipeline.dataDF k p).FETCH = p.FETCH
    ∧ (Pipeline.dataDF k p).ALU = p.ALU
    ∧ (Pipeline.dataDF k p).MEM = p.MEM
    ∧ (Pipeline.dataDF k p).WRITEBACK = p.WRITEBACK
    ∧ (Pipeline.dataDF k p).DECODE.itype = p.DECODE.itype
    ∧ (Pipeline.dataDF k p).DECODE.instruction_address = p.DECODE.instruction_address
    ∧ (Pipeline.dataDF k p).DECODE.stage.data_address
        = (if p.DECODE.itype = k then p.FETCH.stage.data_address else p.DECODE.stage.data_address)
    ∧ (Pipeline.dataDF k p).DECODE.stage.word1 = p.DECODE.stage.word1
    ∧ (Pipeline.dataDF k p).DECODE.stage.word2 = p.DECODE.stage.word2
    ∧ (Pipeline.dataDF k p).DECODE.stage.word3 = p.DECODE.stage.word3
    ∧ (Pipeline.dataDF k p).DECODE.stage.reg1 = p.DECODE.stage.reg1
    ∧ (Pipeline.dataDF k p).DECODE.stage.reg2_or_constant = p.DECODE.stage.reg2_or_constant
    ∧ (Pipeline.dataDF k p).DECODE.stage.dest_reg = p.DECODE.stage.dest_reg := by
  unfold Pipeline.dataDF
  split <;> simp [pipeline_t.setData, *]

@[simp] theorem forwardA1_eq (p : Pipeline) : Pipeline.forwardA1 p = p := by
  unfold Pipeline.forwardA1
  split
  · rename_i h
    cases p with
    | mk f d a m w =>
      cases a with
      | mk ai aa ast =>
        cases m with
        | mk mi ma mst =>
          cases ast
          cases mst
          simp only [pipeline_t.setDest] at h ⊢
          simp only [h]
  · rfl

@[simp] theorem forwardA2_eq (p : Pipeline) : Pipeline.forwardA2 p = p := by
  unfold Pipeline.forwardA2
  split
  · rename_i h
    cases p with
    | mk f d a m w =>
      cases a with
      | mk ai aa ast =>
        cases m with
        | mk mi ma mst =>
          cases ast
          cases mst
          simp only [pipeline_t.setDest] at h ⊢
          simp only [h]
  · rfl

@[simp] theorem forwardM1_eq (p : Pipeline) : Pipeline.forwardM1 p = p := by
  unfold Pipeline.forwardM1
  split
  · rename_i h
    cases p with
    | mk f d a m w =>
      cases a with
      | mk ai aa ast =>
        cases m with
        | mk mi ma mst =>
          cases ast
          cases mst
          simp only [pipeline_t.setDest] at h ⊢
          simp only [h]
  · rfl

@[simp] theorem forwardM2_eq (p : Pipeline) : Pipeline.forwardM2 p = p := by
  unfold Pipeline.forwardM2
  split
  · rename_i h
    cases p with
    | mk f d a m w =>
      cases a with
      | mk ai aa ast =>
        cases m with
        | mk mi ma mst =>
          cases ast
          cases mst
          simp only [pipeline_t.setDest] at h ⊢
          simp only [h]
  · rfl

/-! From here on the single statements are used through the lemmas above only. -/

attribute [irreducible] Pipeline.kindWM Pipeline.kindMA Pipeline.kindAD Pipeline.kindDF
  Pipeline.nopD Pipeline.dataWM Pipeline.dataMA Pipeline.dataAD Pipeline.dataDF
  Pipeline.forwardA1 Pipeline.forwardA2 Pipeline.forwardM1 Pipeline.forwardM2

theorem isMemory_congr (x y : pipeline_t) (h : x.itype = y.itype) : x.isMemory = y.isMemory := by
  unfold pipeline_t.isMemory
  rw [h]

theorem forward_eq (p : Pipeline) : iplc_sim_push_pipeline_stage.forward p = p := by
  simp [iplc_sim_push_pipeline_stage.forward]

theorem squash_itypes (p : Pipeline) :
    (iplc_sim_push_pipeline_stage.squash p).FETCH.itype = p.FETCH.itype
    ∧ (iplc_sim_push_pipeline_stage.squash p).DECODE.itype = instruction_type.NOP
    ∧ (iplc_sim_push_pipeline_stage.squash p).ALU.itype = p.DECODE.itype
    ∧ (iplc_sim_push_pipeline_stage.squash p).MEM.itype = p.ALU.itype
    ∧ (iplc_sim_push_pipeline_stage.squash p).WRITEBACK.itype = p.MEM.itype := by
  simp [iplc_sim_push_pipeline_stage.squash]

theorem shift_itype_FETCH (p : Pipeline) :
    (iplc_sim_push_pipeline_stage.shift p).FETCH.itype = p.FETCH.itype := by
  unfold iplc_sim_push_pipeline_stage.shift
  simp only [kindWM_slots, kindMA_slots, kindAD_slots, kindDF_slots, dataWM_slots, dataMA_slots,
    dataAD_slots, dataDF_slots]

theorem shift_itype_DECODE (p : Pipeline) :
    (iplc_sim_push_pipeline_stage.shift p).DECODE.itype = p.FETCH.itype := by
  unfold iplc_sim_push_pipeline_stage.shift
  simp only [kindWM_slots, kindMA_slots, kindAD_slots, kindDF_slots, dataWM_slots, dataMA_slots,
    dataAD_slots, dataDF_slots]

theorem shift_itype_ALU (p : Pipeline) :
    (iplc_sim_push_pipeline_stage.shift p).ALU.itype = p.DECODE.itype := by
  unfold iplc_sim_push_pipeline_stage.shift
  simp only [kindWM_slots, kindMA_slots, kindAD_slots, kindDF_slots, dataWM_slots, dataMA_slots,
    dataAD_slots, dataDF_slots]

theorem shift_itype_MEM (p : Pipeline) :
    (iplc_sim_push_pipeline_stage.shift p).MEM.itype = p.ALU.itype := by
  unfold iplc_sim_push_pipeline_stage.shift
  simp only [kindWM_slots, kindMA_slots, kindAD_slots, kindDF_slots, dataWM_slots, dataMA_slots,
    dataAD_slots, dataDF_slots]

theorem shift_itype_WRITEBACK (p : Pipeline) :
    (iplc_sim_push_pipeline_stage.shift p).WRITEBACK.itype = p.MEM.itype := by
  unfold iplc_sim_push_pipeline_stage.shift
  simp only [kindWM_slots, kindMA_slots, kindAD_slots, kindDF_slots, dataWM_slots, dataMA_slots,
    dataAD_slots, dataDF_slots]

theorem shift_itypes (p : Pipeline) :
    (iplc_sim_push_pipeline_stage.shift p).FETCH.itype = p.FETCH.itype
    ∧ (iplc_sim_push_pipeline_stage.shift p).DECODE.itype = p.FETCH.itype
    ∧ (iplc_sim_push_pipeline_stage.shift p).ALU.itype = p.DECODE.itype
    ∧ (iplc_sim_push_pipeline_stage.shift p).MEM.itype = p.ALU.itype
    ∧ (iplc_sim_push_pipeline_stage.shift p).WRITEBACK.itype = p.MEM.itype :=
  ⟨shift_itype_FETCH p, shift_itype_DECODE p, shift_itype_ALU p, shift_itype_MEM p,
    shift_itype_WRITEBACK p⟩

/-- Step 1 changes `instruction_count` only. -/
theorem retire_frame (s : Sim) :
    (iplc_sim_push_pipeline_stage.retire s).pipeline = s.pipeline
    ∧ (iplc_sim_push_pipeline_stage.retire s).cache_hit = s.cache_hit
    ∧ (iplc_sim_push_pipeline_stage.retire s).cache_miss = s.cache_miss
    ∧ (iplc_sim_push_pipeline_stage.retire s).cache_access = s.cache_access
    ∧ (iplc_sim_push_pipeline_stage.retire s).branch_predict_taken = s.branch_predict_taken := by
  unfold iplc_sim_push_pipeline_stage.retire
  split <;> exact ⟨rfl, rfl, rfl, rfl, rfl⟩

theorem mispredicts_congr (s t : Sim) (hp : s.pipeline = t.pipeline)
    (hb : s.branch_predict_taken = t.branch_predict_taken) : s.mispredicts ↔ t.mispredicts := by
  unfold Sim.mispredicts iplc_sim_push_pipeline_stage.branch_taken
  rw [hp, hb]

theorem skipped_congr (s t : Sim) (hp : s.pipeline = t.pipeline)
    (hb : s.branch_predict_taken = t.branch_predict_taken) : s.skipped = t.skipped := by
  unfold Sim.skipped
  simp only [mispredicts_congr s t hp hb, hp]

theorem mispredict_frame (s : Sim) :
    (iplc_sim_push_pipeline_stage.mispredict s).pipeline
        = iplc_sim_push_pipeline_stage.squash s.pipeline
    ∧ (iplc_sim_push_pipeline_stage.mispredict s).cache_hit = s.cache_hit
    ∧ (iplc_sim_push_pipeline_stage.mispredict s).cache_miss = s.cache_miss
    ∧ (iplc_sim_push_pipeline_stage.mispredict s).cache_access = s.cache_access := by
  unfold iplc_sim_push_pipeline_stage.mispredict
  simp only
  split <;> exact ⟨rfl, rfl, rfl, rfl⟩

/-- Step 2 leaves the cache counters alone; it applies the forced shift exactly
when DECODE holds a BRANCH that was mispredicted, and leaves the slots alone
otherwise. -/
theorem branch_frame (s : Sim) :
    (s.pipeline.DECODE.itype = instruction_type.BRANCH ∧ s.mispredicts →
      (iplc_sim_push_pipeline_stage.branch s).pipeline
        = iplc_sim_push_pipeline_stage.squash s.pipeline)
    ∧ (¬ (s.pipeline.DECODE.itype = instruction_type.BRANCH ∧ s.mispredicts) →
      (iplc_sim_push_pipeline_stage.branch s).pipeline = s.pipeline)
    ∧ (iplc_sim_push_pipeline_stage.branch s).cache_hit = s.cache_hit
    ∧ (iplc_sim_push_pipeline_stage.branch s).cache_miss = s.cache_miss
    ∧ (iplc_sim_push_pipeline_stage.branch s).cache_access = s.cache_access := by
  have hm := mispredict_frame s
  unfold iplc_sim_push_pipeline_stage.branch Sim.mispredicts
  by_cases hb : s.pipeline.DECODE.itype = instruction_type.BRANCH
  · rw [if_pos hb]
    by_cases h1 : iplc_sim_push_pipeline_stage.branch_taken s ≠ 0
    · rw [if_pos h1]
      by_cases h2 : s.branch_predict_taken ≠ 0
      · rw [if_pos h2]
        exact ⟨fun h => absurd h.2 (by tauto), fun _ => rfl, rfl, rfl, rfl⟩
      · rw [if_neg h2]
        exact ⟨fun _ => hm.1, fun h => absurd h (by tauto), hm.2⟩
    · rw [if_neg h1, if_pos h1]
      by_cases h2 : s.branch_predict_taken ≠ 0
      · rw [if_neg (not_not.mpr h2)]
        exact ⟨fun _ => hm.1, fun h => absurd h (by tauto), hm.2⟩
      · rw [if_pos h2]
        exact ⟨fun h => absurd h.2 (by tauto), fun _ => rfl, rfl, rfl, rfl⟩
  · rw [if_neg hb]
    exact ⟨fun h => absurd h.1 hb, fun _ => rfl, rfl, rfl, rfl⟩

theorem dataProbe_frame (s : Sim) :
    (iplc_sim_push_pipeline_stage.dataProbe s).pipeline = s.pipeline
    ∧ (iplc_sim_push_pipeline_stage.dataProbe s).cache_hit
        + (iplc_sim_push_pipeline_stage.dataProbe s).cache_miss = s.cache_hit + s.cache_miss + 1
    ∧ (iplc_sim_push_pipeline_stage.dataProbe s).cache_access = s.cache_access := by
  obtain ⟨h1, h2, h3, _⟩ := trap_effect s s.pipeline.MEM.stage.data_address
  unfold iplc_sim_push_pipeline_stage.dataProbe
  simp only
  split
  · refine ⟨h3, ?_, h2⟩
    show (iplc_sim_trap_address s s.pipeline.MEM.stage.data_address).1.cache_hit
      + (iplc_sim_trap_address s s.pipeline.MEM.stage.data_address).1.cache_miss = _
    rcases h1 with ⟨_, a, b⟩ | ⟨_, a, b⟩ <;> omega
  · refine ⟨h3, ?_, h2⟩
    rcases h1 with ⟨_, a, b⟩ | ⟨_, a, b⟩ <;> omega

/-- Steps 3 and 4 probe the cache once when MEM holds a LW or a SW and not at
all otherwise. -/
theorem memory_frame (s : Sim) :
    (iplc_sim_push_pipeline_stage.memory s).pipeline = s.pipeline
    ∧ (iplc_sim_push_pipeline_stage.memory s).cache_hit
        + (iplc_sim_push_pipeline_stage.memory s).cache_miss
        = s.cache_hit + s.cache_miss + s.pipeline.MEM.isMemory
    ∧ (iplc_sim_push_pipeline_stage.memory s).cache_access = s.cache_access := by
  have hp := dataProbe_frame s
  unfold iplc_sim_push_pipeline_stage.memory pipeline_t.isMemory
  simp only
  by_cases h1 : s.pipeline.MEM.itype = instruction_type.LW
  · have h2 : ¬ (iplc_sim_push_pipeline_stage.dataProbe s).pipeline.MEM.itype
        = instruction_type.SW := by
      rw [hp.1, h1]; decide
    rw [if_pos h1, if_neg h2, if_pos (Or.inl h1)]
    exact hp
  · rw [if_neg h1]
    by_cases h2 : s.pipeline.MEM.itype = instruction_type.SW
    · rw [if_pos h2, if_pos (Or.inr h2)]
      exact hp
    · rw [if_neg h2, if_neg (by tauto)]
      exact ⟨rfl, rfl, rfl⟩

theorem isMemory_le_one (x : pipeline_t) : x.isMemory ≤ 1 := by
  unfold pipeline_t.isMemory
  split <;> omega

theorem isMemory_of_itype (x : pipeline_t) (k : instruction_type) (h : x.itype = k)
    (h1 : k ≠ instruction_type.LW) (h2 : k ≠ instruction_type.SW) : x.isMemory = 0 := by
  unfold pipeline_t.isMemory
  rw [h, if_neg]
  rintro (h | h)
  · exact h1 h
  · exact h2 h

/-- One cycle never changes `cache_access` and empties FETCH. The probes made
plus the memory slots still to be probed stay the same, except that a cycle
which resolves a mispredicted BRANCH loses the memory slot that was in MEM. -/
theorem push_exact (s : Sim) :
    (iplc_sim_push_pipeline_stage s).cache_access = s.cache_access
    ∧ (iplc_sim_push_pipeline_stage s).pipeline.FETCH = pipeline_t.zero
    ∧ (iplc_sim_push_pipeline_stage s).cache_hit + (iplc_sim_push_pipeline_stage s).cache_miss
        + (iplc_sim_push_pipeline_stage s).pipeline.pending + s.skipped
        = s.cache_hit + s.cache_miss + s.pipeline.pending := by
  have hr := retire_frame s
  have hb := branch_frame (iplc_sim_push_pipeline_stage.retire s)
  have hm := memory_frame
    (iplc_sim_push_pipeline_stage.branch (iplc_sim_push_pipeline_stage.retire s))
  have hmp := mispredicts_congr _ _ hr.1 hr.2.2.2.2
  unfold iplc_sim_push_pipeline_stage
  simp only [forward_eq]
  refine ⟨by rw [hm.2.2, hb.2.2.2.2, hr.2.2.2.1], trivial, ?_⟩
  simp only [Pipeline.pending]
  have hs := shift_itypes (iplc_sim_push_pipeline_stage.memory
    (iplc_sim_push_pipeline_stage.branch (iplc_sim_push_pipeline_stage.retire s))).pipeline
  rw [isMemory_congr _ _ hs.2.1, isMemory_congr _ _ hs.2.2.1, isMemory_congr _ _ hs.2.2.2.1]
  have hz : pipeline_t.zero.isMemory = 0 := rfl
  rw [hz, hm.1]
  have hsum := hm.2.1
  rw [hb.2.2.1, hb.2.2.2.1, hr.2.1, hr.2.2.1] at hsum
  rw [hr.1, hmp] at hb
  unfold Sim.skipped
  by_cases hc : s.pipeline.DECODE.itype = instruction_type.BRANCH ∧ s.mispredicts
  · have he := hb.1 hc
    rw [if_pos hc]
    rw [he] at hsum ⊢
    have hq := squash_itypes s.pipeline
    rw [isMemory_congr _ _ hq.1, isMemory_congr _ _ hq.2.2.1,
      isMemory_of_itype _ _ hq.2.1 (by decide) (by decide)]
    rw [isMemory_congr _ _ hq.2.2.2.1] at hsum
    have h0 : s.pipeline.DECODE.isMemory = 0 :=
      isMemory_of_itype _ _ hc.1 (by decide) (by decide)
    omega
  · have he := hb.2.1 hc
    rw [if_neg hc]
    rw [he] at hsum ⊢
    omega

/-! From here on the cycle step is unfolded only on request. -/

attribute [irreducible] iplc_sim_push_pipeline_stage

/-! ## Theorems: the driver -/

theorem setFetch_pending (s : Sim) (x : pipeline_t) (h : s.pipeline.FETCH = pipeline_t.zero) :
    (s.setFetch x).pipeline.pending = s.pipeline.pending + x.isMemory := by
  have hz : pipeline_t.zero.isMemory = 0 := rfl
  simp only [Sim.setFetch, Pipeline.pending, h, hz]
  omega

/-- The fetch probe of a driver step makes one probe and counts one access. -/
theorem probe_exact (s : Sim) (address : Nat) :
    (iplc_sim_parse_instruction.probe s address).1.cache_access = s.cache_access + 1
    ∧ (iplc_sim_parse_instruction.probe s address).1.cache_hit
        + (iplc_sim_parse_instruction.probe s address).1.cache_miss
        + (iplc_sim_parse_instruction.probe s address).1.pipeline.pending
      = s.cache_hit + s.cache_miss + s.pipeline.pending + 1 := by
  obtain ⟨h1, h2, h3, _⟩ :=
    trap_effect { s with instruction_address := address } address
  have e1 : ({ s with instruction_address := address } : Sim).cache_hit = s.cache_hit := rfl
  have e2 : ({ s with instruction_address := address } : Sim).cache_miss = s.cache_miss := rfl
  have e3 : ({ s with instruction_address := address } : Sim).pipeline = s.pipeline := rfl
  have e4 : ({ s with instruction_address := address } : Sim).cache_access = s.cache_access :=
    rfl
  rw [e1, e2] at h1
  rw [e3] at h3
  rw [e4] at h2
  have f1 : (iplc_sim_parse_instruction.probe s address).1.cache_access
      = (iplc_sim_trap_address { s with instruction_address := address } address).1.cache_access
        + 1 := rfl
  have f2 : (iplc_sim_parse_instruction.probe s address).1.cache_hit
      = (iplc_sim_trap_address { s with instruction_address := address } address).1.cache_hit :=
    rfl
  have f3 : (iplc_sim_parse_instruction.probe s address).1.cache_miss
      = (iplc_sim_trap_address { s with instruction_address := address } address).1.cache_miss :=
    rfl
  have f4 : (iplc_sim_parse_instruction.probe s address).1.pipeline
      = (iplc_sim_trap_address { s with instruction_address := address } address).1.pipeline :=
    rfl
  rw [f1, f2, f3, f4, h2, h3]
  refine ⟨rfl, ?_⟩
  rcases h1 with ⟨_, a, b⟩ | ⟨_, a, b⟩ <;> omega

/-- A state obtained by one cycle followed by a write of `x` into FETCH and
`k` counted accesses, where `k` is 1 for a memory instruction and 0 otherwise. -/
theorem placed_exact (s t : Sim) (x : pipeline_t) (k : Nat)
    (hp : t.pipeline = ((iplc_sim_push_pipeline_stage s).setFetch x).pipeline)
    (hh : t.cache_hit = (iplc_sim_push_pipeline_stage s).cache_hit)
    (hm : t.cache_miss = (iplc_sim_push_pipeline_stage s).cache_miss)
    (ha : t.cache_access = (iplc_sim_push_pipeline_stage s).cache_access + k)
    (hx : x.isMemory = k) :
    t.cache_hit + t.cache_miss + t.pipeline.pending + s.skipped + s.cache_access
      = s.cache_hit + s.cache_miss + s.pipeline.pending + t.cache_access := by
  obtain ⟨h1, h2, h3⟩ := push_exact s
  rw [hp, hh, hm, ha, setFetch_pending _ _ h2, hx, h1]
  omega

/-- The dispatch of a driver step: one cycle, then the instruction is written
into FETCH, and a LW or SW counts one access for the probe still to come. -/
theorem dispatch_exact (s : Sim) (op : TraceOp) :
    (iplc_sim_parse_instruction.dispatch s op).cache_hit
        + (iplc_sim_parse_instruction.dispatch s op).cache_miss
        + (iplc_sim_parse_instruction.dispatch s op).pipeline.pending
        + s.skipped + s.cache_access
      = s.cache_hit + s.cache_miss + s.pipeline.pending
        + (iplc_sim_parse_instruction.dispatch s op).cache_access := by
  cases op with
  | rtype i d r1 r2 => exact placed_exact s _ _ 0 rfl rfl rfl rfl rfl
  | lw d a =>
    exact placed_exact { s with data_address := a } _ _ 1 rfl rfl rfl rfl rfl
  | sw d a =>
    exact placed_exact { s with data_address := a } _ _ 1 rfl rfl rfl rfl rfl
  | beq =>
    exact placed_exact { s with branch_count := u32 (s.branch_count + 1) } _ _ 0
      rfl rfl rfl rfl rfl
  | jump i => exact placed_exact s _ _ 0 rfl rfl rfl rfl rfl
  | syscall => exact placed_exact s _ _ 0 rfl rfl rfl rfl rfl
  | nop => exact placed_exact s _ _ 0 rfl rfl rfl rfl rfl

theorem configured_counters (g s : Sim) (index blocksize assoc : Nat)
    (h : iplc_sim_init g index blocksize assoc = some s) :
    s.cache_hit = g.cache_hit ∧ s.cache_miss = g.cache_miss ∧ s.cache_access = g.cache_access
    ∧ s.pipeline.pending = 0 := by
  unfold iplc_sim_init at h
  simp only at h
  split at h
  · exact absurd h (by simp)
  · injection h with h
    subst h
    exact ⟨rfl, rfl, rfl, rfl⟩

/-- In every reachable state the probes made plus the memory slots still to
be probed do not exceed the accesses counted. -/
theorem driver_le (guard : Sim → Prop) (index blocksize assoc predict : Nat) (s : Sim)
    (h : DriverReachable guard index blocksize assoc predict s) :
    s.cache_hit + s.cache_miss + s.pipeline.pending ≤ s.cache_access := by
  induction h with
  | configure s hs =>
    obtain ⟨h1, h2, h3, h4⟩ := configured_counters _ _ _ _ _ hs
    rw [h1, h2, h3, h4]
    exact le_refl 0
  | fetch s address _ ih =>
    have := probe_exact s address
    omega
  | advance s _ _ ih =>
    have := push_exact s
    omega
  | insert s op _ _ ih =>
    have := dispatch_exact s op
    omega

/-- As long as no cycle resolves a mispredicted BRANCH while MEM holds a LW or
a SW, the accesses counted are exactly the probes made plus the memory slots
still to be probed. -/
theorem driver_eq (index blocksize assoc predict : Nat) (s : Sim)
    (h : DriverReachable noSquashedMemory index blocksize assoc predict s) :
    s.cache_hit + s.cache_miss + s.pipeline.pending = s.cache_access := by
  induction h with
  | configure s hs =>
    obtain ⟨h1, h2, h3, h4⟩ := configured_counters _ _ _ _ _ hs
    rw [h1, h2, h3, h4]
    rfl
  | fetch s address _ ih =>
    have := probe_exact s address
    omega
  | advance s _ hg ih =>
    have := push_exact s
    unfold noSquashedMemory at hg
    omega
  | insert s op _ hg ih =>
    have := dispatch_exact s op
    unfold noSquashedMemory at hg
    omega

/-- Stall cycles of a driver step stay within the reachable states. -/
theorem reachable_stall (index blocksize assoc predict : Nat) (n : Nat) :
    ∀ s : Sim, DriverReachable anyCycle index blocksize assoc predict s →
      DriverReachable anyCycle index blocksize assoc predict
        (iplc_sim_parse_instruction.stall n s) := by
  induction n with
  | zero => intro s h; exact h
  | succ n ih =>
    intro s h
    unfold iplc_sim_parse_instruction.stall
    exact ih _ (DriverReachable.advance s h trivial)

/-- A whole driver step stays within the reachable states. -/
theorem reachable_parse (index blocksize assoc predict : Nat) (s : Sim) (address : Nat)
    (op : TraceOp) (h : DriverReachable anyCycle index blocksize assoc predict s) :
    DriverReachable anyCycle index blocksize assoc predict
      (iplc_sim_parse_instruction s address op) := by
  unfold iplc_sim_parse_instruction
  simp only
  apply DriverReachable.insert _ _ _ trivial
  split
  · exact reachable_stall _ _ _ _ _ _ (DriverReachable.fetch s address h)
  · exact DriverReachable.fetch s address h

/-- The loop of `iplc_sim_finalize` stays within the reachable states. -/
theorem reachable_drain (index blocksize assoc predict : Nat) (fuel : Nat) :
    ∀ s : Sim, DriverReachable anyCycle index blocksize assoc predict s →
      DriverReachable anyCycle index blocksize assoc predict
        (iplc_sim_finalize.drain fuel s) := by
  induction fuel with
  | zero => intro s h; exact h
  | succ n ih =>
    intro s h
    unfold iplc_sim_finalize.drain
    split
    · exact ih _ (DriverReachable.advance s h trivial)
    · exact h

/-! ## Theorems: residency after a probe -/

theorem miss_scan_le (assoc : List assoc_t) :
    ∀ n i, iplc_sim_LRU_replace_on_miss.scan assoc n i ≤ i + n := by
  intro n
  induction n with
  | zero => intro i; exact le_refl _
  | succ n ih =>
    intro i
    unfold iplc_sim_LRU_replace_on_miss.scan
    split
    · omega
    · have := ih (i + 1)
      omega

theorem setVb_setTag_getD (l : List assoc_t) (k tag : Nat) (h : k < l.length) :
    (setVb (setTag l k tag) k 1).getD k default = { vb := 1, tag := tag } := by
  unfold setVb
  rw [getD_set_self _ _ _ _ (by simpa [setTag] using h)]
  unfold setTag
  rw [getD_set_self _ _ _ _ h]

/-- After the miss path some way of the set is valid and holds the new tag. -/
theorem miss_ways_installs (A : Nat) (assoc : List assoc_t) (tag : Nat) (hA : 1 ≤ A)
    (hlen : assoc.length = A) :
    ∃ k, k < A ∧ (iplc_sim_LRU_replace_on_miss.ways A assoc tag).getD k default
      = { vb := 1, tag := tag } := by
  have hle := miss_scan_le assoc A 0
  unfold iplc_sim_LRU_replace_on_miss.ways
  simp only
  split
  · rename_i h
    refine ⟨A - 1, by omega, ?_⟩
    rw [h]
    exact setVb_setTag_getD _ _ _ (by rw [miss_percolate_length]; omega)
  · rename_i h
    refine ⟨iplc_sim_LRU_replace_on_miss.scan assoc A 0, by omega, ?_⟩
    exact setVb_setTag_getD _ _ _ (by rw [miss_percolate_length]; omega)

theorem miss_installs (s : Sim) (index tag : Nat) (hA : 1 ≤ s.cache_assoc)
    (hindex : index < s.cache.length)
    (hlen : (s.cache.getD index default).assoc.length = s.cache_assoc) :
    ∃ k, k < s.cache_assoc
      ∧ wayOf (iplc_sim_LRU_replace_on_miss s index tag) index k = { vb := 1, tag := tag } := by
  obtain ⟨k, hk, h⟩ :=
    miss_ways_installs s.cache_assoc (s.cache.getD index default).assoc tag hA hlen
  refine ⟨k, hk, ?_⟩
  unfold wayOf iplc_sim_LRU_replace_on_miss
  simp only
  rw [getD_set_self _ _ _ _ hindex]
  exact h

/-- The hit path leaves every way of every set as it was. -/
theorem hit_keeps_ways (s : Sim) (index w j k : Nat) :
    wayOf (iplc_sim_LRU_update_on_hit s index w) j k = wayOf s j k := by
  unfold wayOf iplc_sim_LRU_update_on_hit
  simp only
  by_cases hj : index = j
  · subst hj
    by_cases hi : index < s.cache.length
    · rw [getD_set_self _ _ _ _ hi]
    · rw [List.set_eq_of_length_le (by omega)]
  · rw [getD_set_other _ _ _ _ _ hj]

/-- After any probe of `address` in a configured cache with at least one way,
some way of its set is valid and holds its tag. -/
theorem trap_makes_resident (index assoc : Nat) (s : Sim) (address : Nat)
    (hA : 1 ≤ assoc) (h : CacheShape index assoc s) :
    ∃ k, k < s.cache_assoc
      ∧ (wayOf (iplc_sim_trap_address s address).1 (indexOf s address) k).vb = 1
      ∧ (wayOf (iplc_sim_trap_address s address).1 (indexOf s address) k).tag
          = tagOf s address := by
  have hidx : indexOf s address < s.cache.length := by
    rw [h.2.2.1, ← h.1]
    exact indexOf_lt s address
  rcases trap_cases s address with ⟨h1, _⟩ | ⟨k, hk, h2, h3, h4⟩
  · rw [h1]
    obtain ⟨k, hk, hw⟩ := miss_installs s (indexOf s address) (tagOf s address)
      (by rw [h.2.1]; exact hA) hidx
      (by rw [h.2.1]; exact (h.2.2.2 _ (getD_mem _ _ _ hidx)).1)
    exact ⟨k, hk, by rw [hw], by rw [hw]⟩
  · rw [h4]
    exact ⟨k, hk, by rw [hit_keeps_ways]; exact h2, by rw [hit_keeps_ways]; exact h3⟩

/-- A probe that finds a valid way with the tag returns 1. -/
theorem trap_hit_of_resident (s : Sim) (address k : Nat) (hk : k < s.cache_assoc)
    (hv : (wayOf s (indexOf s address) k).vb = 1)
    (ht : (wayOf s (indexOf s address) k).tag = tagOf s address) :
    (iplc_sim_trap_address s address).2 = 1 := by
  rcases trap_cases s address with ⟨_, h2⟩ | ⟨_, _, _, _, h4⟩
  · exact absurd ⟨hv, ht⟩ (h2 k hk)
  · rw [h4]

theorem indexOf_congr (s t : Sim) (address : Nat) (h1 : t.cache_index = s.cache_index)
    (h2 : t.cache_blockoffsetbits = s.cache_blockoffsetbits) :
    indexOf t address = indexOf s address := by
  unfold indexOf
  rw [h1, h2]

theorem tagOf_congr (s t : Sim) (address : Nat) (h1 : t.cache_index = s.cache_index)
    (h2 : t.cache_blockoffsetbits = s.cache_blockoffsetbits) :
    tagOf t address = tagOf s address := by
  unfold tagOf
  rw [h1, h2]

/-- In a configured cache with at least one way, a probe of `b` right after a
probe of `a` with the same set index and tag returns 1. -/
theorem second_probe_hits (index assoc : Nat) (s : Sim) (a b : Nat) (hA : 1 ≤ assoc)
    (h : CacheShape index assoc s) (hi : indexOf s a = indexOf s b)
    (ht : tagOf s a = tagOf s b) :
    (iplc_sim_trap_address (iplc_sim_trap_address s a).1 b).2 = 1 := by
  obtain ⟨k, hk, hv, htag⟩ := trap_makes_resident index assoc s a hA h
  obtain ⟨_, _, _, e1, e2, e3⟩ := trap_effect s a
  have hib := indexOf_congr s (iplc_sim_trap_address s a).1 b e1 e2
  have htb := tagOf_congr s (iplc_sim_trap_address s a).1 b e1 e2
  apply trap_hit_of_resident _ _ k (by rw [e3]; exact hk)
  · rw [hib, ← hi]; exact hv
  · rw [hib, htb, ← hi, ← ht]; exact htag

/-! ## Theorems: the claims on concrete and reachable states -/

theorem directMapped_configured : iplc_sim_init Sim.start 1 1 1 = some directMapped := by
  decide

theorem twoWay_configured : iplc_sim_init Sim.start 0 1 2 = some twoWay := by
  decide

theorem threeWay_configured : iplc_sim_init Sim.start 0 1 3 = some threeWay := by
  decide

/-- Witness of C2: in the fresh three-way set, a hit on way 0 turns the recency
list `[0, 1, 2]` into `[1, 2, 0]`. -/
theorem update_on_hit_moves_way_to_end_witness :
    ((iplc_sim_LRU_update_on_hit threeWay 0 0).cache.getD 0 default).replacement
        = (threeWay.cache.getD 0 default).replacement.erase 0 ++ [0]
      ∧ (iplc_sim_LRU_update_on_hit threeWay 0 0).cache_hit = threeWay.cache_hit + 1 :=
  update_on_hit_moves_way_to_end threeWay 0 0 (by decide) (List.Perm.refl _) (by decide)

/-- Witness of C3: the two-way cache after a miss and a hit. -/
theorem recency_list_is_permutation_witness :
    (iplc_sim_trap_address (iplc_sim_trap_address twoWay 4).1 4).1.cache.length = 2 ^ 0 ∧
      ∀ line ∈ (iplc_sim_trap_address (iplc_sim_trap_address twoWay 4).1 4).1.cache,
        line.replacement.Perm (List.range 2)
        ∧ line.replacement.length = 2
        ∧ ∀ w, w < 2 → line.replacement.count w = 1 :=
  recency_list_is_permutation 0 1 2 _ (by decide)
    (CacheReachable.probe _ 4 (CacheReachable.probe _ 4
      (CacheReachable.configure Sim.start twoWay twoWay_configured)))

/-- Witness of C4: three counted probes on the fresh direct-mapped cache. -/
theorem probe_changes_one_counter_witness :
    (countedProbes directMapped [256, 260, 256]).cache_access
      = (countedProbes directMapped [256, 260, 256]).cache_hit
        + (countedProbes directMapped [256, 260, 256]).cache_miss :=
  (probe_changes_one_counter directMapped 256 [256, 260, 256]).2.2 (by decide)

/-- C5, as stated, fails. On the fresh direct-mapped configuration (1 index
bit, 1 word, 1 way) take the trace line `100 lw $1 0($2) 200`. Right after its
fetch probe `cache_access` is 0 while `cache_hit + cache_miss` is 1; after the
whole driver step, a reachable state, `cache_access` is 2 while
`cache_hit + cache_miss` is 1; and after the fetch probe of a next line with
its `cache_access++`, `cache_access` is 3 while `cache_hit + cache_miss` is 2. -/
theorem access_balance_counterexample :
    ((iplc_sim_trap_address { directMapped with instruction_address := 256 } 256).1.cache_access
        = 0
      ∧ (iplc_sim_trap_address { directMapped with instruction_address := 256 } 256).1.cache_hit
          + (iplc_sim_trap_address
              { directMapped with instruction_address := 256 } 256).1.cache_miss = 1)
    ∧ (DriverReachable anyCycle 1 1 1 0 afterLoad
      ∧ afterLoad.cache_access = 2 ∧ afterLoad.cache_hit + afterLoad.cache_miss = 1)
    ∧ (DriverReachable anyCycle 1 1 1 0 (iplc_sim_parse_instruction.probe afterLoad 260).1
      ∧ (iplc_sim_parse_instruction.probe afterLoad 260).1.cache_access = 3
      ∧ (iplc_sim_parse_instruction.probe afterLoad 260).1.cache_hit
          + (iplc_sim_parse_instruction.probe afterLoad 260).1.cache_miss = 2) := by
  have hr : DriverReachable anyCycle 1 1 1 0 afterLoad :=
    reachable_parse 1 1 1 0 directMapped 256 (TraceOp.lw 1 512)
      (DriverReachable.configure directMapped directMapped_configured)
  refine ⟨⟨by decide!, by decide!⟩, ⟨hr, by decide!, by decide!⟩,
    ⟨DriverReachable.fetch afterLoad 260 hr, by decide!, by decide!⟩⟩

/-- C5, amended. In every state reached from a fresh configured simulator by
fetch probes with their `cache_access++`, cycles and inserts, the probes made
plus the LW and SW slots in FETCH, DECODE, ALU and MEM do not exceed
`cache_access`; and they are equal to `cache_access` as long as no cycle has
started with a mispredicted BRANCH in DECODE while MEM held a LW or a SW. -/
theorem access_covers_probes_and_pending (index blocksize assoc predict : Nat) (s : Sim) :
    (DriverReachable anyCycle index blocksize assoc predict s →
      s.cache_hit + s.cache_miss + s.pipeline.pending ≤ s.cache_access)
    ∧ (DriverReachable noSquashedMemory index blocksize assoc predict s →
      s.cache_access = s.cache_hit + s.cache_miss + s.pipeline.pending) :=
  ⟨driver_le anyCycle index blocksize assoc predict s,
    fun h => (driver_eq index blocksize assoc predict s h).symm⟩

/-- C6. With one way, in every reachable cache state, a probe whose tag is not
the valid resident tag of its set returns 0, and a probe of an address right
after a probe of the same address returns 1. -/
theorem direct_mapped_miss_then_hit (index blocksize : Nat) (s : Sim) (address : Nat)
    (h : CacheReachable index blocksize 1 s) :
    (¬ ((wayOf s (indexOf s address) 0).vb = 1
          ∧ (wayOf s (indexOf s address) 0).tag = tagOf s address) →
        (iplc_sim_trap_address s address).2 = 0)
    ∧ (iplc_sim_trap_address (iplc_sim_trap_address s address).1 address).2 = 1 := by
  have hs := cacheShape_reachable index blocksize 1 s h
  refine ⟨fun hn => ?_, second_probe_hits index 1 s address address (le_refl 1) hs rfl rfl⟩
  rcases trap_cases s address with ⟨h1, _⟩ | ⟨k, hk, h2, h3, _⟩
  · rw [h1]
  · rw [hs.2.1] at hk
    have hk0 : k = 0 := by omega
    subst hk0
    exact absurd ⟨h2, h3⟩ hn

/-- C7. With at least one way, in every reachable cache state, a probe of `b`
right after a probe of `a` returns 1 whenever `a` and `b` have the same set
index and tag, in particular whenever they differ only below the block offset
bits; the result of the probe of `a` does not matter. -/
theorem same_block_probe_hits (index blocksize assoc : Nat) (s : Sim) (a b : Nat)
    (hassoc : 1 ≤ assoc) (h : CacheReachable index blocksize assoc s) :
    (indexOf s a = indexOf s b ∧ tagOf s a = tagOf s b →
        (iplc_sim_trap_address (iplc_sim_trap_address s a).1 b).2 = 1)
    ∧ (a >>> s.cache_blockoffsetbits = b >>> s.cache_blockoffsetbits →
        (iplc_sim_trap_address (iplc_sim_trap_address s a).1 b).2 = 1) := by
  have hs := cacheShape_reachable index blocksize assoc s h
  refine ⟨fun hh => second_probe_hits index assoc s a b hassoc hs hh.1 hh.2, fun hh => ?_⟩
  apply second_probe_hits index assoc s a b hassoc hs
  · unfold indexOf
    rw [hh]
  · unfold tagOf
    rw [Nat.shiftRight_add, Nat.shiftRight_add, hh]

/-- C8: the code at the failing input. In the fresh three-way set the probes of
the addresses 4, 8 and 12 (tags 1, 2, 3) all miss and leave all three ways
valid, but the ways then hold the tags 2, 2, 3: the third miss copied way 1
onto way 0 although way 2 was free, so tag 1 is gone and a probe of address 4
misses. -/
theorem fill_loses_first_tag :
    (probeAll threeWay [4, 8, 12]).2 = [0, 0, 0]
    ∧ ((probeAll threeWay [4, 8, 12]).1.cache.getD 0 default).assoc
        = [{ vb := 1, tag := 2 }, { vb := 1, tag := 2 }, { vb := 1, tag := 3 }]
    ∧ (iplc_sim_trap_address (probeAll threeWay [4, 8, 12]).1 4).2 = 0 := by
  decide

/-- C9: the code at the failing input. In the fresh two-way set the probes of
the addresses 4, 8, 4, 12 (tags 1, 2, 1, 3) give miss, miss, hit, miss. Before
the last miss the set is full, tag 1 is the most recently used (the recency
list is `[1, 0]`, way 1 with tag 2 first), yet the miss removes tag 1: a probe
of address 4 misses afterwards and a probe of address 8 hits. -/
theorem miss_evicts_recently_used :
    (probeAll twoWay [4, 8, 4, 12]).2 = [0, 0, 1, 0]
    ∧ ((probeAll twoWay [4, 8, 4]).1.cache.getD 0 default).assoc
        = [{ vb := 1, tag := 1 }, { vb := 1, tag := 2 }]
    ∧ ((probeAll twoWay [4, 8, 4]).1.cache.getD 0 default).replacement = [1, 0]
    ∧ ((probeAll twoWay [4, 8, 4, 12]).1.cache.getD 0 default).assoc
        = [{ vb := 1, tag := 2 }, { vb := 1, tag := 3 }]
    ∧ (iplc_sim_trap_address (probeAll twoWay [4, 8, 4, 12]).1 4).2 = 0
    ∧ (iplc_sim_trap_address (probeAll twoWay [4, 8, 4, 12]).1 8).2 = 1 := by
  decide

/-- C10. After a successful `iplc_sim_init` there are `2^index` sets, each with
`assoc` ways that are all invalid and the recency list `[0, ..., assoc-1]`;
the five pipeline slots are NOP with address 0; and a probe of any address
returns 0. -/
theorem init_state (g s : Sim) (index blocksize assoc : Nat)
    (h : iplc_sim_init g index blocksize assoc = some s) :
    s.cache.length = 2 ^ index
    ∧ (∀ line ∈ s.cache, line.assoc.length = assoc ∧ (∀ w ∈ line.assoc, w.vb = 0)
        ∧ line.replacement = List.range assoc)
    ∧ (s.pipeline.FETCH.itype = instruction_type.NOP ∧ s.pipeline.FETCH.instruction_address = 0
      ∧ s.pipeline.DECODE.itype = instruction_type.NOP ∧ s.pipeline.DECODE.instruction_address = 0
      ∧ s.pipeline.ALU.itype = instruction_type.NOP ∧ s.pipeline.ALU.instruction_address = 0
      ∧ s.pipeline.MEM.itype = instruction_type.NOP ∧ s.pipeline.MEM.instruction_address = 0
      ∧ s.pipeline.WRITEBACK.itype = instruction_type.NOP
      ∧ s.pipeline.WRITEBACK.instruction_address = 0)
    ∧ ∀ address, (iplc_sim_trap_address s address).2 = 0 := by
  have hc : s.cache = iplc_sim_init.allocate index assoc
      ∧ s.pipeline.FETCH = pipeline_t.zero ∧ s.pipeline.DECODE = pipeline_t.zero
      ∧ s.pipeline.ALU = pipeline_t.zero ∧ s.pipeline.MEM = pipeline_t.zero
      ∧ s.pipeline.WRITEBACK = pipeline_t.zero := by
    unfold iplc_sim_init at h
    simp only at h
    split at h
    · exact absurd h (by simp)
    · injection h with h
      subst h
      exact ⟨rfl, rfl, rfl, rfl, rfl, rfl⟩
  have hlines : ∀ line ∈ s.cache, line.assoc.length = assoc ∧ (∀ w ∈ line.assoc, w.vb = 0)
      ∧ line.replacement = List.range assoc := by
    intro line hline
    rw [hc.1] at hline
    simp only [iplc_sim_init.allocate] at hline
    rw [List.eq_of_mem_replicate hline]
    refine ⟨by simp, ?_, rfl⟩
    intro w hw
    rw [List.eq_of_mem_replicate hw]
  refine ⟨by rw [hc.1]; simp [iplc_sim_init.allocate, Nat.one_shiftLeft], hlines, ?_, ?_⟩
  · rw [hc.2.1, hc.2.2.1, hc.2.2.2.1, hc.2.2.2.2.1, hc.2.2.2.2.2]
    exact ⟨rfl, rfl, rfl, rfl, rfl, rfl, rfl, rfl, rfl, rfl⟩
  · intro address
    rcases trap_cases s address with ⟨h1, _⟩ | ⟨k, _, h2, _, _⟩
    · rw [h1]
    · exfalso
      have hv : (wayOf s (indexOf s address) k).vb = 0 := by
        unfold wayOf
        by_cases hi : indexOf s address < s.cache.length
        · have hl := hlines _ (getD_mem s.cache _ default hi)
          by_cases hk : k < (s.cache.getD (indexOf s address) default).assoc.length
          · exact hl.2.1 _ (getD_mem _ _ default hk)
          · rw [List.getD_eq_default _ _ (by omega)]
            rfl
        · have hd : s.cache.getD (indexOf s address) default = default :=
            List.getD_eq_default _ _ (by omega)
          rw [hd]
          rfl
      rw [hv] at h2
      exact absurd h2 (by decide)

theorem stall_succ (n : Nat) :
    ∀ s : Sim, iplc_sim_parse_instruction.stall (n + 1) s
      = iplc_sim_push_pipeline_stage (iplc_sim_parse_instruction.stall n s) := by
  induction n with
  | zero => intro s; rfl
  | succ n ih =>
    intro s
    show iplc_sim_parse_instruction.stall (n + 1) (iplc_sim_push_pipeline_stage s) = _
    rw [ih]
    rfl

/-- Stall cycles stay within the guarded reachable states when each of them
starts in a state that satisfies the guard. -/
theorem guarded_stall (guard : Sim → Prop) (index blocksize assoc predict : Nat) (s : Sim)
    (h : DriverReachable guard index blocksize assoc predict s) (n : Nat)
    (hg : ∀ i, i < n → guard (iplc_sim_parse_instruction.stall i s)) :
    DriverReachable guard index blocksize assoc predict
      (iplc_sim_parse_instruction.stall n s) := by
  induction n with
  | zero => exact h
  | succ n ih =>
    rw [stall_succ]
    exact DriverReachable.advance _ (ih (fun i hi => hg i (by omega))) (hg n (by omega))

theorem afterLoad_eq :
    afterLoad = iplc_sim_parse_instruction.dispatch
      (iplc_sim_parse_instruction.stall 9 (iplc_sim_parse_instruction.probe directMapped 256).1)
      (TraceOp.lw 1 512) := by
  decide!

theorem afterLoad_reachable : DriverReachable noSquashedMemory 1 1 1 0 afterLoad := by
  rw [afterLoad_eq]
  apply DriverReachable.insert
  · apply guarded_stall
    · exact DriverReachable.fetch _ _
        (DriverReachable.configure directMapped directMapped_configured)
    · unfold noSquashedMemory
      decide!
  · unfold noSquashedMemory
    decide!

/-- Witness of C5 (amended): the state after the driver step of a load. -/
theorem access_covers_probes_and_pending_witness :
    afterLoad.cache_hit + afterLoad.cache_miss + afterLoad.pipeline.pending
        ≤ afterLoad.cache_access
    ∧ afterLoad.cache_access
        = afterLoad.cache_hit + afterLoad.cache_miss + afterLoad.pipeline.pending :=
  ⟨(access_covers_probes_and_pending 1 1 1 0 afterLoad).1
      (reachable_parse 1 1 1 0 directMapped 256 (TraceOp.lw 1 512)
        (DriverReachable.configure directMapped directMapped_configured)),
    (access_covers_probes_and_pending 1 1 1 0 afterLoad).2 afterLoad_reachable⟩

/-- Witness of C6: the fresh direct-mapped cache and the address 256. -/
theorem direct_mapped_miss_then_hit_witness :
    (iplc_sim_trap_address directMapped 256).2 = 0
    ∧ (iplc_sim_trap_address (iplc_sim_trap_address directMapped 256).1 256).2 = 1 :=
  ⟨(direct_mapped_miss_then_hit 1 1 directMapped 256
      (CacheReachable.configure Sim.start directMapped directMapped_configured)).1 (by decide),
    (direct_mapped_miss_then_hit 1 1 directMapped 256
      (CacheReachable.configure Sim.start directMapped directMapped_configured)).2⟩

/-- Witness of C7: the fresh two-way cache and the addresses 4 and 5 of one
block. -/
theorem same_block_probe_hits_witness :
    (iplc_sim_trap_address (iplc_sim_trap_address twoWay 4).1 5).2 = 1
    ∧ (iplc_sim_trap_address (iplc_sim_trap_address twoWay 4).1 5).2 = 1 :=
  ⟨(same_block_probe_hits 0 1 2 twoWay 4 5 (by decide)
      (CacheReachable.configure Sim.start twoWay twoWay_configured)).1
      ⟨by decide, by decide⟩,
    (same_block_probe_hits 0 1 2 twoWay 4 5 (by decide)
      (CacheReachable.configure Sim.start twoWay twoWay_configured)).2 (by decide)⟩

/-- Witness of C10: the direct-mapped configuration. -/
theorem init_state_witness :
    directMapped.cache.length = 2 ^ 1
    ∧ (∀ line ∈ directMapped.cache, line.assoc.length = 1 ∧ (∀ w ∈ line.assoc, w.vb = 0)
        ∧ line.replacement = List.range 1)
    ∧ (directMapped.pipeline.FETCH.itype = instruction_type.NOP
      ∧ directMapped.pipeline.FETCH.instruction_address = 0
      ∧ directMapped.pipeline.DECODE.itype = instruction_type.NOP
      ∧ directMapped.pipeline.DECODE.instruction_address = 0
      ∧ directMapped.pipeline.ALU.itype = instruction_type.NOP
      ∧ directMapped.pipeline.ALU.instruction_address = 0
      ∧ directMapped.pipeline.MEM.itype = instruction_type.NOP
      ∧ directMapped.pipeline.MEM.instruction_address = 0
      ∧ directMapped.pipeline.WRITEBACK.itype = instruction_type.NOP
      ∧ directMapped.pipeline.WRITEBACK.instruction_address = 0)
    ∧ ∀ address, (iplc_sim_trap_address directMapped address).2 = 0 :=
  init_state Sim.start directMapped 1 1 1 directMapped_configured

/-! ## Theorems: slot kinds after a cycle, and the drain loop -/

/-- The slot kinds after one cycle: FETCH is NOP and DECODE has the kind of the
old FETCH; the other three have the kinds of the old DECODE, ALU, MEM, or, when
the cycle resolves a mispredicted BRANCH, the kinds NOP, BRANCH (the old
DECODE) and that of the old ALU. -/
theorem push_itypes (s : Sim) :
    (iplc_sim_push_pipeline_stage s).pipeline.FETCH.itype = instruction_type.NOP
    ∧ (iplc_sim_push_pipeline_stage s).pipeline.DECODE.itype = s.pipeline.FETCH.itype
    ∧ (¬ (s.pipeline.DECODE.itype = instruction_type.BRANCH ∧ s.mispredicts) →
        (iplc_sim_push_pipeline_stage s).pipeline.ALU.itype = s.pipeline.DECODE.itype
        ∧ (iplc_sim_push_pipeline_stage s).pipeline.MEM.itype = s.pipeline.ALU.itype
        ∧ (iplc_sim_push_pipeline_stage s).pipeline.WRITEBACK.itype = s.pipeline.MEM.itype)
    ∧ (s.pipeline.DECODE.itype = instruction_type.BRANCH ∧ s.mispredicts →
        (iplc_sim_push_pipeline_stage s).pipeline.ALU.itype = instruction_type.NOP
        ∧ (iplc_sim_push_pipeline_stage s).pipeline.MEM.itype = s.pipeline.DECODE.itype
        ∧ (iplc_sim_push_pipeline_stage s).pipeline.WRITEBACK.itype = s.pipeline.ALU.itype) := by
  have hr := retire_frame s
  have hb := branch_frame (iplc_sim_push_pipeline_stage.retire s)
  have hm := memory_frame
    (iplc_sim_push_pipeline_stage.branch (iplc_sim_push_pipeline_stage.retire s))
  have hmp := mispredicts_congr _ _ hr.1 hr.2.2.2.2
  have hs := shift_itypes (iplc_sim_push_pipeline_stage.memory
    (iplc_sim_push_pipeline_stage.branch (iplc_sim_push_pipeline_stage.retire s))).pipeline
  rw [hr.1, hmp] at hb
  have hq := squash_itypes s.pipeline
  unfold iplc_sim_push_pipeline_stage
  simp only [forward_eq]
  refine ⟨rfl, ?_, ?_, ?_⟩
  · rw [hs.2.1, hm.1]
    by_cases hc : s.pipeline.DECODE.itype = instruction_type.BRANCH ∧ s.mispredicts
    · rw [hb.1 hc, hq.1]
    · rw [hb.2.1 hc]
  · intro hc
    rw [hs.2.2.1, hs.2.2.2.1, hs.2.2.2.2, hm.1, hb.2.1 hc]
    exact ⟨rfl, rfl, rfl⟩
  · intro hc
    rw [hs.2.2.1, hs.2.2.2.1, hs.2.2.2.2, hm.1, hb.1 hc]
    exact ⟨hq.2.1, hq.2.2.1, hq.2.2.2.1⟩

theorem busy_eq_false_iff (p : Pipeline) :
    p.busy = false ↔
      p.FETCH.itype = instruction_type.NOP ∧ p.DECODE.itype = instruction_type.NOP
      ∧ p.ALU.itype = instruction_type.NOP ∧ p.MEM.itype = instruction_type.NOP
      ∧ p.WRITEBACK.itype = instruction_type.NOP := by
  unfold Pipeline.busy
  simp [and_assoc]

theorem push_leading (k : Nat) (s : Sim) (h : Pipeline.leading k s.pipeline) :
    Pipeline.leading (k + 1) (iplc_sim_push_pipeline_stage s).pipeline := by
  obtain ⟨h1, h2, h3, h4, h5⟩ := h
  obtain ⟨p1, p2, p3, _⟩ := push_itypes s
  have hn : 2 ≤ k → ¬ (s.pipeline.DECODE.itype = instruction_type.BRANCH ∧ s.mispredicts) := by
    intro hk hc
    have := h2 hk
    rw [this] at hc
    exact absurd hc.1 (by decide)
  refine ⟨fun _ => p1, fun hk => ?_, fun hk => ?_, fun hk => ?_, fun hk => ?_⟩
  · rw [p2]
    exact h1 (by omega)
  · rw [(p3 (hn (by omega))).1]
    exact h2 (by omega)
  · rw [(p3 (hn (by omega))).2.1]
    exact h3 (by omega)
  · rw [(p3 (hn (by omega))).2.2]
    exact h4 (by omega)

theorem leading_five (p : Pipeline) (h : Pipeline.leading 5 p) : p.busy = false := by
  rw [busy_eq_false_iff]
  exact ⟨h.1 (by omega), h.2.1 (by omega), h.2.2.1 (by omega), h.2.2.2.1 (by omega),
    h.2.2.2.2 (by omega)⟩

/-- The drain loop run with enough fuel ends with all five slots NOP. -/
theorem drain_idle (fuel : Nat) :
    ∀ (k : Nat) (s : Sim), Pipeline.leading k s.pipeline → 5 ≤ k + fuel →
      (iplc_sim_finalize.drain fuel s).pipeline.busy = false := by
  induction fuel with
  | zero =>
    intro k s h hk
    have e : k = 5 + (k - 5) := by omega
    exact leading_five _ ⟨fun _ => h.1 (by omega), fun _ => h.2.1 (by omega),
      fun _ => h.2.2.1 (by omega), fun _ => h.2.2.2.1 (by omega),
      fun _ => h.2.2.2.2 (by omega)⟩
  | succ n ih =>
    intro k s h hk
    unfold iplc_sim_finalize.drain
    by_cases hb : s.pipeline.busy = true
    · rw [if_pos hb]
      exact ih (k + 1) _ (push_leading k s h) (by omega)
    · rw [if_neg hb]
      simpa using hb

/-- Once the loop has ended, more fuel changes nothing. -/
theorem drain_stable (fuel : Nat) :
    ∀ (s : Sim), (iplc_sim_finalize.drain fuel s).pipeline.busy = false →
      ∀ more, iplc_sim_finalize.drain (fuel + more) s = iplc_sim_finalize.drain fuel s := by
  induction fuel with
  | zero =>
    intro s h more
    cases more with
    | zero => rfl
    | succ m =>
      have hs : s.pipeline.busy = false := h
      show iplc_sim_finalize.drain (0 + m + 1) s = s
      unfold iplc_sim_finalize.drain
      rw [hs]
      rfl
  | succ n ih =>
    intro s h more
    have e : n + 1 + more = (n + more) + 1 := by omega
    rw [e]
    unfold iplc_sim_finalize.drain at h ⊢
    by_cases hb : s.pipeline.busy = true
    · rw [if_pos hb] at h
      rw [if_pos hb, if_pos hb]
      exact ih _ h more
    · rw [if_neg hb, if_neg hb]

/-- The loop of `iplc_sim_finalize` ends within five iterations: with fuel 5
all slots are NOP at the end, and any larger fuel gives the same state. -/
theorem finalize_settles (s : Sim) :
    (iplc_sim_finalize s).pipeline.busy = false
    ∧ ∀ more, iplc_sim_finalize.drain (5 + more) s = iplc_sim_finalize s := by
  have h : (iplc_sim_finalize.drain 5 s).pipeline.busy = false :=
    drain_idle 5 0 s ⟨fun h => absurd h (by omega), fun h => absurd h (by omega),
      fun h => absurd h (by omega), fun h => absurd h (by omega),
      fun h => absurd h (by omega)⟩ (by omega)
  exact ⟨h, drain_stable 5 s h⟩

/-! ## Theorems: the capacity check -/

theorem floorLog2_pow : ∀ (m fuel : Nat), m ≤ fuel → floorLog2 fuel (2 ^ m) = m := by
  intro m
  induction m with
  | zero =>
    intro fuel _
    cases fuel with
    | zero => rfl
    | succ f => simp [floorLog2]
  | succ m ih =>
    intro fuel h
    cases fuel with
    | zero => omega
    | succ f =>
      unfold floorLog2
      have h2 : ¬ 2 ^ (m + 1) < 2 := by
        have : 1 ≤ 2 ^ m := Nat.one_le_two_pow
        rw [pow_succ]
        omega
      rw [if_neg h2]
      have h3 : 2 ^ (m + 1) / 2 = 2 ^ m := by
        rw [pow_succ]
        exact Nat.mul_div_cancel _ (by decide)
      rw [h3, ih f (by omega)]

/-- For a block of `2^k` words the block offset has `k + 2` bits. -/
theorem rintLog2_block (k : Nat) : rintLog2 (2 ^ k * 4) = k + 2 := by
  have e : 2 ^ k * 4 = 2 ^ (k + 2) := by
    rw [pow_add]
    rfl
  rw [e]
  unfold rintLog2
  have hf : floorLog2 (2 ^ (k + 2)) (2 ^ (k + 2)) = k + 2 :=
    floorLog2_pow (k + 2) _ (Nat.le_of_lt (Nat.lt_two_pow _))
  simp only [hf]
  have hsq : 2 ^ (k + 2) * 2 ^ (k + 2) = 2 ^ (2 * (k + 2)) := by
    rw [← pow_add]
    congr 1
    omega
  rw [hsq, if_neg]
  have : 2 ^ (2 * (k + 2)) < 2 ^ (2 * (k + 2) + 1) := Nat.pow_lt_pow_right (by decide) (by omega)
  omega

theorem init_eq (g : Sim) (index blocksize assoc : Nat) :
    iplc_sim_init g index blocksize assoc
      = if cacheSize index blocksize assoc % 2 ^ 64 > (MAX_CACHE_SIZE : Int) then none
        else some
          { iplc_sim_init.checked g index blocksize assoc with
            cache := iplc_sim_init.allocate index assoc
            pipeline := { FETCH := pipeline_t.zero, DECODE := pipeline_t.zero,
                          ALU := pipeline_t.zero, MEM := pipeline_t.zero,
                          WRITEBACK := pipeline_t.zero } } := by
  unfold iplc_sim_init cacheSize iplc_sim_init.checked
  simp only [Nat.one_shiftLeft, Nat.cast_pow, Nat.cast_ofNat]

theorem cacheSize_block (index k assoc : Nat) :
    cacheSize index (2 ^ k) assoc
      = (assoc : Int) * 2 ^ index * (32 * 2 ^ k + 33 - (index : Int) - ((k : Int) + 2)) := by
  unfold cacheSize
  rw [rintLog2_block]
  push_cast
  rfl

/-- C11, amended. For `index ≤ 30`, blocks of `2^k` words and a size within the
range of `int`, the block offset has `k + 2` bits and `iplc_sim_init` fails exactly
when `assoc * 2^index * (32 * 2^k + 33 - index - (k + 2))` exceeds 10240. The
check runs on globals whose `cache` is still the one from before the call, and
the sets exist only in the state of a successful call. The configuration
`1, 1, 1` is accepted and `10, 1, 1` is rejected. -/
theorem init_capacity_check (g : Sim) (index k assoc : Nat) (hindex : index ≤ 30)
    (hfit : (assoc : Int) * 2 ^ index * (32 * 2 ^ k + 33 - (index : Int) - ((k : Int) + 2))
      < 2 ^ 31) :
    (iplc_sim_init.checked g index (2 ^ k) assoc).cache_blockoffsetbits = k + 2
    ∧ (iplc_sim_init g index (2 ^ k) assoc = none ↔
        (assoc : Int) * 2 ^ index * (32 * 2 ^ k + 33 - (index : Int) - ((k : Int) + 2))
          > 10240)
    ∧ (iplc_sim_init.checked g index (2 ^ k) assoc).cache = g.cache
    ∧ (∀ s, iplc_sim_init g index (2 ^ k) assoc = some s →
        s.cache = iplc_sim_init.allocate index assoc)
    ∧ (iplc_sim_init g 1 1 1).isSome = true
    ∧ iplc_sim_init g 10 1 1 = none := by
  have hk : (k : Int) < 2 ^ k := by
    exact_mod_cast Nat.lt_two_pow k
  have hfac : (0 : Int) ≤ 32 * 2 ^ k + 33 - (index : Int) - ((k : Int) + 2) := by
    have : (index : Int) ≤ 30 := by exact_mod_cast hindex
    omega
  have hnn : (0 : Int)
      ≤ (assoc : Int) * 2 ^ index * (32 * 2 ^ k + 33 - (index : Int) - ((k : Int) + 2)) :=
    mul_nonneg (mul_nonneg (Int.ofNat_nonneg _) (pow_nonneg (by decide) _)) hfac
  have hmod : cacheSize index (2 ^ k) assoc % 2 ^ 64 = cacheSize index (2 ^ k) assoc := by
    rw [cacheSize_block]
    apply Int.emod_eq_of_lt hnn
    have : (2 : Int) ^ 31 < 2 ^ 64 := by decide
    omega
  refine ⟨rintLog2_block k, ?_, rfl, ?_, ?_, ?_⟩
  · rw [init_eq, hmod, cacheSize_block]
    constructor
    · intro h
      by_contra hc
      rw [if_neg (by simpa [MAX_CACHE_SIZE] using hc)] at h
      exact absurd h (by simp)
    · intro h
      rw [if_pos (by simpa [MAX_CACHE_SIZE] using h)]
  · intro s hs
    rw [init_eq] at hs
    split at hs
    · exact absurd hs (by simp)
    · injection hs with hs
      rw [← hs]
  · rw [init_eq]
    rfl
  · rw [init_eq]
    rfl

/-- Witness of C11: the configuration 1 index bit, 1 word, 1 way. -/
theorem init_capacity_check_witness :
    (iplc_sim_init.checked Sim.start 1 (2 ^ 0) 1).cache_blockoffsetbits = 0 + 2
    ∧ (iplc_sim_init Sim.start 1 (2 ^ 0) 1 = none ↔
        ((1 : Nat) : Int) * 2 ^ 1 * (32 * 2 ^ 0 + 33 - ((1 : Nat) : Int) - (((0 : Nat) : Int) + 2))
          > 10240)
    ∧ (iplc_sim_init.checked Sim.start 1 (2 ^ 0) 1).cache = Sim.start.cache
    ∧ (∀ s, iplc_sim_init Sim.start 1 (2 ^ 0) 1 = some s →
        s.cache = iplc_sim_init.allocate 1 1)
    ∧ (iplc_sim_init Sim.start 1 1 1).isSome = true
    ∧ iplc_sim_init Sim.start 10 1 1 = none :=
  init_capacity_check Sim.start 1 0 1 (by decide) (by decide)

/-- C11, as stated, fails where the product leaves the range of the machine
integers. With 60 index bits, blocks of 1 word and 16 ways the product
`16 * 2^60 * (32 * 1 + 33 - 60 - 2)` is `3 * 2^64`, far above 10240, but the
value compared with `MAX_CACHE_SIZE`, an `unsigned long`, is 0, and
`iplc_sim_init` accepts the configuration. -/
theorem capacity_check_counterexample :
    (16 : Int) * 2 ^ 60 * (32 * 2 ^ 0 + 33 - 60 - (0 + 2)) > 10240
    ∧ cacheSize 60 (2 ^ 0) 16 = 3 * 2 ^ 64
    ∧ cacheSize 60 (2 ^ 0) 16 % 2 ^ 64 = 0
    ∧ (iplc_sim_init Sim.start 60 (2 ^ 0) 16).isSome = true := by
  have hc : cacheSize 60 (2 ^ 0) 16 = 3 * 2 ^ 64 := by
    rw [cacheSize_block]
    norm_num
  refine ⟨by norm_num, hc, by rw [hc]; norm_num, ?_⟩
  rw [init_eq, hc, if_neg (by norm_num [MAX_CACHE_SIZE])]
  rfl

/-! ## Theorems: the counters in one cycle -/

/-- A probe changes `cache`, `cache_hit` and `cache_miss` only. -/
theorem trap_rest (s : Sim) (address : Nat) :
    (iplc_sim_trap_address s address).1.pipeline_cycles = s.pipeline_cycles
    ∧ (iplc_sim_trap_address s address).1.instruction_count = s.instruction_count
    ∧ (iplc_sim_trap_address s address).1.branch_predict_taken = s.branch_predict_taken
    ∧ (iplc_sim_trap_address s address).1.branch_count = s.branch_count
    ∧ (iplc_sim_trap_address s address).1.correct_branch_predictions
        = s.correct_branch_predictions
    ∧ (iplc_sim_trap_address s address).1.instruction_address = s.instruction_address
    ∧ (iplc_sim_trap_address s address).1.data_address = s.data_address
    ∧ (iplc_sim_trap_address s address).1.cache_blocksize = s.cache_blocksize := by
  rcases trap_cases s address with ⟨h1, _⟩ | ⟨k, _, _, _, h4⟩
  · rw [h1]
    exact ⟨rfl, rfl, rfl, rfl, rfl, rfl, rfl, rfl⟩
  · rw [h4]
    exact ⟨rfl, rfl, rfl, rfl, rfl, rfl, rfl, rfl⟩

/-- Step 2 when DECODE does not hold a BRANCH: nothing happens. -/
theorem branch_other (s : Sim) (h : s.pipeline.DECODE.itype ≠ instruction_type.BRANCH) :
    iplc_sim_push_pipeline_stage.branch s = s := by
  unfold iplc_sim_push_pipeline_stage.branch
  rw [if_neg h]

/-- Step 2 when DECODE holds a correctly predicted BRANCH: one more correct
prediction, nothing else. -/
theorem branch_correct (s : Sim) (h : s.pipeline.DECODE.itype = instruction_type.BRANCH)
    (hm : ¬ s.mispredicts) :
    iplc_sim_push_pipeline_stage.branch s
      = { s with correct_branch_predictions := u32 (s.correct_branch_predictions + 1) } := by
  unfold Sim.mispredicts at hm
  unfold iplc_sim_push_pipeline_stage.branch
  rw [if_pos h]
  by_cases h1 : iplc_sim_push_pipeline_stage.branch_taken s ≠ 0
  · rw [if_pos h1]
    by_cases h2 : s.branch_predict_taken ≠ 0
    · rw [if_pos h2]
    · exact absurd (Or.inl ⟨h1, not_not.mp h2⟩) hm
  · rw [if_neg h1, if_pos h1]
    by_cases h2 : s.branch_predict_taken ≠ 0
    · exact absurd (Or.inr ⟨not_not.mp h1, h2⟩) hm
    · rw [if_pos h2]

/-- Step 2 when DECODE holds a mispredicted BRANCH: the misprediction arm. -/
theorem branch_wrong (s : Sim) (h : s.pipeline.DECODE.itype = instruction_type.BRANCH)
    (hm : s.mispredicts) :
    iplc_sim_push_pipeline_stage.branch s = iplc_sim_push_pipeline_stage.mispredict s := by
  unfold Sim.mispredicts at hm
  unfold iplc_sim_push_pipeline_stage.branch
  rw [if_pos h]
  by_cases h1 : iplc_sim_push_pipeline_stage.branch_taken s ≠ 0
  · rw [if_pos h1]
    by_cases h2 : s.branch_predict_taken ≠ 0
    · rcases hm with ⟨_, h3⟩ | ⟨h3, _⟩
      · exact absurd h3 h2
      · exact absurd h3 h1
    · rw [if_neg h2]
  · rw [if_neg h1, if_pos h1]
    by_cases h2 : s.branch_predict_taken ≠ 0
    · rw [if_neg (not_not.mpr h2)]
    · rcases hm with ⟨h3, _⟩ | ⟨_, h3⟩
      · exact absurd h3 h1
      · exact absurd h3 h2

theorem retire_rest (s : Sim) :
    (iplc_sim_push_pipeline_stage.retire s).pipeline_cycles = s.pipeline_cycles
    ∧ (iplc_sim_push_pipeline_stage.retire s).correct_branch_predictions
        = s.correct_branch_predictions
    ∧ (iplc_sim_push_pipeline_stage.retire s).branch_count = s.branch_count
    ∧ (iplc_sim_push_pipeline_stage.retire s).cache = s.cache
    ∧ (iplc_sim_push_pipeline_stage.retire s).cache_index = s.cache_index
    ∧ (iplc_sim_push_pipeline_stage.retire s).cache_blockoffsetbits = s.cache_blockoffsetbits
    ∧ (iplc_sim_push_pipeline_stage.retire s).cache_assoc = s.cache_assoc
    ∧ (iplc_sim_push_pipeline_stage.retire s).instruction_count
        = (if s.pipeline.WRITEBACK.instruction_address ≠ 0 then u32 (s.instruction_count + 1)
            else s.instruction_count) := by
  unfold iplc_sim_push_pipeline_stage.retire
  split <;> exact ⟨rfl, rfl, rfl, rfl, rfl, rfl, rfl, rfl⟩

theorem mispredict_rest (s : Sim) :
    (iplc_sim_push_pipeline_stage.mispredict s).pipeline_cycles = u32 (s.pipeline_cycles + 1)
    ∧ (iplc_sim_push_pipeline_stage.mispredict s).correct_branch_predictions
        = s.correct_branch_predictions
    ∧ (iplc_sim_push_pipeline_stage.mispredict s).branch_count = s.branch_count
    ∧ (iplc_sim_push_pipeline_stage.mispredict s).cache = s.cache
    ∧ (iplc_sim_push_pipeline_stage.mispredict s).cache_index = s.cache_index
    ∧ (iplc_sim_push_pipeline_stage.mispredict s).cache_blockoffsetbits
        = s.cache_blockoffsetbits
    ∧ (iplc_sim_push_pipeline_stage.mispredict s).cache_assoc = s.cache_assoc
    ∧ (iplc_sim_push_pipeline_stage.mispredict s).instruction_count
        = (if (iplc_sim_push_pipeline_stage.squash s.pipeline).WRITEBACK.instruction_address ≠ 0
            then u32 (s.instruction_count + 1) else s.instruction_count) := by
  unfold iplc_sim_push_pipeline_stage.mispredict
  simp only
  split <;> exact ⟨rfl, rfl, rfl, rfl, rfl, rfl, rfl, rfl⟩

/-- The counters other than the cache counters when step 3 starts. -/
theorem atStep3_rest (s : Sim) :
    s.atStep3.pipeline_cycles = (if s.penalty = 1 then u32 (s.pipeline_cycles + 1)
        else s.pipeline_cycles)
    ∧ s.atStep3.correct_branch_predictions
        = (if s.pipeline.DECODE.itype = instruction_type.BRANCH ∧ ¬ s.mispredicts then
            u32 (s.correct_branch_predictions + 1) else s.correct_branch_predictions)
    ∧ s.atStep3.branch_count = s.branch_count
    ∧ s.atStep3.cache = s.cache
    ∧ s.atStep3.cache_index = s.cache_index
    ∧ s.atStep3.cache_blockoffsetbits = s.cache_blockoffsetbits
    ∧ s.atStep3.cache_assoc = s.cache_assoc := by
  have hr := retire_frame s
  have hr2 := retire_rest s
  have hmp := mispredicts_congr _ _ hr.1 hr.2.2.2.2
  unfold Sim.atStep3 Sim.penalty
  by_cases hb : s.pipeline.DECODE.itype = instruction_type.BRANCH
  · have hb2 : (iplc_sim_push_pipeline_stage.retire s).pipeline.DECODE.itype
        = instruction_type.BRANCH := by rw [hr.1]; exact hb
    by_cases hm : s.mispredicts
    · rw [branch_wrong _ hb2 (hmp.mpr hm)]
      have hq := mispredict_rest (iplc_sim_push_pipeline_stage.retire s)
      rw [if_pos (if_pos ⟨hb, hm⟩), if_neg (by tauto)]
      rw [hq.1, hq.2.1, hq.2.2.1, hq.2.2.2.1, hq.2.2.2.2.1, hq.2.2.2.2.2.1, hq.2.2.2.2.2.2.1]
      exact ⟨by rw [hr2.1], hr2.2.1, hr2.2.2.1, hr2.2.2.2.1, hr2.2.2.2.2.1, hr2.2.2.2.2.2.1,
        hr2.2.2.2.2.2.2.1⟩
    · rw [branch_correct _ hb2 (fun h => hm (hmp.mp h))]
      have e : (if s.pipeline.DECODE.itype = instruction_type.BRANCH ∧ s.mispredicts then 1
          else 0) ≠ 1 := by
        rw [if_neg (by tauto)]
        decide
      rw [if_neg e, if_pos ⟨hb, hm⟩]
      exact ⟨hr2.1, by show u32 _ = _; rw [hr2.2.1], hr2.2.2.1, hr2.2.2.2.1, hr2.2.2.2.2.1,
        hr2.2.2.2.2.2.1, hr2.2.2.2.2.2.2.1⟩
  · have hb2 : (iplc_sim_push_pipeline_stage.retire s).pipeline.DECODE.itype
        ≠ instruction_type.BRANCH := by rw [hr.1]; exact hb
    rw [branch_other _ hb2]
    have e : (if s.pipeline.DECODE.itype = instruction_type.BRANCH ∧ s.mispredicts then 1
        else 0) ≠ 1 := by
      rw [if_neg (by tauto)]
      decide
    rw [if_neg e, if_neg (by tauto)]
    exact ⟨hr2.1, hr2.2.1, hr2.2.2.1, hr2.2.2.2.1, hr2.2.2.2.2.1, hr2.2.2.2.2.2.1,
      hr2.2.2.2.2.2.2.1⟩

theorem isMemory_eq_one_iff (x : pipeline_t) :
    x.isMemory = 1 ↔ (x.itype = instruction_type.LW ∨ x.itype = instruction_type.SW) := by
  unfold pipeline_t.isMemory
  split <;> simp [*]

theorem dataProbe_rest (s : Sim) :
    (iplc_sim_push_pipeline_stage.dataProbe s).pipeline_cycles
        = (if (iplc_sim_trap_address s s.pipeline.MEM.stage.data_address).2 = 0 then
            u32 (s.pipeline_cycles + 9) else s.pipeline_cycles)
    ∧ (iplc_sim_push_pipeline_stage.dataProbe s).instruction_count = s.instruction_count
    ∧ (iplc_sim_push_pipeline_stage.dataProbe s).correct_branch_predictions
        = s.correct_branch_predictions
    ∧ (iplc_sim_push_pipeline_stage.dataProbe s).branch_count = s.branch_count
    ∧ (iplc_sim_push_pipeline_stage.dataProbe s).branch_predict_taken = s.branch_predict_taken
    ∧ (iplc_sim_push_pipeline_stage.dataProbe s).cache
        = (iplc_sim_trap_address s s.pipeline.MEM.stage.data_address).1.cache
    ∧ (iplc_sim_push_pipeline_stage.dataProbe s).cache_hit
        = (iplc_sim_trap_address s s.pipeline.MEM.stage.data_address).1.cache_hit
    ∧ (iplc_sim_push_pipeline_stage.dataProbe s).cache_miss
        = (iplc_sim_trap_address s s.pipeline.MEM.stage.data_address).1.cache_miss := by
  obtain ⟨h1, h2, h3, h4, h5, _⟩ := trap_rest s s.pipeline.MEM.stage.data_address
  unfold iplc_sim_push_pipeline_stage.dataProbe
  simp only
  split
  · refine ⟨?_, h2, h5, h4, h3, rfl, rfl, rfl⟩
    show u32 ((iplc_sim_trap_address s s.pipeline.MEM.stage.data_address).1.pipeline_cycles + 9)
      = _
    rw [h1]
  · exact ⟨h1, h2, h5, h4, h3, rfl, rfl, rfl⟩

/-- Steps 3 and 4: with a LW or SW in MEM they are one data probe, otherwise
nothing. -/
theorem memory_eq (s : Sim) :
    iplc_sim_push_pipeline_stage.memory s
      = if s.pipeline.MEM.isMemory = 1 then iplc_sim_push_pipeline_stage.dataProbe s else s := by
  have hp := dataProbe_frame s
  unfold iplc_sim_push_pipeline_stage.memory
  simp only
  have hiff := isMemory_eq_one_iff s.pipeline.MEM
  by_cases h1 : s.pipeline.MEM.itype = instruction_type.LW
  · have h2 : ¬ (iplc_sim_push_pipeline_stage.dataProbe s).pipeline.MEM.itype
        = instruction_type.SW := by
      rw [hp.1, h1]; decide
    rw [if_pos h1, if_neg h2, if_pos (hiff.mpr (Or.inl h1))]
  · rw [if_neg h1]
    by_cases h2 : s.pipeline.MEM.itype = instruction_type.SW
    · rw [if_pos h2, if_pos (hiff.mpr (Or.inr h2))]
    · rw [if_neg h2, if_neg (fun h => by have := hiff.mp h; tauto)]

/-- The whole cycle in terms of its steps. -/
theorem push_eq (s : Sim) :
    iplc_sim_push_pipeline_stage s
      = { iplc_sim_push_pipeline_stage.memory s.atStep3 with
          pipeline_cycles :=
            u32 ((iplc_sim_push_pipeline_stage.memory s.atStep3).pipeline_cycles + 1)
          pipeline :=
            { iplc_sim_push_pipeline_stage.shift
                (iplc_sim_push_pipeline_stage.memory s.atStep3).pipeline with
              FETCH := pipeline_t.zero } } := by
  unfold iplc_sim_push_pipeline_stage Sim.atStep3
  simp only [forward_eq]

/-- The counters after one cycle. -/
theorem push_counters (s : Sim) :
    (iplc_sim_push_pipeline_stage s).pipeline_cycles
        = u32 ((if s.dataMiss = 1 then u32 (s.atStep3.pipeline_cycles + 9)
            else s.atStep3.pipeline_cycles) + 1)
    ∧ (iplc_sim_push_pipeline_stage s).instruction_count = s.atStep3.instruction_count
    ∧ (iplc_sim_push_pipeline_stage s).correct_branch_predictions
        = s.atStep3.correct_branch_predictions
    ∧ (iplc_sim_push_pipeline_stage s).branch_count = s.branch_count
    ∧ (iplc_sim_push_pipeline_stage s).branch_predict_taken = s.branch_predict_taken := by
  have h3 := atStep3_rest s
  have hd := dataProbe_rest s.atStep3
  have hbp : s.atStep3.branch_predict_taken = s.branch_predict_taken := by
    have hr := retire_frame s
    unfold Sim.atStep3
    by_cases hb : (iplc_sim_push_pipeline_stage.retire s).pipeline.DECODE.itype
        = instruction_type.BRANCH
    · by_cases hm : (iplc_sim_push_pipeline_stage.retire s).mispredicts
      · rw [branch_wrong _ hb hm]
        unfold iplc_sim_push_pipeline_stage.mispredict
        simp only
        split <;> exact hr.2.2.2.2
      · rw [branch_correct _ hb hm]
        exact hr.2.2.2.2
    · rw [branch_other _ hb]
      exact hr.2.2.2.2
  rw [push_eq, memory_eq]
  unfold Sim.dataMiss
  by_cases hmem : s.atStep3.pipeline.MEM.isMemory = 1
  · rw [if_pos hmem]
    refine ⟨?_, hd.2.1, hd.2.2.1, hd.2.2.2.1.trans h3.2.2.1, hd.2.2.2.2.1.trans hbp⟩
    show u32 ((iplc_sim_push_pipeline_stage.dataProbe s.atStep3).pipeline_cycles + 1) = _
    rw [hd.1]
    by_cases hr : (iplc_sim_trap_address s.atStep3 s.atStep3.pipeline.MEM.stage.data_address).2
        = 0
    · rw [if_pos hr, if_pos (if_pos ⟨hmem, hr⟩)]
    · have e : (if s.atStep3.pipeline.MEM.isMemory = 1 ∧
          (iplc_sim_trap_address s.atStep3 s.atStep3.pipeline.MEM.stage.data_address).2 = 0
          then 1 else 0) ≠ 1 := by
        rw [if_neg (by tauto)]
        decide
      rw [if_neg hr, if_neg e]
  · rw [if_neg hmem]
    have e : (if s.atStep3.pipeline.MEM.isMemory = 1 ∧
        (iplc_sim_trap_address s.atStep3 s.atStep3.pipeline.MEM.stage.data_address).2 = 0
        then 1 else 0) ≠ 1 := by
      rw [if_neg (by tauto)]
      decide
    rw [if_neg e]
    exact ⟨rfl, rfl, rfl, h3.2.2.1, hbp⟩

theorem penalty_eq_one_iff (s : Sim) :
    s.penalty = 1 ↔ (s.pipeline.DECODE.itype = instruction_type.BRANCH ∧ s.mispredicts) := by
  unfold Sim.penalty
  split <;> simp [*]

theorem penalty_le_one (s : Sim) : s.penalty ≤ 1 := by
  unfold Sim.penalty
  split <;> omega

theorem dataMiss_le_one (s : Sim) : s.dataMiss ≤ 1 := by
  unfold Sim.dataMiss
  split <;> omega

/-- The outcome differs from the prediction: taken exactly when the mode is
not-taken. -/
theorem mispredicts_iff (s : Sim) :
    s.mispredicts ↔
      ((s.pipeline.FETCH.instruction_address
            ≠ (s.pipeline.DECODE.instruction_address + 4) % 2 ^ 32)
        ↔ s.branch_predict_taken = 0) := by
  unfold Sim.mispredicts iplc_sim_push_pipeline_stage.branch_taken u32
  by_cases h : s.pipeline.FETCH.instruction_address
      ≠ (s.pipeline.DECODE.instruction_address + 4) % 2 ^ 32
  · rw [if_pos h]
    constructor
    · rintro (⟨_, h2⟩ | ⟨h1, _⟩)
      · exact ⟨fun _ => h2, fun _ => h⟩
      · exact absurd h1 (by decide)
    · intro hh
      exact Or.inl ⟨by decide, hh.mp h⟩
  · rw [if_neg h]
    constructor
    · rintro (⟨h1, _⟩ | ⟨_, h2⟩)
      · exact absurd rfl h1
      · exact ⟨fun hx => absurd hx h, fun hx => absurd hx h2⟩
    · intro hh
      exact Or.inr ⟨rfl, fun hx => h (hh.mpr hx)⟩

/-- The slots when step 3 starts: those of the start of the cycle, or the
result of the forced shift when the cycle resolves a mispredicted BRANCH. -/
theorem atStep3_pipeline (s : Sim) :
    s.atStep3.pipeline
      = if s.penalty = 1 then iplc_sim_push_pipeline_stage.squash s.pipeline
        else s.pipeline := by
  have hr := retire_frame s
  have hb := branch_frame (iplc_sim_push_pipeline_stage.retire s)
  have hmp := mispredicts_congr _ _ hr.1 hr.2.2.2.2
  rw [hr.1, hmp] at hb
  unfold Sim.atStep3
  by_cases hc : s.pipeline.DECODE.itype = instruction_type.BRANCH ∧ s.mispredicts
  · rw [if_pos ((penalty_eq_one_iff s).mpr hc)]
    exact hb.1 hc
  · rw [if_neg (fun h => hc ((penalty_eq_one_iff s).mp h))]
    exact hb.2.1 hc

/-- The cycle counter after one cycle, before the claim's wording is attached. -/
theorem push_cycles (s : Sim) :
    (iplc_sim_push_pipeline_stage s).pipeline_cycles
      = (s.pipeline_cycles + 1 + s.penalty + 9 * s.dataMiss) % 2 ^ 32 := by
  have h := (push_counters s).1
  have h3 := (atStep3_rest s).1
  have hp := penalty_le_one s
  have hd := dataMiss_le_one s
  rw [h, h3]
  unfold u32
  by_cases h1 : s.penalty = 1 <;> by_cases h2 : s.dataMiss = 1
  · rw [if_pos h2, if_pos h1, h1, h2]
    omega
  · rw [if_neg h2, if_pos h1, h1]
    have : s.dataMiss = 0 := by omega
    rw [this]
    omega
  · rw [if_pos h2, if_neg h1, h2]
    have : s.penalty = 0 := by omega
    rw [this]
    omega
  · rw [if_neg h2, if_neg h1]
    have : s.penalty = 0 := by omega
    rw [this]
    have : s.dataMiss = 0 := by omega
    rw [this]

/-- C12. One cycle moves `pipeline_cycles` to
`(pipeline_cycles + 1 + m + 9 * d) mod 2^32`, where `m` is 1 exactly when
DECODE holds a BRANCH whose outcome differs from the prediction and `d` is 1
exactly when the slot in MEM at step 3 (the MEM slot of the start of the
cycle, or the one put there by the forced shift) holds a LW or SW and the probe
of its data address returns 0; both are 0 otherwise. -/
theorem cycle_cost (s : Sim) :
    (iplc_sim_push_pipeline_stage s).pipeline_cycles
        = (s.pipeline_cycles + 1 + s.penalty + 9 * s.dataMiss) % 2 ^ 32
    ∧ (s.penalty = 1 ∨ s.penalty = 0)
    ∧ (s.penalty = 1 ↔
        (s.pipeline.DECODE.itype = instruction_type.BRANCH
          ∧ ((s.pipeline.FETCH.instruction_address
                ≠ (s.pipeline.DECODE.instruction_address + 4) % 2 ^ 32)
              ↔ s.branch_predict_taken = 0)))
    ∧ (s.dataMiss = 1 ∨ s.dataMiss = 0)
    ∧ (s.dataMiss = 1 ↔
        ((s.atStep3.pipeline.MEM.itype = instruction_type.LW
            ∨ s.atStep3.pipeline.MEM.itype = instruction_type.SW)
          ∧ (iplc_sim_trap_address s.atStep3 s.atStep3.pipeline.MEM.stage.data_address).2 = 0))
    ∧ s.atStep3.pipeline
        = (if s.penalty = 1 then iplc_sim_push_pipeline_stage.squash s.pipeline
            else s.pipeline)
    ∧ s.atStep3.cache = s.cache := by
  have hp := penalty_le_one s
  have hd := dataMiss_le_one s
  refine ⟨push_cycles s, by omega, ?_, by omega, ?_, atStep3_pipeline s,
    (atStep3_rest s).2.2.2.1⟩
  · rw [penalty_eq_one_iff, mispredicts_iff]
  · unfold Sim.dataMiss
    rw [← isMemory_eq_one_iff]
    split <;> simp [*]

/-! ## Theorems: branch prediction and access counting -/

theorem u32_succ_ne (c : Nat) : u32 (c + 1) ≠ c := by
  unfold u32
  omega

/-- The prediction counter after one cycle. -/
theorem push_correct (s : Sim) :
    (iplc_sim_push_pipeline_stage s).correct_branch_predictions
      = (if s.pipeline.DECODE.itype = instruction_type.BRANCH ∧ ¬ s.mispredicts then
          u32 (s.correct_branch_predictions + 1) else s.correct_branch_predictions) := by
  rw [(push_counters s).2.2.1, (atStep3_rest s).2.1]

/-- The outcome of step 2 in terms of the misprediction condition
`Sim.penalty`. -/
theorem branch_outcome (s : Sim) :
    (iplc_sim_push_pipeline_stage.branch_taken s ≠ 0 ↔
      s.pipeline.FETCH.instruction_address
        ≠ (s.pipeline.DECODE.instruction_address + 4) % 2 ^ 32)
    ∧ (s.pipeline.DECODE.itype = instruction_type.BRANCH →
        (((iplc_sim_push_pipeline_stage s).correct_branch_predictions
              = (s.correct_branch_predictions + 1) % 2 ^ 32 ∧ s.penalty = 0)
          ↔ (iplc_sim_push_pipeline_stage.branch_taken s ≠ 0 ↔ s.branch_predict_taken ≠ 0)))
    ∧ (s.pipeline.DECODE.itype = instruction_type.BRANCH →
        ¬ (iplc_sim_push_pipeline_stage.branch_taken s ≠ 0 ↔ s.branch_predict_taken ≠ 0) →
        (iplc_sim_push_pipeline_stage s).correct_branch_predictions
            = s.correct_branch_predictions ∧ s.penalty = 1)
    ∧ (s.pipeline.DECODE.itype ≠ instruction_type.BRANCH →
        (iplc_sim_push_pipeline_stage s).correct_branch_predictions
            = s.correct_branch_predictions ∧ s.penalty = 0)
    ∧ (s.pipeline.DECODE.itype = instruction_type.BRANCH →
        s.pipeline.FETCH.instruction_address
          = (s.pipeline.DECODE.instruction_address + 4) % 2 ^ 32 →
        s.branch_predict_taken = 0 →
        (iplc_sim_push_pipeline_stage s).correct_branch_predictions
            = (s.correct_branch_predictions + 1) % 2 ^ 32
          ∧ (iplc_sim_push_pipeline_stage s).pipeline_cycles
            = (s.pipeline_cycles + 1 + 9 * s.dataMiss) % 2 ^ 32) := by
  have htaken : iplc_sim_push_pipeline_stage.branch_taken s ≠ 0 ↔
      s.pipeline.FETCH.instruction_address
        ≠ (s.pipeline.DECODE.instruction_address + 4) % 2 ^ 32 := by
    unfold iplc_sim_push_pipeline_stage.branch_taken u32
    split
    · rename_i h
      exact ⟨fun _ => h, fun _ => by decide⟩
    · rename_i h
      exact ⟨fun h0 => absurd rfl h0, fun h1 => absurd h1 h⟩
  have hmis : s.mispredicts ↔
      ¬ (iplc_sim_push_pipeline_stage.branch_taken s ≠ 0 ↔ s.branch_predict_taken ≠ 0) := by
    unfold Sim.mispredicts
    tauto
  have hpen := penalty_eq_one_iff s
  have hple := penalty_le_one s
  have hcor := push_correct s
  refine ⟨htaken, ?_, ?_, ?_, ?_⟩
  · intro hb
    by_cases hm : s.mispredicts
    · rw [hcor, if_neg (by tauto)]
      constructor
      · rintro ⟨h1, _⟩
        exact absurd h1.symm (u32_succ_ne _)
      · intro h
        exact absurd h (hmis.mp hm)
    · rw [hcor, if_pos ⟨hb, hm⟩]
      constructor
      · intro _
        by_contra hc
        exact hm (hmis.mpr hc)
      · intro _
        refine ⟨rfl, ?_⟩
        have : s.penalty ≠ 1 := fun h => hm (hpen.mp h).2
        omega
  · intro hb hne
    have hm := hmis.mpr hne
    rw [hcor, if_neg (by tauto)]
    exact ⟨rfl, hpen.mpr ⟨hb, hm⟩⟩
  · intro hb
    rw [hcor, if_neg (by tauto)]
    refine ⟨rfl, ?_⟩
    have : s.penalty ≠ 1 := fun h => hb (hpen.mp h).1
    omega
  · intro hb hf hp
    have hm : ¬ s.mispredicts := by
      rw [mispredicts_iff]
      intro h
      exact (h.mpr hp) hf
    have h0 : s.penalty = 0 := by
      have : s.penalty ≠ 1 := fun h => hm (hpen.mp h).2
      omega
    rw [hcor, if_pos ⟨hb, hm⟩, push_cycles, h0]
    exact ⟨rfl, rfl⟩

/-- C13. The local `branch_taken` is set exactly when the address in FETCH
differs from the address in DECODE plus 4 (modulo `2^32`). With a BRANCH in
DECODE, the cycle adds one to `correct_branch_predictions` and costs only the
base cycle and the data-miss cycles (no penalty cycle) exactly when that
outcome equals the prediction mode; each of the two holds exactly then;
otherwise the counter is unchanged and the cycle costs one cycle more.
Without a BRANCH in DECODE the counter is unchanged and no penalty cycle is
charged. Scenario C: FETCH at DECODE plus 4 with mode not-taken gives one more
correct prediction and no penalty cycle. -/
theorem branch_resolution (s : Sim) :
    (iplc_sim_push_pipeline_stage.branch_taken s ≠ 0 ↔
      s.pipeline.FETCH.instruction_address
        ≠ (s.pipeline.DECODE.instruction_address + 4) % 2 ^ 32)
    ∧ (s.pipeline.DECODE.itype = instruction_type.BRANCH →
        (((iplc_sim_push_pipeline_stage s).correct_branch_predictions
              = (s.correct_branch_predictions + 1) % 2 ^ 32
            ∧ (iplc_sim_push_pipeline_stage s).pipeline_cycles
              = (s.pipeline_cycles + 1 + 9 * s.dataMiss) % 2 ^ 32)
          ↔ (iplc_sim_push_pipeline_stage.branch_taken s ≠ 0 ↔ s.branch_predict_taken ≠ 0)))
    ∧ (s.pipeline.DECODE.itype = instruction_type.BRANCH →
        ((iplc_sim_push_pipeline_stage s).correct_branch_predictions
              = (s.correct_branch_predictions + 1) % 2 ^ 32
          ↔ (iplc_sim_push_pipeline_stage.branch_taken s ≠ 0 ↔ s.branch_predict_taken ≠ 0)))
    ∧ (s.pipeline.DECODE.itype = instruction_type.BRANCH →
        ((iplc_sim_push_pipeline_stage s).pipeline_cycles
              = (s.pipeline_cycles + 1 + 9 * s.dataMiss) % 2 ^ 32
          ↔ (iplc_sim_push_pipeline_stage.branch_taken s ≠ 0 ↔ s.branch_predict_taken ≠ 0)))
    ∧ (s.pipeline.DECODE.itype = instruction_type.BRANCH →
        ¬ (iplc_sim_push_pipeline_stage.branch_taken s ≠ 0 ↔ s.branch_predict_taken ≠ 0) →
        (iplc_sim_push_pipeline_stage s).correct_branch_predictions
            = s.correct_branch_predictions
          ∧ (iplc_sim_push_pipeline_stage s).pipeline_cycles
            = (s.pipeline_cycles + 1 + 1 + 9 * s.dataMiss) % 2 ^ 32)
    ∧ (s.pipeline.DECODE.itype ≠ instruction_type.BRANCH →
        (iplc_sim_push_pipeline_stage s).correct_branch_predictions
            = s.correct_branch_predictions
          ∧ (iplc_sim_push_pipeline_stage s).pipeline_cycles
            = (s.pipeline_cycles + 1 + 9 * s.dataMiss) % 2 ^ 32)
    ∧ (s.pipeline.DECODE.itype = instruction_type.BRANCH →
        s.pipeline.FETCH.instruction_address
          = (s.pipeline.DECODE.instruction_address + 4) % 2 ^ 32 →
        s.branch_predict_taken = 0 →
        (iplc_sim_push_pipeline_stage s).correct_branch_predictions
            = (s.correct_branch_predictions + 1) % 2 ^ 32
          ∧ (iplc_sim_push_pipeline_stage s).pipeline_cycles
            = (s.pipeline_cycles + 1 + 9 * s.dataMiss) % 2 ^ 32) := by
  obtain ⟨b1, b2, b3, b4, b5⟩ := branch_outcome s
  have hc := push_cycles s
  have hne := u32_succ_ne s.correct_branch_predictions
  unfold u32 at hne
  have hmatch : s.pipeline.DECODE.itype = instruction_type.BRANCH →
      (iplc_sim_push_pipeline_stage.branch_taken s ≠ 0 ↔ s.branch_predict_taken ≠ 0) →
      (iplc_sim_push_pipeline_stage s).correct_branch_predictions
          = (s.correct_branch_predictions + 1) % 2 ^ 32
        ∧ (iplc_sim_push_pipeline_stage s).pipeline_cycles
          = (s.pipeline_cycles + 1 + 9 * s.dataMiss) % 2 ^ 32 := by
    intro hb hm
    obtain ⟨h1, h2⟩ := (b2 hb).mpr hm
    rw [h2] at hc
    exact ⟨h1, hc⟩
  have hmiss : s.pipeline.DECODE.itype = instruction_type.BRANCH →
      ¬ (iplc_sim_push_pipeline_stage.branch_taken s ≠ 0 ↔ s.branch_predict_taken ≠ 0) →
      (iplc_sim_push_pipeline_stage s).correct_branch_predictions
          = s.correct_branch_predictions
        ∧ (iplc_sim_push_pipeline_stage s).pipeline_cycles
          = (s.pipeline_cycles + 1 + 1 + 9 * s.dataMiss) % 2 ^ 32 := by
    intro hb hm
    obtain ⟨h1, h2⟩ := b3 hb hm
    rw [h2] at hc
    exact ⟨h1, hc⟩
  refine ⟨b1, ?_, ?_, ?_, hmiss, ?_, b5⟩
  · intro hb
    constructor
    · rintro ⟨h1, _⟩
      by_contra hm
      exact hne (h1.symm.trans (hmiss hb hm).1)
    · exact hmatch hb
  · intro hb
    constructor
    · intro h1
      by_contra hm
      exact hne (h1.symm.trans (hmiss hb hm).1)
    · exact fun hm => (hmatch hb hm).1
  · intro hb
    constructor
    · intro h1
      by_contra hm
      have h2 := (hmiss hb hm).2
      omega
    · exact fun hm => (hmatch hb hm).2
  · intro hb
    obtain ⟨h1, h2⟩ := b4 hb
    rw [h2] at hc
    exact ⟨h1, hc⟩

/-- Witness of C13: Scenario C on the configuration with blocks of 4 words. -/
theorem branch_resolution_witness :
    (iplc_sim_push_pipeline_stage scenarioC).correct_branch_predictions
        = (scenarioC.correct_branch_predictions + 1) % 2 ^ 32
    ∧ (iplc_sim_push_pipeline_stage scenarioC).pipeline_cycles
        = (scenarioC.pipeline_cycles + 1 + 9 * scenarioC.dataMiss) % 2 ^ 32 :=
  (branch_resolution scenarioC).2.2.2.2.2.2 (by decide!) (by decide!) (by decide!)

/-- The probes made by one cycle: one when the slot in MEM at step 3 holds a LW
or a SW, none otherwise. -/
theorem push_probe_count (s : Sim) :
    (iplc_sim_push_pipeline_stage s).cache_hit + (iplc_sim_push_pipeline_stage s).cache_miss
      = s.cache_hit + s.cache_miss + s.atStep3.pipeline.MEM.isMemory := by
  have hr := retire_frame s
  have hb := branch_frame (iplc_sim_push_pipeline_stage.retire s)
  have hm := memory_frame s.atStep3
  have e1 : (iplc_sim_push_pipeline_stage s).cache_hit
      = (iplc_sim_push_pipeline_stage.memory s.atStep3).cache_hit := by
    rw [push_eq]
  have e2 : (iplc_sim_push_pipeline_stage s).cache_miss
      = (iplc_sim_push_pipeline_stage.memory s.atStep3).cache_miss := by
    rw [push_eq]
  rw [e1, e2, hm.2.1]
  unfold Sim.atStep3
  rw [hb.2.2.1, hb.2.2.2.1, hr.2.1, hr.2.2.1]

/-- C14. Inserting a LW or a SW leaves `cache_access` one above the value after
the embedded cycle, inserting any other kind leaves it at that value, and a
cycle never changes `cache_access`: its data probe, made when the slot in MEM
at step 3 holds a LW or a SW, adds one to `cache_hit + cache_miss` only. -/
theorem insert_counts_access (s : Sim) (instruction : List Nat) (r1 r2 r3 a : Nat) :
    (iplc_sim_process_pipeline_lw s r1 r2 a).cache_access
        = (iplc_sim_push_pipeline_stage s).cache_access + 1
    ∧ (iplc_sim_process_pipeline_sw s r1 r2 a).cache_access
        = (iplc_sim_push_pipeline_stage s).cache_access + 1
    ∧ (iplc_sim_process_pipeline_rtype s instruction r1 r2 r3).cache_access
        = (iplc_sim_push_pipeline_stage s).cache_access
    ∧ (iplc_sim_process_pipeline_branch s r1 r2).cache_access
        = (iplc_sim_push_pipeline_stage s).cache_access
    ∧ (iplc_sim_process_pipeline_jump s instruction).cache_access
        = (iplc_sim_push_pipeline_stage s).cache_access
    ∧ (iplc_sim_process_pipeline_syscall s).cache_access
        = (iplc_sim_push_pipeline_stage s).cache_access
    ∧ (iplc_sim_process_pipeline_nop s).cache_access
        = (iplc_sim_push_pipeline_stage s).cache_access
    ∧ (iplc_sim_push_pipeline_stage s).cache_access = s.cache_access
    ∧ (iplc_sim_push_pipeline_stage s).cache_hit + (iplc_sim_push_pipeline_stage s).cache_miss
        = s.cache_hit + s.cache_miss + s.atStep3.pipeline.MEM.isMemory :=
  ⟨rfl, rfl, rfl, rfl, rfl, rfl, rfl, (push_exact s).1, push_probe_count s⟩

/-! ## Theorems: the drain loop counted -/

theorem calls_stable (fuel : Nat) :
    ∀ (s : Sim), (iplc_sim_finalize.drain fuel s).pipeline.busy = false →
      ∀ more, iplc_sim_finalize.calls (fuel + more) s = iplc_sim_finalize.calls fuel s := by
  induction fuel with
  | zero =>
    intro s h more
    cases more with
    | zero => rfl
    | succ m =>
      have hs : s.pipeline.busy = false := h
      show iplc_sim_finalize.calls (0 + m + 1) s = 0
      unfold iplc_sim_finalize.calls
      rw [hs]
      rfl
  | succ n ih =>
    intro s h more
    have e : n + 1 + more = (n + more) + 1 := by omega
    rw [e]
    unfold iplc_sim_finalize.drain at h
    unfold iplc_sim_finalize.calls
    by_cases hb : s.pipeline.busy = true
    · rw [if_pos hb] at h
      rw [if_pos hb, if_pos hb, ih _ h more]
    · rw [if_neg hb, if_neg hb]

theorem calls_le (fuel : Nat) : ∀ s : Sim, iplc_sim_finalize.calls fuel s ≤ fuel := by
  induction fuel with
  | zero => intro s; exact le_refl 0
  | succ n ih =>
    intro s
    unfold iplc_sim_finalize.calls
    split
    · have := ih (iplc_sim_push_pipeline_stage s)
      omega
    · omega

/-- The loop is its calls of the cycle step, one after the other. -/
theorem drain_eq_iterate (fuel : Nat) :
    ∀ s : Sim, iplc_sim_finalize.drain fuel s
      = iplc_sim_push_pipeline_stage^[iplc_sim_finalize.calls fuel s] s := by
  induction fuel with
  | zero => intro s; rfl
  | succ n ih =>
    intro s
    unfold iplc_sim_finalize.drain iplc_sim_finalize.calls
    by_cases hb : s.pipeline.busy = true
    · rw [if_pos hb, if_pos hb, ih, Function.iterate_succ_apply]
    · rw [if_neg hb, if_neg hb]
      rfl

theorem idle_iff_not_busy (p : Pipeline) : p.idle ↔ p.busy = false := by
  unfold Pipeline.idle
  exact (busy_eq_false_iff p).symm

/-- C15. From every state the loop of `iplc_sim_finalize` ends: with fuel 5 or
more it returns the same state, reached by the same number of calls of the
cycle step, at most 5; in that state all five slots are NOP; and the number of
calls is 0 exactly when all five slots are NOP at the start. -/
theorem drain_terminates (s : Sim) (more : Nat) :
    iplc_sim_finalize.drain (5 + more) s = iplc_sim_finalize s
    ∧ iplc_sim_finalize.calls (5 + more) s = iplc_sim_finalize.calls 5 s
    ∧ iplc_sim_finalize.calls 5 s ≤ 5
    ∧ iplc_sim_finalize s = iplc_sim_push_pipeline_stage^[iplc_sim_finalize.calls 5 s] s
    ∧ (iplc_sim_finalize s).pipeline.idle
    ∧ (iplc_sim_finalize.calls 5 s = 0 ↔ s.pipeline.idle) := by
  have h := finalize_settles s
  refine ⟨h.2 more, calls_stable 5 s h.1 more, calls_le 5 s, drain_eq_iterate 5 s,
    (idle_iff_not_busy _).mpr h.1, ?_⟩
  rw [idle_iff_not_busy]
  show iplc_sim_finalize.calls (4 + 1) s = 0 ↔ _
  unfold iplc_sim_finalize.calls
  by_cases hb : s.pipeline.busy = true
  · rw [if_pos hb]
    constructor
    · intro h0
      omega
    · intro h0
      rw [hb] at h0
      exact absurd h0 (by decide)
  · rw [if_neg hb]
    exact ⟨fun _ => by simpa using hb, fun _ => rfl⟩

/-! ## Theorems: retirement and the counters over a run -/

/-- C16: the code at the failing input. After the one-line trace `100 nop` on
the direct-mapped configuration the loop of `iplc_sim_finalize` makes no call
at all, because the slot of the `nop` has kind NOP: the instruction stays in
FETCH with its address 256 and `instruction_count` ends at 0, not 1. The
cycles counted are the 9 stall cycles and the one of the insert. -/
theorem trailing_nop_not_retired :
    scenarioA.instruction_count = 0
    ∧ scenarioA.pipeline.FETCH.instruction_address = 256
    ∧ scenarioA.pipeline.FETCH.itype = instruction_type.NOP
    ∧ iplc_sim_finalize.calls 5 (runTrace directMapped [(256, TraceOp.nop)]) = 0
    ∧ scenarioA.pipeline_cycles = 10 := by
  decide!

theorem u32_le (n : Nat) : u32 n ≤ n := Nat.mod_le n _

/-- One cycle retires at most one instruction, and one more when it resolves a
mispredicted BRANCH. -/
theorem push_instruction_count_le (s : Sim) :
    (iplc_sim_push_pipeline_stage s).instruction_count
      ≤ s.instruction_count + 1 + s.penalty := by
  have hr := retire_frame s
  have hr2 := retire_rest s
  have hmp := mispredicts_congr _ _ hr.1 hr.2.2.2.2
  have hret : (iplc_sim_push_pipeline_stage.retire s).instruction_count
      ≤ s.instruction_count + 1 := by
    rw [hr2.2.2.2.2.2.2.2]
    split
    · exact u32_le _
    · omega
  rw [(push_counters s).2.1]
  unfold Sim.atStep3 Sim.penalty
  by_cases hb : s.pipeline.DECODE.itype = instruction_type.BRANCH
  · have hb2 : (iplc_sim_push_pipeline_stage.retire s).pipeline.DECODE.itype
        = instruction_type.BRANCH := by rw [hr.1]; exact hb
    by_cases hm : s.mispredicts
    · rw [branch_wrong _ hb2 (hmp.mpr hm), if_pos ⟨hb, hm⟩]
      rw [(mispredict_rest _).2.2.2.2.2.2.2]
      split
      · have := u32_le ((iplc_sim_push_pipeline_stage.retire s).instruction_count + 1)
        omega
      · omega
    · rw [branch_correct _ hb2 (fun h => hm (hmp.mp h))]
      show (iplc_sim_push_pipeline_stage.retire s).instruction_count ≤ _
      omega
  · have hb2 : (iplc_sim_push_pipeline_stage.retire s).pipeline.DECODE.itype
        ≠ instruction_type.BRANCH := by rw [hr.1]; exact hb
    rw [branch_other _ hb2]
    omega

/-- A cycle that cannot wrap the cycle counter raises `instruction_count` by no
more than it raises `pipeline_cycles`. -/
theorem push_retires_within_cost (s : Sim) (h : cyclesFit s) :
    (iplc_sim_push_pipeline_stage s).instruction_count + s.pipeline_cycles
      ≤ s.instruction_count + (iplc_sim_push_pipeline_stage s).pipeline_cycles := by
  have h1 := push_instruction_count_le s
  have h2 := push_cycles s
  have hp := penalty_le_one s
  have hd := dataMiss_le_one s
  unfold cyclesFit at h
  rw [Nat.mod_eq_of_lt (by omega)] at h2
  omega

/-- The same for the cycle embedded in the dispatch of a trace line. -/
theorem dispatch_retires_within_cost (s : Sim) (op : TraceOp) (h : cyclesFit s) :
    (iplc_sim_parse_instruction.dispatch s op).instruction_count + s.pipeline_cycles
      ≤ s.instruction_count + (iplc_sim_parse_instruction.dispatch s op).pipeline_cycles := by
  cases op with
  | rtype i d r1 r2 => exact push_retires_within_cost s h
  | lw d a => exact push_retires_within_cost { s with data_address := a } h
  | sw d a => exact push_retires_within_cost { s with data_address := a } h
  | beq => exact push_retires_within_cost { s with branch_count := u32 (s.branch_count + 1) } h
  | jump i => exact push_retires_within_cost s h
  | syscall => exact push_retires_within_cost s h
  | nop => exact push_retires_within_cost s h

theorem configured_rest (g s : Sim) (index blocksize assoc : Nat)
    (h : iplc_sim_init g index blocksize assoc = some s) :
    s.instruction_count = g.instruction_count ∧ s.pipeline_cycles = g.pipeline_cycles
    ∧ s.branch_count = g.branch_count
    ∧ s.correct_branch_predictions = g.correct_branch_predictions
    ∧ s.branch_predict_taken = g.branch_predict_taken
    ∧ s.pipeline.FETCH = pipeline_t.zero ∧ s.pipeline.DECODE = pipeline_t.zero
    ∧ s.pipeline.ALU = pipeline_t.zero ∧ s.pipeline.MEM = pipeline_t.zero
    ∧ s.pipeline.WRITEBACK = pipeline_t.zero := by
  unfold iplc_sim_init at h
  simp only at h
  split at h
  · exact absurd h (by simp)
  · injection h with h
    subst h
    exact ⟨rfl, rfl, rfl, rfl, rfl, rfl, rfl, rfl, rfl, rfl⟩

theorem probe_rest (s : Sim) (address : Nat) :
    (iplc_sim_parse_instruction.probe s address).1.instruction_count = s.instruction_count
    ∧ (iplc_sim_parse_instruction.probe s address).1.pipeline_cycles = s.pipeline_cycles
    ∧ (iplc_sim_parse_instruction.probe s address).1.branch_count = s.branch_count
    ∧ (iplc_sim_parse_instruction.probe s address).1.correct_branch_predictions
        = s.correct_branch_predictions
    ∧ (iplc_sim_parse_instruction.probe s address).1.pipeline = s.pipeline
    ∧ (iplc_sim_parse_instruction.probe s address).1.branch_predict_taken
        = s.branch_predict_taken := by
  obtain ⟨h1, h2, h3, h4, h5, _⟩ := trap_rest { s with instruction_address := address } address
  obtain ⟨_, _, h6, _⟩ := trap_effect { s with instruction_address := address } address
  exact ⟨h2, h1, h4, h5, h6, h3⟩

/-- C18. A cycle that cannot wrap the cycle counter raises `instruction_count`
by no more than it raises `pipeline_cycles`; hence in every state reached from
a fresh configured simulator by fetch probes, cycles and inserts, with the
cycle counter staying below `2^32`, `instruction_count ≤ pipeline_cycles`. -/
theorem cycles_cover_instructions (index blocksize assoc predict : Nat) (s : Sim) :
    (cyclesFit s →
      (iplc_sim_push_pipeline_stage s).instruction_count + s.pipeline_cycles
        ≤ s.instruction_count + (iplc_sim_push_pipeline_stage s).pipeline_cycles)
    ∧ (DriverReachable cyclesFit index blocksize assoc predict s →
      s.instruction_count ≤ s.pipeline_cycles) := by
  refine ⟨push_retires_within_cost s, fun h => ?_⟩
  induction h with
  | configure s hs =>
    obtain ⟨h1, h2, _⟩ := configured_rest _ _ _ _ _ hs
    rw [h1, h2]
    exact le_refl 0
  | fetch s address _ ih =>
    obtain ⟨h1, h2, _⟩ := probe_rest s address
    rw [h1, h2]
    exact ih
  | advance s _ hg ih =>
    have := push_retires_within_cost s hg
    omega
  | insert s op _ hg ih =>
    have := dispatch_retires_within_cost s op hg
    omega

theorem isBranch_congr (x y : pipeline_t) (h : x.itype = y.itype) : x.isBranch = y.isBranch := by
  unfold pipeline_t.isBranch
  rw [h]

/-- One cycle compares at most the BRANCH in DECODE with the prediction, and
afterwards only the old FETCH slot can still be an unresolved BRANCH. -/
theorem push_branches (s : Sim) :
    (iplc_sim_push_pipeline_stage s).correct_branch_predictions
        ≤ s.correct_branch_predictions + s.pipeline.DECODE.isBranch
    ∧ (iplc_sim_push_pipeline_stage s).pipeline.unresolved = s.pipeline.FETCH.isBranch
    ∧ (iplc_sim_push_pipeline_stage s).branch_count = s.branch_count := by
  obtain ⟨p1, p2, _⟩ := push_itypes s
  refine ⟨?_, ?_, (push_counters s).2.2.2.1⟩
  · rw [push_correct]
    unfold pipeline_t.isBranch
    split
    · rename_i h
      rw [if_pos h.1]
      exact u32_le _
    · omega
  · unfold Pipeline.unresolved
    rw [isBranch_congr _ _ p2]
    have : (iplc_sim_push_pipeline_stage s).pipeline.FETCH.isBranch = 0 := by
      unfold pipeline_t.isBranch
      rw [p1]
      rfl
    omega

/-- A state obtained from `s` by `k` more counted branches, one cycle and a
write of `x` into FETCH, where `k` is 1 for a BRANCH and 0 otherwise. -/
theorem placed_branches (s t u : Sim) (x : pipeline_t) (k : Nat)
    (hp : u.pipeline = ((iplc_sim_push_pipeline_stage t).setFetch x).pipeline)
    (hc : u.correct_branch_predictions
      = (iplc_sim_push_pipeline_stage t).correct_branch_predictions)
    (hb : u.branch_count = (iplc_sim_push_pipeline_stage t).branch_count)
    (htp : t.pipeline = s.pipeline)
    (htc : t.correct_branch_predictions = s.correct_branch_predictions)
    (htb : t.branch_count = s.branch_count + k)
    (hx : x.isBranch = k) :
    u.correct_branch_predictions + u.pipeline.unresolved + s.branch_count
      ≤ s.correct_branch_predictions + s.pipeline.unresolved + u.branch_count := by
  obtain ⟨h1, h2, h3⟩ := push_branches t
  have hu : u.pipeline.unresolved = k + t.pipeline.FETCH.isBranch := by
    rw [hp]
    unfold Pipeline.unresolved at h2 ⊢
    show x.isBranch + (iplc_sim_push_pipeline_stage t).pipeline.DECODE.isBranch = _
    have hz : (iplc_sim_push_pipeline_stage t).pipeline.FETCH.isBranch = 0 := by
      unfold pipeline_t.isBranch
      rw [(push_itypes t).1]
      rfl
    omega
  rw [hu, hc, hb, h3, htb]
  rw [htp, htc] at h1
  rw [htp]
  unfold Pipeline.unresolved
  omega

/-- The dispatch of a trace line whose branch counter cannot wrap. -/
theorem dispatch_branches (s : Sim) (op : TraceOp) (h : branchesFit s) :
    (iplc_sim_parse_instruction.dispatch s op).correct_branch_predictions
        + (iplc_sim_parse_instruction.dispatch s op).pipeline.unresolved + s.branch_count
      ≤ s.correct_branch_predictions + s.pipeline.unresolved
        + (iplc_sim_parse_instruction.dispatch s op).branch_count := by
  cases op with
  | rtype i d r1 r2 => exact placed_branches s s _ _ 0 rfl rfl rfl rfl rfl rfl rfl
  | lw d a =>
    exact placed_branches s { s with data_address := a } _ _ 0 rfl rfl rfl rfl rfl rfl rfl
  | sw d a =>
    exact placed_branches s { s with data_address := a } _ _ 0 rfl rfl rfl rfl rfl rfl rfl
  | beq =>
    have e : u32 (s.branch_count + 1) = s.branch_count + 1 := by
      unfold branchesFit at h
      unfold u32
      exact Nat.mod_eq_of_lt h
    exact placed_branches s { s with branch_count := u32 (s.branch_count + 1) } _ _ 1
      rfl rfl rfl rfl rfl e rfl
  | jump i => exact placed_branches s s _ _ 0 rfl rfl rfl rfl rfl rfl rfl
  | syscall => exact placed_branches s s _ _ 0 rfl rfl rfl rfl rfl rfl rfl
  | nop => exact placed_branches s s _ _ 0 rfl rfl rfl rfl rfl rfl rfl

/-- C19, amended. In every state reached from a fresh configured simulator by
fetch probes, cycles and inserts that start with `branch_count + 1 < 2^32` (an
inserted BRANCH adds one to `branch_count`, which so does not wrap), the
correct predictions plus the BRANCH slots still
in FETCH or DECODE do not exceed `branch_count`; so
`correct_branch_predictions ≤ branch_count`. A cycle compares only the BRANCH
in DECODE, adding at most one, and leaves no BRANCH in FETCH or DECODE other
than the one that was in FETCH: each BRANCH is compared at most once. -/
theorem correct_predictions_bounded (index blocksize assoc predict : Nat) (s : Sim) :
    ((iplc_sim_push_pipeline_stage s).correct_branch_predictions
        ≤ s.correct_branch_predictions + s.pipeline.DECODE.isBranch
      ∧ (iplc_sim_push_pipeline_stage s).pipeline.unresolved = s.pipeline.FETCH.isBranch)
    ∧ (DriverReachable branchesFit index blocksize assoc predict s →
      s.correct_branch_predictions + s.pipeline.unresolved ≤ s.branch_count
      ∧ s.correct_branch_predictions ≤ s.branch_count) := by
  refine ⟨⟨(push_branches s).1, (push_branches s).2.1⟩, fun h => ?_⟩
  have key : s.correct_branch_predictions + s.pipeline.unresolved ≤ s.branch_count := by
    induction h with
    | configure s hs =>
      obtain ⟨_, _, h3, h4, _, h6, h7, _⟩ := configured_rest _ _ _ _ _ hs
      unfold Pipeline.unresolved
      rw [h3, h4, h6, h7]
      exact le_refl 0
    | fetch s address _ ih =>
      obtain ⟨_, _, h3, h4, h5, _⟩ := probe_rest s address
      rw [h3, h4, h5]
      exact ih
    | advance s _ _ ih =>
      obtain ⟨h1, h2, h3⟩ := push_branches s
      rw [h2, h3]
      unfold Pipeline.unresolved at ih
      omega
    | insert s op _ hg ih =>
      have := dispatch_branches s op hg
      omega
  exact ⟨key, by omega⟩

/-- A whole driver step stays within the guarded reachable states when the
states in which its cycles start satisfy the guard. -/
theorem guarded_parse (guard : Sim → Prop) (index blocksize assoc predict : Nat) (s : Sim)
    (address : Nat) (op : TraceOp)
    (h : DriverReachable guard index blocksize assoc predict s)
    (hg : ∀ i, i ≤ 9 →
      guard (iplc_sim_parse_instruction.stall i (iplc_sim_parse_instruction.probe s address).1)) :
    DriverReachable guard index blocksize assoc predict
      (iplc_sim_parse_instruction s address op) := by
  have hf := DriverReachable.fetch s address h
  unfold iplc_sim_parse_instruction
  simp only
  split
  · exact DriverReachable.insert _ op
      (guarded_stall guard _ _ _ _ _ hf 9 (fun i hi => hg i (by omega))) (hg 9 (le_refl 9))
  · exact DriverReachable.insert _ op hf (hg 0 (by omega))

theorem wideBlock_configured : iplc_sim_init Sim.start 1 4 1 = some wideBlock := by
  decide

/-- Witness of C18: the state after the driver step of a load. -/
theorem cycles_cover_instructions_witness :
    (iplc_sim_push_pipeline_stage afterLoad).instruction_count + afterLoad.pipeline_cycles
        ≤ afterLoad.instruction_count + (iplc_sim_push_pipeline_stage afterLoad).pipeline_cycles
    ∧ afterLoad.instruction_count ≤ afterLoad.pipeline_cycles :=
  ⟨(cycles_cover_instructions 1 1 1 0 afterLoad).1 (by unfold cyclesFit; decide!),
    (cycles_cover_instructions 1 1 1 0 afterLoad).2
      (guarded_parse cyclesFit 1 1 1 0 directMapped 256 (TraceOp.lw 1 512)
        (DriverReachable.configure directMapped directMapped_configured)
        (by unfold cyclesFit; decide!))⟩

theorem scenarioC_reachable : DriverReachable branchesFit 1 4 1 0 scenarioC :=
  guarded_parse branchesFit 1 4 1 0 _ 260 TraceOp.nop
    (guarded_parse branchesFit 1 4 1 0 wideBlock 256 TraceOp.beq
      (DriverReachable.configure wideBlock wideBlock_configured)
      (by unfold branchesFit; decide!))
    (by unfold branchesFit; decide!)

/-- Witness of C19: the cycle that resolves the BRANCH of Scenario C. -/
theorem correct_predictions_bounded_witness :
    (iplc_sim_push_pipeline_stage scenarioC).correct_branch_predictions
        + (iplc_sim_push_pipeline_stage scenarioC).pipeline.unresolved
        ≤ (iplc_sim_push_pipeline_stage scenarioC).branch_count
    ∧ (iplc_sim_push_pipeline_stage scenarioC).correct_branch_predictions
        ≤ (iplc_sim_push_pipeline_stage scenarioC).branch_count :=
  (correct_predictions_bounded 1 4 1 0 (iplc_sim_push_pipeline_stage scenarioC)).2
    (DriverReachable.advance scenarioC scenarioC_reachable (by unfold branchesFit; decide!))


/-! ## Theorems: the miss path on a set with a free way -/

theorem miss_scan_eq (l : List assoc_t) (i : Nat) (hinv : (l.getD i default).vb ≠ 1) :
    ∀ n j, (∀ p, j ≤ p → p < i → (l.getD p default).vb = 1) → j ≤ i → i < j + n →
      iplc_sim_LRU_replace_on_miss.scan l n j = i := by
  intro n
  induction n with
  | zero => intro j _ h1 h2; omega
  | succ n ih =>
    intro j hv h1 h2
    unfold iplc_sim_LRU_replace_on_miss.scan
    by_cases hj : j = i
    · subst hj
      rw [if_pos hinv]
    · rw [if_neg (not_not.mpr (hv j (le_refl j) (by omega)))]
      exact ih (j + 1) (fun p hp1 hp2 => hv p (by omega) hp2) (by omega) (by omega)

theorem setTag_getD (l : List assoc_t) (k t p : Nat) (hk : k < l.length) :
    (setTag l k t).getD p default
      = if p = k then { l.getD k default with tag := t } else l.getD p default := by
  unfold setTag
  by_cases h : p = k
  · subst h
    rw [if_pos rfl, getD_set_self _ _ _ _ hk]
  · rw [if_neg h, getD_set_other _ _ _ _ _ (fun e => h e.symm)]

theorem setVb_getD (l : List assoc_t) (k v p : Nat) (hk : k < l.length) :
    (setVb l k v).getD p default
      = if p = k then { l.getD k default with vb := v } else l.getD p default := by
  unfold setVb
  by_cases h : p = k
  · subst h
    rw [if_pos rfl, getD_set_self _ _ _ _ hk]
  · rw [if_neg h, getD_set_other _ _ _ _ _ (fun e => h e.symm)]

/-- The percolate loop of the miss path, way by way: the ways `j-1 .. j+n-2`
receive the tag of their right neighbour, everything else stays. -/
theorem miss_percolate_getD : ∀ (n j : Nat) (l : List assoc_t) (p : Nat),
    1 ≤ j → j + n ≤ l.length + 1 →
    (iplc_sim_LRU_replace_on_miss.percolate n j l).getD p default
      = if j ≤ p + 1 ∧ p + 1 < j + n then
          { l.getD p default with tag := (l.getD (p + 1) default).tag }
        else l.getD p default := by
  intro n
  induction n with
  | zero =>
    intro j l p _ _
    rw [if_neg (by omega)]
    rfl
  | succ n ih =>
    intro j l p hj hlen
    unfold iplc_sim_LRU_replace_on_miss.percolate
    have hl : (setTag l (j - 1) (l.getD j default).tag).length = l.length := by
      simp [setTag]
    rw [ih (j + 1) _ p (by omega) (by rw [hl]; omega)]
    rw [setTag_getD _ _ _ _ (by omega), setTag_getD _ _ _ _ (by omega)]
    by_cases h1 : j + 1 ≤ p + 1 ∧ p + 1 < j + 1 + n
    · rw [if_pos h1, if_neg (by omega), if_neg (by omega), if_pos (by omega)]
    · rw [if_neg h1]
      by_cases h2 : p = j - 1
      · rw [if_pos h2, if_pos (by omega)]
        have e : p + 1 = j := by omega
        rw [e, h2]
      · rw [if_neg h2, if_neg (by omega)]


/-- The ways after the miss path on a set whose first invalid way is `i`. -/
theorem miss_ways_getD (A : Nat) (l : List assoc_t) (tag i p : Nat) (hlen : l.length = A)
    (hi : i < A) (hvalid : ∀ q, q < i → (l.getD q default).vb = 1)
    (hinv : (l.getD i default).vb ≠ 1) :
    (iplc_sim_LRU_replace_on_miss.ways A l tag).getD p default
      = if p = i then { vb := 1, tag := tag }
        else if p + 1 < i then { l.getD p default with tag := (l.getD (p + 1) default).tag }
        else l.getD p default := by
  have hscan : iplc_sim_LRU_replace_on_miss.scan l A 0 = i :=
    miss_scan_eq l i hinv A 0 (fun q _ hq => hvalid q hq) (Nat.zero_le i) (by omega)
  unfold iplc_sim_LRU_replace_on_miss.ways
  simp only [hscan]
  rw [if_neg (by omega)]
  have hpl : (iplc_sim_LRU_replace_on_miss.percolate (i - 1) 1 l).length = l.length :=
    miss_percolate_length _ _ _
  by_cases hp : p = i
  · rw [if_pos hp, hp]
    exact setVb_setTag_getD _ _ _ (by omega)
  · rw [if_neg hp, setVb_getD _ _ _ _ (by simp [setTag]; omega), if_neg hp,
      setTag_getD _ _ _ _ (by omega), if_neg hp,
      miss_percolate_getD (i - 1) 1 l p (le_refl 1) (by omega)]
    by_cases h2 : p + 1 < i
    · rw [if_pos h2, if_pos (by omega)]
    · rw [if_neg h2, if_neg (by omega)]

/-- C20, as stated, fails. In the two-way set after a probe of address 4 way 0
is valid with tag 1 and way 1 is the first invalid way (`i = 1`, its tag is 0).
The probe of address 8 misses; afterwards way 0 still holds tag 1, not the
tag 0 that way 1 held before. -/
theorem compaction_counterexample :
    wayOf (iplc_sim_trap_address twoWay 4).1 0 0 = { vb := 1, tag := 1 }
    ∧ wayOf (iplc_sim_trap_address twoWay 4).1 0 1 = { vb := 0, tag := 0 }
    ∧ (iplc_sim_trap_address (iplc_sim_trap_address twoWay 4).1 8).2 = 0
    ∧ (wayOf (iplc_sim_trap_address (iplc_sim_trap_address twoWay 4).1 8).1 0 0).tag = 1
    ∧ (wayOf (iplc_sim_trap_address (iplc_sim_trap_address twoWay 4).1 8).1 0 0).tag
        ≠ (wayOf (iplc_sim_trap_address twoWay 4).1 0 1).tag
    ∧ wayOf (iplc_sim_trap_address (iplc_sim_trap_address twoWay 4).1 8).1 0 1
        = { vb := 1, tag := 2 } := by
  decide

/-- C20, amended. On a miss in a set whose first invalid way is at position
`i < A`: for every `p` with `p + 1 < i`, way `p` afterwards holds the tag that
way `p + 1` held before; way `i - 1` keeps its tag; way `i` holds the new tag
with its valid bit set; the ways before `i` stay valid and the ways after `i`
are unchanged; `cache_miss` grows by one. -/
theorem miss_compaction (s : Sim) (index tag i : Nat) (hindex : index < s.cache.length)
    (hlen : (s.cache.getD index default).assoc.length = s.cache_assoc)
    (hi : i < s.cache_assoc) (hvalid : ∀ q, q < i → (wayOf s index q).vb = 1)
    (hinv : (wayOf s index i).vb ≠ 1) :
    (∀ p, p + 1 < i →
      (wayOf (iplc_sim_LRU_replace_on_miss s index tag) index p).tag
        = (wayOf s index (p + 1)).tag)
    ∧ (1 ≤ i →
      (wayOf (iplc_sim_LRU_replace_on_miss s index tag) index (i - 1)).tag
        = (wayOf s index (i - 1)).tag)
    ∧ wayOf (iplc_sim_LRU_replace_on_miss s index tag) index i = { vb := 1, tag := tag }
    ∧ (∀ p, p < i → (wayOf (iplc_sim_LRU_replace_on_miss s index tag) index p).vb = 1)
    ∧ (∀ p, i < p →
      wayOf (iplc_sim_LRU_replace_on_miss s index tag) index p = wayOf s index p)
    ∧ (iplc_sim_LRU_replace_on_miss s index tag).cache_miss = s.cache_miss + 1 := by
  have hw : ∀ p, wayOf (iplc_sim_LRU_replace_on_miss s index tag) index p
      = if p = i then { vb := 1, tag := tag }
        else if p + 1 < i then
          { wayOf s index p with tag := (wayOf s index (p + 1)).tag }
        else wayOf s index p := by
    intro p
    unfold wayOf iplc_sim_LRU_replace_on_miss
    simp only
    rw [getD_set_self _ _ _ _ hindex]
    exact miss_ways_getD s.cache_assoc _ tag i p hlen hi hvalid hinv
  refine ⟨?_, ?_, ?_, ?_, ?_, rfl⟩
  · intro p hp
    rw [hw, if_neg (by omega), if_pos hp]
  · intro h1
    rw [hw, if_neg (by omega), if_neg (by omega)]
  · rw [hw, if_pos rfl]
  · intro p hp
    rw [hw, if_neg (by omega)]
    split
    · exact hvalid p hp
    · exact hvalid p hp
  · intro p hp
    rw [hw, if_neg (by omega), if_neg (by omega)]

/-- Witness of C20 (amended): the three-way set holding the tags 1 and 2, and a
miss with tag 3: way 0 receives the tag 2 of way 1, way 1 keeps its tag 2, way
2 receives the new tag. -/
theorem miss_compaction_witness :
    (∀ p, p + 1 < 2 →
      (wayOf (iplc_sim_LRU_replace_on_miss (probeAll threeWay [4, 8]).1 0 3) 0 p).tag
        = (wayOf (probeAll threeWay [4, 8]).1 0 (p + 1)).tag)
    ∧ (1 ≤ 2 →
      (wayOf (iplc_sim_LRU_replace_on_miss (probeAll threeWay [4, 8]).1 0 3) 0 (2 - 1)).tag
        = (wayOf (probeAll threeWay [4, 8]).1 0 (2 - 1)).tag)
    ∧ wayOf (iplc_sim_LRU_replace_on_miss (probeAll threeWay [4, 8]).1 0 3) 0 2
        = { vb := 1, tag := 3 }
    ∧ (∀ p, p < 2 →
      (wayOf (iplc_sim_LRU_replace_on_miss (probeAll threeWay [4, 8]).1 0 3) 0 p).vb = 1)
    ∧ (∀ p, 2 < p →
      wayOf (iplc_sim_LRU_replace_on_miss (probeAll threeWay [4, 8]).1 0 3) 0 p
        = wayOf (probeAll threeWay [4, 8]).1 0 p)
    ∧ (iplc_sim_LRU_replace_on_miss (probeAll threeWay [4, 8]).1 0 3).cache_miss
        = (probeAll threeWay [4, 8]).1.cache_miss + 1 :=
  miss_compaction (probeAll threeWay [4, 8]).1 0 3 2 (by decide) (by decide) (by decide)
    (by decide) (by decide)


/-! ## Theorems: residency in a direct-mapped cache -/

theorem sameCache_refl (s : Sim) : s.sameCache s := ⟨rfl, rfl, rfl, rfl⟩

theorem sameCache_trans (s t u : Sim) (h1 : s.sameCache t) (h2 : t.sameCache u) :
    s.sameCache u :=
  ⟨h1.1.trans h2.1, h1.2.1.trans h2.2.1, h1.2.2.1.trans h2.2.2.1, h1.2.2.2.trans h2.2.2.2⟩

theorem resident_congr (s t : Sim) (address : Nat) (h : s.sameCache t) :
    s.resident address ↔ t.resident address := by
  obtain ⟨h1, h2, h3, h4⟩ := h
  unfold Sim.resident wayOf indexOf tagOf
  rw [h1, h2, h3, h4]

theorem cacheShape_congr (s t : Sim) (assoc : Nat) (h : s.sameCache t)
    (hs : CacheShape t.cache_index assoc t) : CacheShape s.cache_index assoc s := by
  obtain ⟨h1, h2, h3, h4⟩ := h
  unfold CacheShape at hs ⊢
  rw [h1, h2, h4]
  exact hs

theorem trap_result_cases (s : Sim) (address : Nat) :
    ((iplc_sim_trap_address s address).2 = 1 ∧ s.resident address)
    ∨ ((iplc_sim_trap_address s address).2 = 0 ∧ ¬ s.resident address) := by
  rcases trap_cases s address with ⟨h1, h2⟩ | ⟨k, hk, h2, h3, h4⟩
  · right
    rw [h1]
    exact ⟨rfl, fun ⟨k, hk, hv⟩ => h2 k hk hv⟩
  · left
    rw [h4]
    exact ⟨rfl, k, hk, h2, h3⟩

/-- After a probe of `address` its block is resident. -/
theorem resident_after (index assoc : Nat) (s : Sim) (address : Nat) (hA : 1 ≤ assoc)
    (h : CacheShape index assoc s) : (iplc_sim_trap_address s address).1.resident address := by
  obtain ⟨k, hk, hv, ht⟩ := trap_makes_resident index assoc s address hA h
  obtain ⟨_, _, _, e1, e2, e3⟩ := trap_effect s address
  have hi := indexOf_congr s (iplc_sim_trap_address s address).1 address e1 e2
  have htg := tagOf_congr s (iplc_sim_trap_address s address).1 address e1 e2
  refine ⟨k, by rw [e3]; exact hk, ?_, ?_⟩
  · rw [hi]; exact hv
  · rw [hi, htg]; exact ht

/-- Addresses with the same set index and the same tag are in the same block. -/
theorem blockOf_eq (s : Sim) (a b : Nat) (hi : indexOf s a = indexOf s b)
    (ht : tagOf s a = tagOf s b) : blockOf s a = blockOf s b := by
  unfold indexOf at hi
  unfold tagOf at ht
  unfold blockOf
  rw [Nat.shiftRight_add, Nat.shiftRight_add, Nat.shiftRight_eq_div_pow,
    Nat.shiftRight_eq_div_pow (b >>> s.cache_blockoffsetbits)] at ht
  rw [Nat.one_shiftLeft] at hi
  rw [← Nat.div_add_mod (a >>> s.cache_blockoffsetbits) (2 ^ s.cache_index),
    ← Nat.div_add_mod (b >>> s.cache_blockoffsetbits) (2 ^ s.cache_index), hi, ht]

/-- The miss path leaves the other sets as they were. -/
theorem miss_keeps_other_sets (s : Sim) (index tag j k : Nat) (h : index ≠ j) :
    wayOf (iplc_sim_LRU_replace_on_miss s index tag) j k = wayOf s j k := by
  unfold wayOf iplc_sim_LRU_replace_on_miss
  simp only
  rw [getD_set_other _ _ _ _ _ h]

/-- With one way, the miss path leaves the new tag, valid, in way 0. -/
theorem miss_direct_mapped (s : Sim) (index tag : Nat) (hA : s.cache_assoc = 1)
    (hindex : index < s.cache.length)
    (hlen : (s.cache.getD index default).assoc.length = 1) :
    wayOf (iplc_sim_LRU_replace_on_miss s index tag) index 0 = { vb := 1, tag := tag } := by
  obtain ⟨k, hk, h⟩ := miss_installs s index tag (by omega) hindex (by rw [hA]; exact hlen)
  have hk0 : k = 0 := by omega
  subst hk0
  exact h

/-- In a direct-mapped cache a probe of `a` does not bring in the block of an
address `b` of another block. -/
theorem not_resident_after (index : Nat) (s : Sim) (a b : Nat) (h : CacheShape index 1 s)
    (hb : ¬ s.resident b) (hab : blockOf s b ≠ blockOf s a) :
    ¬ (iplc_sim_trap_address s a).1.resident b := by
  obtain ⟨_, _, _, e1, e2, e3⟩ := trap_effect s a
  have hi := indexOf_congr s (iplc_sim_trap_address s a).1 b e1 e2
  have htg := tagOf_congr s (iplc_sim_trap_address s a).1 b e1 e2
  have hidx : indexOf s a < s.cache.length := by
    rw [h.2.2.1, ← h.1]
    exact indexOf_lt s a
  rintro ⟨k, hk, hv, ht⟩
  rw [e3, h.2.1] at hk
  have hk0 : k = 0 := by omega
  subst hk0
  rw [hi] at hv ht
  rw [htg] at ht
  rcases trap_cases s a with ⟨h1, _⟩ | ⟨w, _, _, _, h4⟩
  · rw [h1] at hv ht
    by_cases hset : indexOf s a = indexOf s b
    · rw [← hset] at hv ht
      rw [miss_direct_mapped s _ _ h.2.1 hidx (h.2.2.2 _ (getD_mem _ _ _ hidx)).1] at ht
      exact hab (blockOf_eq s b a hset.symm ht.symm)
    · rw [miss_keeps_other_sets _ _ _ _ _ hset] at hv ht
      exact hb ⟨0, by rw [h.2.1]; exact Nat.one_pos, hv, ht⟩
  · rw [h4, hit_keeps_ways] at hv ht
    exact hb ⟨0, by rw [h.2.1]; exact Nat.one_pos, hv, ht⟩

/-- A freshly configured cache holds no block. -/
theorem configured_cold (g s : Sim) (index blocksize assoc : Nat) (address : Nat)
    (h : iplc_sim_init g index blocksize assoc = some s) : ¬ s.resident address := by
  unfold iplc_sim_init at h
  simp only at h
  split at h
  · exact absurd h (by simp)
  · injection h with h
    subst h
    rintro ⟨k, _, hv, _⟩
    revert hv
    unfold wayOf
    simp only [iplc_sim_init.allocate, List.getD_eq_getElem?_getD, List.getElem?_replicate]
    split
    · simp only [Option.getD_some, List.getElem?_replicate]
      split <;> simp [default]
    · simp [default]


/-! ## Theorems: loads moving through the pipeline -/

theorem shift_data_DECODE (p : Pipeline) (h : p.FETCH.itype = instruction_type.LW) :
    (iplc_sim_push_pipeline_stage.shift p).DECODE.stage.data_address
      = p.FETCH.stage.data_address := by
  unfold iplc_sim_push_pipeline_stage.shift
  simp only [kindWM_slots, kindMA_slots, kindAD_slots, kindDF_slots, dataWM_slots, dataMA_slots,
    dataAD_slots, dataDF_slots, h, if_true, ite_self]

theorem shift_data_ALU (p : Pipeline) (h : p.DECODE.itype = instruction_type.LW) :
    (iplc_sim_push_pipeline_stage.shift p).ALU.stage.data_address
      = p.DECODE.stage.data_address := by
  unfold iplc_sim_push_pipeline_stage.shift
  simp only [kindWM_slots, kindMA_slots, kindAD_slots, kindDF_slots, dataWM_slots, dataMA_slots,
    dataAD_slots, dataDF_slots, h, if_true, ite_self]

theorem shift_data_MEM (p : Pipeline) (h : p.ALU.itype = instruction_type.LW) :
    (iplc_sim_push_pipeline_stage.shift p).MEM.stage.data_address
      = p.ALU.stage.data_address := by
  unfold iplc_sim_push_pipeline_stage.shift
  simp only [kindWM_slots, kindMA_slots, kindAD_slots, kindDF_slots, dataWM_slots, dataMA_slots,
    dataAD_slots, dataDF_slots, h, if_true, ite_self]

theorem shift_data_WRITEBACK (p : Pipeline) (h : p.MEM.itype = instruction_type.LW) :
    (iplc_sim_push_pipeline_stage.shift p).WRITEBACK.stage.data_address
      = p.MEM.stage.data_address := by
  unfold iplc_sim_push_pipeline_stage.shift
  simp only [kindWM_slots, kindMA_slots, kindAD_slots, kindDF_slots, dataWM_slots, dataMA_slots,
    dataAD_slots, dataDF_slots, h, if_true, ite_self]

theorem loads_of (x y : pipeline_t) (a : Nat) (b : Bool) (h : x.loads a b)
    (hk : y.itype = x.itype)
    (hd : x.itype = instruction_type.LW → y.stage.data_address = x.stage.data_address) :
    y.loads a b := by
  refine ⟨fun hb => ?_, fun hb => ?_⟩
  · obtain ⟨h1, h2⟩ := h.1 hb
    exact ⟨hk.trans h1, (hd h1).trans h2⟩
  · exact hk.trans (h.2 hb)

theorem loads_not_branch (x : pipeline_t) (a : Nat) (b : Bool) (h : x.loads a b) :
    x.itype ≠ instruction_type.BRANCH := by
  cases b with
  | true => rw [(h.1 rfl).1]; decide
  | false => rw [h.2 rfl]; decide

theorem loads_isMemory (x : pipeline_t) (a : Nat) (b : Bool) (h : x.loads a b) :
    x.isMemory = 1 ↔ b = true := by
  rw [isMemory_eq_one_iff]
  cases b with
  | true => simp [(h.1 rfl).1]
  | false => simp [h.2 rfl]

theorem dataProbe_sameCache (s : Sim) :
    (iplc_sim_push_pipeline_stage.dataProbe s).sameCache
      (iplc_sim_trap_address s s.pipeline.MEM.stage.data_address).1 := by
  unfold iplc_sim_push_pipeline_stage.dataProbe
  simp only
  split
  · exact ⟨rfl, rfl, rfl, rfl⟩
  · exact ⟨rfl, rfl, rfl, rfl⟩

theorem atStep3_sameCache (s : Sim) : s.atStep3.sameCache s := by
  obtain ⟨_, _, _, h1, h2, h3, h4⟩ := atStep3_rest s
  exact ⟨h1, h2, h3, h4⟩

/-- The cache after one cycle: that after the data probe when the cycle makes
one, else the cache before. -/
theorem push_sameCache (s : Sim) :
    (iplc_sim_push_pipeline_stage s).sameCache
      (if s.atStep3.pipeline.MEM.isMemory = 1 then
        (iplc_sim_trap_address s.atStep3 s.atStep3.pipeline.MEM.stage.data_address).1
       else s) := by
  have e : (iplc_sim_push_pipeline_stage s).sameCache
      (iplc_sim_push_pipeline_stage.memory s.atStep3) := by
    rw [push_eq]
    exact ⟨rfl, rfl, rfl, rfl⟩
  rw [memory_eq] at e
  split
  · rename_i h
    rw [if_pos h] at e
    exact sameCache_trans _ _ _ e (dataProbe_sameCache _)
  · rename_i h
    rw [if_neg h] at e
    exact sameCache_trans _ _ _ e (atStep3_sameCache s)

/-- The pipeline after a cycle that starts without a BRANCH in DECODE. -/
theorem push_pipeline_plain (s : Sim) (h : s.pipeline.DECODE.itype ≠ instruction_type.BRANCH) :
    s.atStep3.pipeline = s.pipeline
    ∧ (iplc_sim_push_pipeline_stage s).pipeline
      = { iplc_sim_push_pipeline_stage.shift s.pipeline with FETCH := pipeline_t.zero } := by
  have hp : s.penalty ≠ 1 := by
    rw [Ne, penalty_eq_one_iff]
    exact fun hh => h hh.1
  have h3 : s.atStep3.pipeline = s.pipeline := by
    rw [atStep3_pipeline, if_neg hp]
  refine ⟨h3, ?_⟩
  rw [push_eq]
  show ({ iplc_sim_push_pipeline_stage.shift
      (iplc_sim_push_pipeline_stage.memory s.atStep3).pipeline with
        FETCH := pipeline_t.zero } : Pipeline) = _
  rw [(memory_frame s.atStep3).1, h3]


theorem cacheShape_self (index assoc : Nat) (s : Sim) (h : CacheShape index assoc s) :
    CacheShape s.cache_index assoc s := by
  rw [h.1]
  exact h

/-- One cycle of a state described by `x` is described by `x.push`, and makes
the data probe that `x` tells. -/
theorem loadFlow_push (x : LoadFlow) (a : Nat) (s : Sim) (h : x.Models a s) :
    x.push.Models a (iplc_sim_push_pipeline_stage s)
    ∧ iplc_sim_push_pipeline_stage.probes s = x.probes a := by
  obtain ⟨hF, hD, hA, hM, hW, hshape, hres, hcyc⟩ := h
  have hnb := loads_not_branch _ _ _ hD
  obtain ⟨h3, hpipe⟩ := push_pipeline_plain s hnb
  have hmem : s.atStep3.pipeline.MEM.isMemory = 1 ↔ x.MEM = true := by
    rw [h3]
    exact loads_isMemory _ _ _ hM
  have hsc := push_sameCache s
  have h3c := atStep3_sameCache s
  have hshape3 : CacheShape s.atStep3.cache_index 1 s.atStep3 :=
    cacheShape_congr _ _ 1 h3c hshape
  have hres3 : s.atStep3.resident a ↔ x.resident = true :=
    (resident_congr _ _ a h3c).trans hres
  have hpen : s.penalty = 0 := by
    have := penalty_le_one s
    have hne : s.penalty ≠ 1 := by
      rw [Ne, penalty_eq_one_iff]
      exact fun hh => hnb hh.1
    omega
  have hcycles := push_cycles s
  rw [hpen, hcyc] at hcycles
  have hslots : (iplc_sim_push_pipeline_stage s).pipeline.FETCH.loads a false
      ∧ (iplc_sim_push_pipeline_stage s).pipeline.DECODE.loads a x.FETCH
      ∧ (iplc_sim_push_pipeline_stage s).pipeline.ALU.loads a x.DECODE
      ∧ (iplc_sim_push_pipeline_stage s).pipeline.MEM.loads a x.ALU
      ∧ (iplc_sim_push_pipeline_stage s).pipeline.WRITEBACK.loads a x.MEM := by
    rw [hpipe]
    refine ⟨⟨fun hb => absurd hb (by decide), fun _ => rfl⟩, ?_, ?_, ?_, ?_⟩
    · exact loads_of _ _ a _ hF (shift_itype_DECODE _) (shift_data_DECODE _)
    · exact loads_of _ _ a _ hD (shift_itype_ALU _) (shift_data_ALU _)
    · exact loads_of _ _ a _ hA (shift_itype_MEM _) (shift_data_MEM _)
    · exact loads_of _ _ a _ hM (shift_itype_WRITEBACK _) (shift_data_WRITEBACK _)
  obtain ⟨sF, sD, sA, sM, sW⟩ := hslots
  by_cases hm : x.MEM = true
  · have hm1 := hmem.mpr hm
    have haddr : s.atStep3.pipeline.MEM.stage.data_address = a := by
      rw [h3]
      exact (hM.1 hm).2
    rw [if_pos hm1, haddr] at hsc
    have hshape1 : CacheShape (iplc_sim_push_pipeline_stage s).cache_index 1
        (iplc_sim_push_pipeline_stage s) :=
      cacheShape_congr _ _ 1 hsc
        (cacheShape_self _ _ _ (cacheShape_trap _ 1 _ a hshape3))
    have hres1 : (iplc_sim_push_pipeline_stage s).resident a :=
      (resident_congr _ _ a hsc).mpr (resident_after _ 1 _ a (le_refl 1) hshape3)
    have hresult : (iplc_sim_trap_address s.atStep3 a).2 = (if x.resident = true then 1 else 0) := by
      rcases trap_result_cases s.atStep3 a with ⟨r, hr⟩ | ⟨r, hr⟩
      · rw [r, if_pos (hres3.mp hr)]
      · rw [r, if_neg (fun hx => hr (hres3.mpr hx))]
    have hdm : s.dataMiss = (if x.MEM = true ∧ x.resident = false then 1 else 0) := by
      unfold Sim.dataMiss
      rw [haddr, hresult]
      cases hx : x.resident <;> simp [hm1, hm]
    rw [hdm] at hcycles
    have hcyc1 : (iplc_sim_push_pipeline_stage s).pipeline_cycles = x.push.pipeline_cycles := by
      rw [hcycles]
      unfold LoadFlow.push u32
      simp only [Nat.add_zero]
    refine ⟨⟨sF, sD, sA, sM, sW, hshape1, ?_, hcyc1⟩, ?_⟩
    · unfold LoadFlow.push
      simp only [hm, Bool.or_true]
      exact ⟨fun _ => trivial, fun _ => hres1⟩
    · unfold iplc_sim_push_pipeline_stage.probes LoadFlow.probes
      rw [if_pos hm1, if_pos hm, haddr, hresult, hcyc1, hcyc]
  · have hm0 : ¬ s.atStep3.pipeline.MEM.isMemory = 1 := fun hh => hm (hmem.mp hh)
    rw [if_neg hm0] at hsc
    have hdm : s.dataMiss = (if x.MEM = true ∧ x.resident = false then 1 else 0) := by
      unfold Sim.dataMiss
      rw [if_neg (fun hh => hm0 hh.1), if_neg (fun hh => hm hh.1)]
    rw [hdm] at hcycles
    have hcyc1 : (iplc_sim_push_pipeline_stage s).pipeline_cycles = x.push.pipeline_cycles := by
      rw [hcycles]
      unfold LoadFlow.push u32
      simp only [Nat.add_zero]
    refine ⟨⟨sF, sD, sA, sM, sW, cacheShape_congr _ _ 1 hsc hshape, ?_, hcyc1⟩, ?_⟩
    · have hmf : x.MEM = false := by
        cases hx : x.MEM
        · rfl
        · exact absurd hx hm
      unfold LoadFlow.push
      simp only [hmf, Bool.or_false]
      exact (resident_congr _ _ a hsc).trans hres
    · unfold iplc_sim_push_pipeline_stage.probes LoadFlow.probes
      rw [if_neg hm0, if_neg hm]


theorem loadFlow_stall (a : Nat) (n : Nat) :
    ∀ (x : LoadFlow) (s : Sim), x.Models a s →
      (LoadFlow.stall n x).Models a (iplc_sim_parse_instruction.stall n s)
      ∧ iplc_sim_parse_instruction.stall.probes n s = LoadFlow.stallProbes a n x := by
  induction n with
  | zero => exact fun x s h => ⟨h, rfl⟩
  | succ n ih =>
    intro x s h
    obtain ⟨h1, h2⟩ := loadFlow_push x a s h
    obtain ⟨h3, h4⟩ := ih _ _ h1
    refine ⟨h3, ?_⟩
    show iplc_sim_push_pipeline_stage.probes s
        ++ iplc_sim_parse_instruction.stall.probes n (iplc_sim_push_pipeline_stage s)
      = x.probes a ++ LoadFlow.stallProbes a n x.push
    rw [h2, h4]

theorem loadFlow_busy (x : LoadFlow) (a : Nat) (s : Sim) (h : x.Models a s) :
    s.pipeline.busy = x.busy := by
  obtain ⟨hF, hD, hA, hM, hW, _⟩ := h
  have e : ∀ (y : pipeline_t) (b : Bool), y.loads a b →
      (decide (y.itype ≠ instruction_type.NOP)) = b := by
    intro y b hy
    cases b with
    | true => rw [(hy.1 rfl).1]; rfl
    | false => rw [hy.2 rfl]; rfl
  unfold Pipeline.busy LoadFlow.busy
  rw [e _ _ hF, e _ _ hD, e _ _ hA, e _ _ hM, e _ _ hW]

theorem loadFlow_drain (a : Nat) (fuel : Nat) :
    ∀ (x : LoadFlow) (s : Sim), x.Models a s →
      (LoadFlow.drain fuel x).Models a (iplc_sim_finalize.drain fuel s)
      ∧ iplc_sim_finalize.drain.probes fuel s = LoadFlow.drainProbes a fuel x := by
  induction fuel with
  | zero => exact fun x s h => ⟨h, rfl⟩
  | succ n ih =>
    intro x s h
    have hb := loadFlow_busy x a s h
    obtain ⟨h1, h2⟩ := loadFlow_push x a s h
    obtain ⟨h3, h4⟩ := ih _ _ h1
    unfold iplc_sim_finalize.drain iplc_sim_finalize.drain.probes LoadFlow.drain
      LoadFlow.drainProbes
    rw [hb]
    cases x.busy with
    | true =>
      simp only [if_true]
      exact ⟨h3, by rw [h2, h4]⟩
    | false =>
      simp only [Bool.false_eq_true, if_false]
      exact ⟨h, trivial⟩

/-- The dispatch of a load of the data address. -/
theorem loadFlow_insert (x : LoadFlow) (a r : Nat) (s : Sim) (h : x.Models a s) :
    x.insert.Models a (iplc_sim_parse_instruction.dispatch s (TraceOp.lw r a))
    ∧ iplc_sim_push_pipeline_stage.probes
        (iplc_sim_parse_instruction.dispatch.entry s (TraceOp.lw r a)) = x.probes a := by
  have hs : x.Models a { s with data_address := a } := h
  obtain ⟨⟨_, hD, hA, hM, hW, hshape, hres, hcyc⟩, h2⟩ :=
    loadFlow_push x a { s with data_address := a } hs
  refine ⟨⟨?_, hD, hA, hM, hW, hshape, hres, hcyc⟩, h2⟩
  exact ⟨fun _ => ⟨rfl, rfl⟩, fun hb => absurd (show true = false from hb) (by decide)⟩

/-- The fetch probe of an instruction of another block, while the data block
is not resident. -/
theorem loadFlow_fetch (x : LoadFlow) (a b : Nat) (s : Sim) (h : x.Models a s)
    (hx : x.resident = false) (hab : blockOf s a ≠ blockOf s b) :
    x.Models a (iplc_sim_parse_instruction.probe s b).1
    ∧ ((iplc_sim_parse_instruction.probe s b).2 = 0
        ∨ (iplc_sim_parse_instruction.probe s b).2 = 1)
    ∧ (¬ s.resident b → (iplc_sim_parse_instruction.probe s b).2 = 0) := by
  obtain ⟨hF, hD, hA, hM, hW, hshape, hres, hcyc⟩ := h
  have hshape0 : CacheShape s.cache_index 1 { s with instruction_address := b } := hshape
  have hnot : ¬ ({ s with instruction_address := b } : Sim).resident a := by
    intro hh
    have : x.resident = true := hres.mp hh
    rw [hx] at this
    exact absurd this (by decide)
  have hn := not_resident_after _ { s with instruction_address := b } b a hshape0 hnot hab
  obtain ⟨_, _, e3, _⟩ := trap_effect { s with instruction_address := b } b
  have e5 := (trap_rest { s with instruction_address := b } b).1
  have hsh := cacheShape_self _ _ _ (cacheShape_trap _ 1 _ b hshape0)
  have hp : (iplc_sim_parse_instruction.probe s b).1.pipeline = s.pipeline := e3
  refine ⟨⟨?_, ?_, ?_, ?_, ?_, hsh, ?_, e5.trans hcyc⟩, ?_, ?_⟩
  · rw [hp]; exact hF
  · rw [hp]; exact hD
  · rw [hp]; exact hA
  · rw [hp]; exact hM
  · rw [hp]; exact hW
  · rw [hx]
    exact ⟨fun hh => absurd hh hn, fun hh => absurd hh (by decide)⟩
  · rcases trap_result_cases { s with instruction_address := b } b with ⟨r, _⟩ | ⟨r, _⟩
    · exact Or.inr r
    · exact Or.inl r
  · intro hnr
    rcases trap_result_cases { s with instruction_address := b } b with ⟨_, hr⟩ | ⟨r, _⟩
    · exact absurd hr hnr
    · exact r


theorem push_blockoffsetbits (s : Sim) :
    (iplc_sim_push_pipeline_stage s).cache_blockoffsetbits = s.cache_blockoffsetbits := by
  have h := (push_sameCache s).2.2.1
  rw [h]
  split
  · rw [(trap_effect _ _).2.2.2.2.1]
    exact (atStep3_sameCache s).2.2.1
  · rfl

theorem stall_blockoffsetbits (n : Nat) :
    ∀ s : Sim, (iplc_sim_parse_instruction.stall n s).cache_blockoffsetbits
      = s.cache_blockoffsetbits := by
  induction n with
  | zero => exact fun s => rfl
  | succ n ih =>
    intro s
    show (iplc_sim_parse_instruction.stall n (iplc_sim_push_pipeline_stage s)).cache_blockoffsetbits
      = _
    rw [ih, push_blockoffsetbits]

theorem dispatch_blockoffsetbits (s : Sim) (op : TraceOp) :
    (iplc_sim_parse_instruction.dispatch s op).cache_blockoffsetbits
      = s.cache_blockoffsetbits := by
  cases op with
  | rtype i d r1 r2 => exact push_blockoffsetbits s
  | lw d a => exact push_blockoffsetbits { s with data_address := a }
  | sw d a => exact push_blockoffsetbits { s with data_address := a }
  | beq => exact push_blockoffsetbits { s with branch_count := u32 (s.branch_count + 1) }
  | jump i => exact push_blockoffsetbits s
  | syscall => exact push_blockoffsetbits s
  | nop => exact push_blockoffsetbits s

theorem probe_blockoffsetbits (s : Sim) (address : Nat) :
    (iplc_sim_parse_instruction.probe s address).1.cache_blockoffsetbits
      = s.cache_blockoffsetbits :=
  (trap_effect { s with instruction_address := address } address).2.2.2.2.1

theorem parse_blockoffsetbits (s : Sim) (address : Nat) (op : TraceOp) :
    (iplc_sim_parse_instruction s address op).cache_blockoffsetbits
      = s.cache_blockoffsetbits := by
  unfold iplc_sim_parse_instruction
  simp only
  rw [dispatch_blockoffsetbits]
  split
  · rw [stall_blockoffsetbits, probe_blockoffsetbits]
  · rw [probe_blockoffsetbits]

/-- A driver step for a load of the data address, fetched from another block
while the data block is not resident: after a fetch miss the nine stall cycles
and the insert, after a fetch hit the insert alone. -/
theorem loadFlow_parse (x : LoadFlow) (a b r : Nat) (s : Sim) (h : x.Models a s)
    (hx : x.resident = false) (hab : blockOf s a ≠ blockOf s b) :
    ((iplc_sim_parse_instruction.probe s b).2 = 0
      ∧ (LoadFlow.stall 9 x).insert.Models a (iplc_sim_parse_instruction s b (TraceOp.lw r a))
      ∧ iplc_sim_parse_instruction.probes s b (TraceOp.lw r a)
          = LoadFlow.stallProbes a 9 x ++ (LoadFlow.stall 9 x).probes a)
    ∨ ((iplc_sim_parse_instruction.probe s b).2 = 1
      ∧ x.insert.Models a (iplc_sim_parse_instruction s b (TraceOp.lw r a))
      ∧ iplc_sim_parse_instruction.probes s b (TraceOp.lw r a) = x.probes a) := by
  obtain ⟨hm, hr, _⟩ := loadFlow_fetch x a b s h hx hab
  have h9 : CACHE_MISS_DELAY - 1 = 9 := rfl
  unfold iplc_sim_parse_instruction iplc_sim_parse_instruction.probes
  simp only [h9]
  rcases hr with hr | hr
  · left
    obtain ⟨h1, h2⟩ := loadFlow_stall a 9 x _ hm
    obtain ⟨h3, h4⟩ := loadFlow_insert _ a r _ h1
    rw [if_pos hr, if_pos hr, h2, h4]
    exact ⟨hr, h3, rfl⟩
  · right
    obtain ⟨h3, h4⟩ := loadFlow_insert _ a r _ hm
    have hne : ¬ (iplc_sim_parse_instruction.probe s b).2 = 0 := by rw [hr]; decide
    rw [if_neg hne, if_neg hne, h4]
    exact ⟨hr, h3, rfl⟩

/-- A freshly configured direct-mapped simulator is described by
`LoadFlow.start`. -/
theorem loadFlow_configured (predict index blocksize a : Nat) (s : Sim)
    (h : iplc_sim_init { Sim.start with branch_predict_taken := predict } index blocksize 1
      = some s) : LoadFlow.start.Models a s := by
  obtain ⟨_, hc, _, _, _, hF, hD, hA, hM, hW⟩ := configured_rest _ _ _ _ _ h
  have hz : pipeline_t.zero.loads a false :=
    ⟨fun hb => absurd hb (by decide), fun _ => rfl⟩
  refine ⟨?_, ?_, ?_, ?_, ?_, cacheShape_self _ _ _ (cacheShape_init _ _ _ _ _ h), ?_, hc⟩
  · rw [hF]; exact hz
  · rw [hD]; exact hz
  · rw [hA]; exact hz
  · rw [hM]; exact hz
  · rw [hW]; exact hz
  · exact ⟨fun hh => absurd hh (configured_cold _ _ _ _ _ a h),
      fun hh => absurd (show false = true from hh) (by decide)⟩

/-- C17. Scenario B. On a fresh simulator configured with 1 index bit, blocks
of 1 word and 1 way (a cold direct-mapped cache), for every trace of two `lw`
lines with the same data address `d` whose block differs from the blocks of
both instruction addresses, the run of the trace followed by
`iplc_sim_finalize` makes exactly two MEM-stage data probes, both of `d`: the
first returns 0 (miss) and its cycle adds `1 + 9` cycles, the second returns 1
(hit) and its cycle adds the base cycle only. -/
theorem two_loads_miss_then_hit (predict a1 a2 d r1 r2 : Nat) (s : Sim)
    (hs : iplc_sim_init { Sim.start with branch_predict_taken := predict } 1 1 1 = some s)
    (h1 : blockOf s d ≠ blockOf s a1) (h2 : blockOf s d ≠ blockOf s a2) :
    dataProbes s [(a1, TraceOp.lw r1 d), (a2, TraceOp.lw r2 d)]
      = [{ address := d, result := 0, cycles := 1 + 9 },
         { address := d, result := 1, cycles := 1 }] := by
  have h0 := loadFlow_configured predict 1 1 d s hs
  have hcold := configured_cold _ _ _ _ _ a1 hs
  have hmiss := (loadFlow_fetch _ d a1 s h0 rfl h1).2.2 hcold
  have h2b : blockOf (iplc_sim_parse_instruction s a1 (TraceOp.lw r1 d)) d
      ≠ blockOf (iplc_sim_parse_instruction s a1 (TraceOp.lw r1 d)) a2 := by
    unfold blockOf at h2 ⊢
    rw [parse_blockoffsetbits]
    exact h2
  show (iplc_sim_parse_instruction.probes s a1 (TraceOp.lw r1 d)
      ++ (iplc_sim_parse_instruction.probes (iplc_sim_parse_instruction s a1 (TraceOp.lw r1 d))
            a2 (TraceOp.lw r2 d) ++ []))
      ++ iplc_sim_finalize.drain.probes 5
          (iplc_sim_parse_instruction (iplc_sim_parse_instruction s a1 (TraceOp.lw r1 d))
            a2 (TraceOp.lw r2 d)) = _
  rcases loadFlow_parse _ d a1 r1 s h0 rfl h1 with ⟨_, m1, p1⟩ | ⟨hh, _, _⟩
  · rcases loadFlow_parse _ d a2 r2 _ m1 rfl h2b with ⟨_, m2, p2⟩ | ⟨_, m2, p2⟩
    · rw [p1, p2, (loadFlow_drain d 5 _ _ m2).2]
      rfl
    · rw [p1, p2, (loadFlow_drain d 5 _ _ m2).2]
      rfl
  · rw [hmiss] at hh
    exact absurd hh (by decide)

/-- Witness of C17: the trace `100 lw $1 0($2) 200`, `104 lw $3 0($2) 200`
(hexadecimal addresses). -/
theorem two_loads_miss_then_hit_witness :
    dataProbes directMapped [(256, TraceOp.lw 1 512), (260, TraceOp.lw 3 512)]
      = [{ address := 512, result := 0, cycles := 1 + 9 },
         { address := 512, result := 1, cycles := 1 }] :=
  two_loads_miss_then_hit 0 256 260 512 1 3 directMapped directMapped_configured
    (by decide) (by decide)


/-! ## Theorems: the miss path on a full set -/

theorem miss_scan_full (l : List assoc_t) :
    ∀ n j, (∀ p, j ≤ p → p < j + n → (l.getD p default).vb = 1) →
      iplc_sim_LRU_replace_on_miss.scan l n j = j + n := by
  intro n
  induction n with
  | zero => intro j _; rfl
  | succ n ih =>
    intro j hv
    unfold iplc_sim_LRU_replace_on_miss.scan
    rw [if_neg (not_not.mpr (hv j (le_refl j) (by omega)))]
    rw [ih (j + 1) (fun p hp1 hp2 => hv p (by omega) (by omega))]
    omega

/-- The ways after the miss path on a set whose ways are all valid. -/
theorem miss_ways_full (A : Nat) (l : List assoc_t) (tag p : Nat) (hlen : l.length = A)
    (hA : 1 ≤ A) (hvalid : ∀ q, q < A → (l.getD q default).vb = 1) :
    (iplc_sim_LRU_replace_on_miss.ways A l tag).getD p default
      = if p = A - 1 then { vb := 1, tag := tag }
        else if p + 1 < A then { l.getD p default with tag := (l.getD (p + 1) default).tag }
        else l.getD p default := by
  have hscan : iplc_sim_LRU_replace_on_miss.scan l A 0 = A := by
    rw [miss_scan_full l A 0 (fun q _ hq => hvalid q (by omega))]
    omega
  unfold iplc_sim_LRU_replace_on_miss.ways
  simp only [hscan]
  rw [if_pos trivial]
  have hpl : (iplc_sim_LRU_replace_on_miss.percolate (A - 1) 1 l).length = l.length :=
    miss_percolate_length _ _ _
  by_cases hp : p = A - 1
  · rw [if_pos hp, hp]
    exact setVb_setTag_getD _ _ _ (by omega)
  · rw [if_neg hp, setVb_getD _ _ _ _ (by simp [setTag]; omega), if_neg hp,
      setTag_getD _ _ _ _ (by omega), if_neg hp,
      miss_percolate_getD (A - 1) 1 l p (le_refl 1) (by omega)]
    by_cases h2 : p + 1 < A
    · rw [if_pos h2, if_pos (by omega)]
    · rw [if_neg h2, if_neg (by omega)]

/-- C21, as stated, fails. The two-way set after the probes of the addresses 4
and 8 is full, with the tags 1 and 2. The probe of address 12 (tag 3) misses;
afterwards way 1 holds tag 3, but way 0 holds tag 2, not the tag 1 it held
before, and the tag that is gone is the one of way 0: the probe of address 8
(tag 2, held by way 1 before the miss) still hits and the probe of address 4
(tag 1) misses. -/
theorem full_set_counterexample :
    ((probeAll twoWay [4, 8]).1.cache.getD 0 default).assoc
        = [{ vb := 1, tag := 1 }, { vb := 1, tag := 2 }]
    ∧ (iplc_sim_trap_address (probeAll twoWay [4, 8]).1 12).2 = 0
    ∧ wayOf (iplc_sim_trap_address (probeAll twoWay [4, 8]).1 12).1 0 1 = { vb := 1, tag := 3 }
    ∧ (wayOf (iplc_sim_trap_address (probeAll twoWay [4, 8]).1 12).1 0 0).tag = 2
    ∧ (wayOf (iplc_sim_trap_address (probeAll twoWay [4, 8]).1 12).1 0 0).tag
        ≠ (wayOf (probeAll twoWay [4, 8]).1 0 0).tag
    ∧ (iplc_sim_trap_address (iplc_sim_trap_address (probeAll twoWay [4, 8]).1 12).1 8).2 = 1
    ∧ (iplc_sim_trap_address (iplc_sim_trap_address (probeAll twoWay [4, 8]).1 12).1 4).2 = 0 := by
  decide

/-- C21, amended. On a miss in a set whose `A ≥ 1` ways are all valid: way
`A - 1` afterwards holds the new tag with its valid bit set; all ways are
still valid; for every `p` with `p + 1 < A`, way `p` holds the tag that way
`p + 1` held before, so every tag held afterwards is the new one or one held
before by a way other than way 0 (the tag of way 0 is the one dropped); the
other sets are unchanged and `cache_miss` grows by one. -/
theorem miss_full_set (s : Sim) (index tag : Nat) (hindex : index < s.cache.length)
    (hlen : (s.cache.getD index default).assoc.length = s.cache_assoc)
    (hA : 1 ≤ s.cache_assoc) (hvalid : ∀ q, q < s.cache_assoc → (wayOf s index q).vb = 1) :
    wayOf (iplc_sim_LRU_replace_on_miss s index tag) index (s.cache_assoc - 1)
        = { vb := 1, tag := tag }
    ∧ (∀ p, p < s.cache_assoc →
        (wayOf (iplc_sim_LRU_replace_on_miss s index tag) index p).vb = 1)
    ∧ (∀ p, p + 1 < s.cache_assoc →
        (wayOf (iplc_sim_LRU_replace_on_miss s index tag) index p).tag
          = (wayOf s index (p + 1)).tag)
    ∧ (∀ p, p < s.cache_assoc →
        (wayOf (iplc_sim_LRU_replace_on_miss s index tag) index p).tag = tag
        ∨ ∃ q, 1 ≤ q ∧ q < s.cache_assoc
            ∧ (wayOf (iplc_sim_LRU_replace_on_miss s index tag) index p).tag
                = (wayOf s index q).tag)
    ∧ (∀ j k, j ≠ index →
        wayOf (iplc_sim_LRU_replace_on_miss s index tag) j k = wayOf s j k)
    ∧ (iplc_sim_LRU_replace_on_miss s index tag).cache_miss = s.cache_miss + 1 := by
  have hw : ∀ p, wayOf (iplc_sim_LRU_replace_on_miss s index tag) index p
      = if p = s.cache_assoc - 1 then { vb := 1, tag := tag }
        else if p + 1 < s.cache_assoc then
          { wayOf s index p with tag := (wayOf s index (p + 1)).tag }
        else wayOf s index p := by
    intro p
    unfold wayOf iplc_sim_LRU_replace_on_miss
    simp only
    rw [getD_set_self _ _ _ _ hindex]
    exact miss_ways_full s.cache_assoc _ tag p hlen hA hvalid
  refine ⟨?_, ?_, ?_, ?_, ?_, rfl⟩
  · rw [hw, if_pos rfl]
  · intro p hp
    rw [hw]
    by_cases h1 : p = s.cache_assoc - 1
    · rw [if_pos h1]
    · rw [if_neg h1, if_pos (by omega)]
      exact hvalid p hp
  · intro p hp
    rw [hw, if_neg (by omega), if_pos hp]
  · intro p hp
    rw [hw]
    by_cases h1 : p = s.cache_assoc - 1
    · left
      rw [if_pos h1]
    · right
      refine ⟨p + 1, by omega, by omega, ?_⟩
      rw [if_neg h1, if_pos (by omega)]
  · intro j k hj
    exact miss_keeps_other_sets s index tag j k (fun e => hj e.symm)

/-- Witness of C21 (amended): the full three-way set with the tags 2, 2, 3 and
a miss with tag 4, after which the ways hold the tags 2, 3, 4. -/
theorem miss_full_set_witness :
    wayOf (iplc_sim_LRU_replace_on_miss (probeAll threeWay [4, 8, 12]).1 0 4) 0
        ((probeAll threeWay [4, 8, 12]).1.cache_assoc - 1) = { vb := 1, tag := 4 }
    ∧ (∀ p, p < (probeAll threeWay [4, 8, 12]).1.cache_assoc →
        (wayOf (iplc_sim_LRU_replace_on_miss (probeAll threeWay [4, 8, 12]).1 0 4) 0 p).vb = 1)
    ∧ (∀ p, p + 1 < (probeAll threeWay [4, 8, 12]).1.cache_assoc →
        (wayOf (iplc_sim_LRU_replace_on_miss (probeAll threeWay [4, 8, 12]).1 0 4) 0 p).tag
          = (wayOf (probeAll threeWay [4, 8, 12]).1 0 (p + 1)).tag)
    ∧ (∀ p, p < (probeAll threeWay [4, 8, 12]).1.cache_assoc →
        (wayOf (iplc_sim_LRU_replace_on_miss (probeAll threeWay [4, 8, 12]).1 0 4) 0 p).tag = 4
        ∨ ∃ q, 1 ≤ q ∧ q < (probeAll threeWay [4, 8, 12]).1.cache_assoc
            ∧ (wayOf (iplc_sim_LRU_replace_on_miss (probeAll threeWay [4, 8, 12]).1 0 4) 0 p).tag
                = (wayOf (probeAll threeWay [4, 8, 12]).1 0 q).tag)
    ∧ (∀ j k, j ≠ 0 →
        wayOf (iplc_sim_LRU_replace_on_miss (probeAll threeWay [4, 8, 12]).1 0 4) j k
          = wayOf (probeAll threeWay [4, 8, 12]).1 j k)
    ∧ (iplc_sim_LRU_replace_on_miss (probeAll threeWay [4, 8, 12]).1 0 4).cache_miss
        = (probeAll threeWay [4, 8, 12]).1.cache_miss + 1 :=
  miss_full_set (probeAll threeWay [4, 8, 12]).1 0 4 (by decide) (by decide) (by decide)
    (by decide)


/-! ## Theorems: the valid ways of a set -/

theorem countP_of_leading : ∀ (l : List assoc_t) (k : Nat), k ≤ l.length →
    (∀ p, p < l.length → ((l.getD p default).vb = 1 ↔ p < k)) →
    l.countP (fun w => w.vb = 1) = k := by
  intro l
  induction l with
  | nil =>
    intro k hk _
    simp only [List.length_nil] at hk
    simp only [List.countP_nil]
    omega
  | cons a l ih =>
    intro k hk h
    cases k with
    | zero =>
      have ha : ¬ a.vb = 1 := fun e => by
        have := (h 0 (by simp)).mp (by simpa using e)
        omega
      rw [List.countP_cons_of_neg _ _ (by simpa using ha)]
      apply ih 0 (Nat.zero_le _)
      intro p hp
      have := h (p + 1) (by simpa using hp)
      rw [List.getD_cons_succ] at this
      exact ⟨fun e => by have := this.mp e; omega, fun e => by omega⟩
    | succ k =>
      have ha : a.vb = 1 := by
        have := (h 0 (by simp)).mpr (by omega)
        simpa using this
      rw [List.countP_cons_of_pos _ _ (by simpa using ha)]
      congr 1
      apply ih k (by simpa using hk)
      intro p hp
      have := h (p + 1) (by simpa using hp)
      rw [List.getD_cons_succ] at this
      exact ⟨fun e => by have := this.mp e; omega, fun e => this.mpr (by omega)⟩

/-- With the valid ways `0 .. k-1`, the set has `k` valid ways. -/
theorem validWays_of_leading (s : Sim) (index k : Nat)
    (hlen : (s.cache.getD index default).assoc.length = s.cache_assoc)
    (h : validPrefix s index k) : validWays s index = k := by
  unfold validWays
  apply countP_of_leading _ k (by rw [hlen]; exact h.1)
  intro p hp
  rw [hlen] at hp
  exact h.2 p hp

/-- The valid bits of the probed set after the miss path: the prefix grows by
one way, up to the number of ways. -/
theorem miss_leading_valid (s : Sim) (index tag k : Nat) (hindex : index < s.cache.length)
    (hlen : (s.cache.getD index default).assoc.length = s.cache_assoc)
    (hA : 1 ≤ s.cache_assoc) (h : validPrefix s index k) :
    validPrefix (iplc_sim_LRU_replace_on_miss s index tag) index (min (k + 1) s.cache_assoc)
    ∧ ∀ p, (wayOf s index p).vb = 1 →
        (wayOf (iplc_sim_LRU_replace_on_miss s index tag) index p).vb = 1 := by
  obtain ⟨hk, hp⟩ := h
  have hA2 : (iplc_sim_LRU_replace_on_miss s index tag).cache_assoc = s.cache_assoc := rfl
  have hout : ∀ p, s.cache_assoc ≤ p → (wayOf s index p).vb ≠ 1 := by
    intro p hge
    unfold wayOf
    rw [List.getD_eq_default _ _ (by rw [hlen]; exact hge)]
    decide
  have hw : ∀ p, wayOf (iplc_sim_LRU_replace_on_miss s index tag) index p
      = (iplc_sim_LRU_replace_on_miss.ways s.cache_assoc (s.cache.getD index default).assoc
          tag).getD p default := by
    intro p
    unfold wayOf iplc_sim_LRU_replace_on_miss
    simp only
    rw [getD_set_self _ _ _ _ hindex]
  by_cases hfull : k = s.cache_assoc
  · have hvalid : ∀ q, q < s.cache_assoc → (wayOf s index q).vb = 1 :=
      fun q hq => (hp q hq).mpr (by omega)
    have hv : ∀ p, p < s.cache_assoc →
        (wayOf (iplc_sim_LRU_replace_on_miss s index tag) index p).vb = 1 := by
      intro p hlt
      rw [hw, miss_ways_full s.cache_assoc _ tag p hlen hA hvalid]
      by_cases h1 : p = s.cache_assoc - 1
      · rw [if_pos h1]
      · rw [if_neg h1, if_pos (by omega)]
        exact hvalid p hlt
    refine ⟨⟨Nat.min_le_right _ _, fun p hlt => ?_⟩, fun p hv1 => ?_⟩
    · rw [hA2] at hlt
      exact ⟨fun _ => by rw [hfull]; exact lt_min (by omega) hlt, fun _ => hv p hlt⟩
    · by_cases hlt : p < s.cache_assoc
      · exact hv p hlt
      · exact absurd hv1 (hout p (by omega))
  · have hlt : k < s.cache_assoc := by omega
    have hvalid : ∀ q, q < k → (wayOf s index q).vb = 1 :=
      fun q hq => (hp q (by omega)).mpr hq
    have hinv : (wayOf s index k).vb ≠ 1 := fun e => by
      have := (hp k hlt).mp e
      omega
    have hv : ∀ p, (wayOf (iplc_sim_LRU_replace_on_miss s index tag) index p).vb
        = if p = k then 1 else (wayOf s index p).vb := by
      intro p
      rw [hw, miss_ways_getD s.cache_assoc _ tag k p hlen hlt hvalid hinv]
      by_cases h1 : p = k
      · rw [if_pos h1, if_pos h1]
      · rw [if_neg h1, if_neg h1]
        split <;> rfl
    have hmin : min (k + 1) s.cache_assoc = k + 1 := Nat.min_eq_left (by omega)
    refine ⟨⟨Nat.min_le_right _ _, fun p hlt2 => ?_⟩, fun p hv1 => ?_⟩
    · rw [hA2] at hlt2
      rw [hv, hmin]
      by_cases h1 : p = k
      · rw [if_pos h1]
        exact ⟨fun _ => by omega, fun _ => rfl⟩
      · rw [if_neg h1, hp p hlt2]
        exact ⟨fun _ => by omega, fun _ => by omega⟩
    · rw [hv]
      by_cases h1 : p = k
      · rw [if_pos h1]
      · rw [if_neg h1]
        exact hv1


/-- Every way of a freshly configured cache is invalid. -/
theorem configured_invalid (g s : Sim) (index blocksize assoc : Nat) (j p : Nat)
    (h : iplc_sim_init g index blocksize assoc = some s) : (wayOf s j p).vb = 0 := by
  unfold iplc_sim_init at h
  simp only at h
  split at h
  · exact absurd h (by simp)
  · injection h with h
    subst h
    unfold wayOf
    simp only [iplc_sim_init.allocate, List.getD_eq_getElem?_getD, List.getElem?_replicate]
    split
    · simp only [Option.getD_some, List.getElem?_replicate]
      split <;> simp [default]
    · simp [default]

theorem miss_cache_length (s : Sim) (index tag : Nat) :
    (iplc_sim_LRU_replace_on_miss s index tag).cache.length = s.cache.length := by
  simp [iplc_sim_LRU_replace_on_miss]

theorem validPrefix_congr (s t : Sim) (j k : Nat) (hA : t.cache_assoc = s.cache_assoc)
    (hw : ∀ p, wayOf t j p = wayOf s j p) (h : validPrefix s j k) : validPrefix t j k := by
  unfold validPrefix at h ⊢
  rw [hA]
  refine ⟨h.1, fun p hp => ?_⟩
  rw [hw]
  exact h.2 p hp

/-- In every reachable cache state the valid ways of every set are a prefix of
the way indices. -/
theorem leading_valid_reachable (index blocksize assoc : Nat) (s : Sim) (hA : 1 ≤ assoc)
    (h : CacheReachable index blocksize assoc s) :
    ∀ j, j < s.cache.length → ∃ k, validPrefix s j k := by
  induction h with
  | configure g s hs =>
    intro j _
    refine ⟨0, Nat.zero_le _, fun p _ => ?_⟩
    rw [configured_invalid g s index blocksize assoc j p hs]
    exact ⟨fun e => absurd e (by decide), fun e => by omega⟩
  | probe s address hr ih =>
    have hs := cacheShape_reachable index blocksize assoc s hr
    have hidx : indexOf s address < s.cache.length := by
      rw [hs.2.2.1, ← hs.1]
      exact indexOf_lt s address
    intro j hj
    rcases trap_cases s address with ⟨h1, _⟩ | ⟨w, _, _, _, h4⟩
    · rw [h1] at hj ⊢
      rw [miss_cache_length] at hj
      obtain ⟨k, hk⟩ := ih j hj
      by_cases hset : indexOf s address = j
      · subst hset
        exact ⟨_, (miss_leading_valid s _ _ k hidx
          (by rw [hs.2.1]; exact (hs.2.2.2 _ (getD_mem _ _ _ hidx)).1)
          (by rw [hs.2.1]; exact hA) hk).1⟩
      · exact ⟨k, validPrefix_congr s _ j k rfl
          (fun p => miss_keeps_other_sets s _ _ j p hset) hk⟩
    · rw [h4] at hj ⊢
      have hl : (iplc_sim_LRU_update_on_hit s (indexOf s address) w).cache.length
          = s.cache.length := by
        simp [iplc_sim_LRU_update_on_hit]
      rw [hl] at hj
      obtain ⟨k, hk⟩ := ih j hj
      exact ⟨k, validPrefix_congr s _ j k rfl (fun p => hit_keeps_ways s _ w j p) hk⟩

theorem validWays_congr (s t : Sim) (j : Nat)
    (h : (t.cache.getD j default).assoc = (s.cache.getD j default).assoc) :
    validWays t j = validWays s j := by
  unfold validWays
  rw [h]

/-- C26. In every cache state reached from `iplc_sim_init` with at least one
way by probes, the valid ways of every set are the ways `0 .. k-1`, with `k`
the number of valid ways of the set. A probe that hits leaves every way (valid
bit and tag) of every set as it was. A probe that misses raises the number of
valid ways of its set by one when that number is below the number of ways and
leaves it there otherwise, leaves the other sets alone, and clears no valid
bit. -/
theorem valid_ways_are_leading (index blocksize assoc : Nat) (s : Sim) (address : Nat)
    (hA : 1 ≤ assoc) (h : CacheReachable index blocksize assoc s) :
    s.cache_assoc = assoc
    ∧ (∀ j, j < 2 ^ index → validPrefix s j (validWays s j))
    ∧ ((iplc_sim_trap_address s address).2 = 1 →
        ∀ j p, wayOf (iplc_sim_trap_address s address).1 j p = wayOf s j p)
    ∧ ((iplc_sim_trap_address s address).2 = 0 →
        (validWays s (indexOf s address) < assoc →
          validWays (iplc_sim_trap_address s address).1 (indexOf s address)
            = validWays s (indexOf s address) + 1)
        ∧ (validWays s (indexOf s address) = assoc →
          validWays (iplc_sim_trap_address s address).1 (indexOf s address) = assoc)
        ∧ (∀ j, j ≠ indexOf s address →
          validWays (iplc_sim_trap_address s address).1 j = validWays s j)
        ∧ ∀ j p, (wayOf s j p).vb = 1 →
            (wayOf (iplc_sim_trap_address s address).1 j p).vb = 1) := by
  have hs := cacheShape_reachable index blocksize assoc s h
  have hs1 := cacheShape_trap index assoc s address hs
  have hlen : ∀ (t : Sim), CacheShape index assoc t → ∀ j, j < t.cache.length →
      (t.cache.getD j default).assoc.length = t.cache_assoc := by
    intro t ht j hj
    rw [ht.2.1]
    exact (ht.2.2.2 _ (getD_mem _ _ _ hj)).1
  have hpre : ∀ j, j < s.cache.length → validPrefix s j (validWays s j) := by
    intro j hj
    obtain ⟨k, hk⟩ := leading_valid_reachable index blocksize assoc s hA h j hj
    rw [validWays_of_leading s j k (hlen s hs j hj) hk]
    exact hk
  have hidx : indexOf s address < s.cache.length := by
    rw [hs.2.2.1, ← hs.1]
    exact indexOf_lt s address
  refine ⟨hs.2.1, fun j hj => hpre j (by rw [hs.2.2.1, Nat.one_shiftLeft]; exact hj), ?_, ?_⟩
  · intro hr j p
    rcases trap_cases s address with ⟨h1, _⟩ | ⟨w, _, _, _, h4⟩
    · rw [h1] at hr
      exact absurd (show (0 : Nat) = 1 from hr) (by decide)
    · rw [h4]
      exact hit_keeps_ways s _ w j p
  · intro hr
    rcases trap_cases s address with ⟨h1, _⟩ | ⟨w, _, _, _, h4⟩
    · have hm := miss_leading_valid s (indexOf s address) (tagOf s address) _ hidx (hlen s hs _ hidx)
        (by rw [hs.2.1]; exact hA) (hpre _ hidx)
      have hidx1 : indexOf s address < (iplc_sim_trap_address s address).1.cache.length := by
        rw [hs1.2.2.1, ← hs.2.2.1]
        exact hidx
      have hcount := validWays_of_leading (iplc_sim_trap_address s address).1 (indexOf s address)
        (min (validWays s (indexOf s address) + 1) s.cache_assoc)
        (hlen _ hs1 _ hidx1) (by rw [h1]; exact hm.1)
      rw [hs.2.1] at hcount
      refine ⟨fun hlt => ?_, fun heq => ?_, fun j hj => ?_, fun j p hv => ?_⟩
      · rw [hcount]
        exact Nat.min_eq_left (by omega)
      · rw [hcount]
        exact Nat.min_eq_right (by omega)
      · rw [h1]
        apply validWays_congr
        unfold iplc_sim_LRU_replace_on_miss
        simp only
        rw [getD_set_other _ _ _ _ _ (fun e => hj e.symm)]
      · rw [h1]
        by_cases hset : indexOf s address = j
        · subst hset
          exact hm.2 p hv
        · rw [miss_keeps_other_sets s _ _ j p hset]
          exact hv
    · rw [h4] at hr
      exact absurd (show (1 : Nat) = 0 from hr) (by decide)

/-- Witness of C26: the two-way set after the probes of the addresses 4 and 8,
probed with the address 12. -/
theorem valid_ways_are_leading_witness :
    (probeAll twoWay [4, 8]).1.cache_assoc = 2
    ∧ (∀ j, j < 2 ^ 0 →
        validPrefix (probeAll twoWay [4, 8]).1 j (validWays (probeAll twoWay [4, 8]).1 j))
    ∧ ((iplc_sim_trap_address (probeAll twoWay [4, 8]).1 12).2 = 1 →
        ∀ j p, wayOf (iplc_sim_trap_address (probeAll twoWay [4, 8]).1 12).1 j p
          = wayOf (probeAll twoWay [4, 8]).1 j p)
    ∧ ((iplc_sim_trap_address (probeAll twoWay [4, 8]).1 12).2 = 0 →
        (validWays (probeAll twoWay [4, 8]).1 (indexOf (probeAll twoWay [4, 8]).1 12) < 2 →
          validWays (iplc_sim_trap_address (probeAll twoWay [4, 8]).1 12).1
              (indexOf (probeAll twoWay [4, 8]).1 12)
            = validWays (probeAll twoWay [4, 8]).1 (indexOf (probeAll twoWay [4, 8]).1 12) + 1)
        ∧ (validWays (probeAll twoWay [4, 8]).1 (indexOf (probeAll twoWay [4, 8]).1 12) = 2 →
          validWays (iplc_sim_trap_address (probeAll twoWay [4, 8]).1 12).1
              (indexOf (probeAll twoWay [4, 8]).1 12) = 2)
        ∧ (∀ j, j ≠ indexOf (probeAll twoWay [4, 8]).1 12 →
          validWays (iplc_sim_trap_address (probeAll twoWay [4, 8]).1 12).1 j
            = validWays (probeAll twoWay [4, 8]).1 j)
        ∧ ∀ j p, (wayOf (probeAll twoWay [4, 8]).1 j p).vb = 1 →
            (wayOf (iplc_sim_trap_address (probeAll twoWay [4, 8]).1 12).1 j p).vb = 1) :=
  valid_ways_are_leading 0 1 2 (probeAll twoWay [4, 8]).1 12 (by decide)
    (CacheReachable.probe _ 8 (CacheReachable.probe _ 4
      (CacheReachable.configure Sim.start twoWay twoWay_configured)))


/-! ## Theorems: the slots after one cycle -/

theorem shift_address_DECODE (p : Pipeline) :
    (iplc_sim_push_pipeline_stage.shift p).DECODE.instruction_address
      = p.FETCH.instruction_address := by
  unfold iplc_sim_push_pipeline_stage.shift
  simp only [kindWM_slots, kindMA_slots, kindAD_slots, kindDF_slots, dataWM_slots, dataMA_slots,
    dataAD_slots, dataDF_slots]

theorem shift_address_ALU (p : Pipeline) :
    (iplc_sim_push_pipeline_stage.shift p).ALU.instruction_address
      = p.DECODE.instruction_address := by
  unfold iplc_sim_push_pipeline_stage.shift
  simp only [kindWM_slots, kindMA_slots, kindAD_slots, kindDF_slots, dataWM_slots, dataMA_slots,
    dataAD_slots, dataDF_slots]

theorem shift_address_MEM (p : Pipeline) :
    (iplc_sim_push_pipeline_stage.shift p).MEM.instruction_address
      = p.ALU.instruction_address := by
  unfold iplc_sim_push_pipeline_stage.shift
  simp only [kindWM_slots, kindMA_slots, kindAD_slots, kindDF_slots, dataWM_slots, dataMA_slots,
    dataAD_slots, dataDF_slots]

theorem shift_address_WRITEBACK (p : Pipeline) :
    (iplc_sim_push_pipeline_stage.shift p).WRITEBACK.instruction_address
      = p.MEM.instruction_address := by
  unfold iplc_sim_push_pipeline_stage.shift
  simp only [kindWM_slots, kindMA_slots, kindAD_slots, kindDF_slots, dataWM_slots, dataMA_slots,
    dataAD_slots, dataDF_slots]

theorem shift_store_DECODE (p : Pipeline) (h : p.FETCH.itype = instruction_type.SW) :
    (iplc_sim_push_pipeline_stage.shift p).DECODE.stage.data_address
      = p.FETCH.stage.data_address := by
  unfold iplc_sim_push_pipeline_stage.shift
  simp only [kindWM_slots, kindMA_slots, kindAD_slots, kindDF_slots, dataWM_slots, dataMA_slots,
    dataAD_slots, dataDF_slots, h, if_true, ite_self]

theorem shift_store_ALU (p : Pipeline) (h : p.DECODE.itype = instruction_type.SW) :
    (iplc_sim_push_pipeline_stage.shift p).ALU.stage.data_address
      = p.DECODE.stage.data_address := by
  unfold iplc_sim_push_pipeline_stage.shift
  simp only [kindWM_slots, kindMA_slots, kindAD_slots, kindDF_slots, dataWM_slots, dataMA_slots,
    dataAD_slots, dataDF_slots, h, if_true, ite_self]

theorem shift_store_MEM (p : Pipeline) (h : p.ALU.itype = instruction_type.SW) :
    (iplc_sim_push_pipeline_stage.shift p).MEM.stage.data_address
      = p.ALU.stage.data_address := by
  unfold iplc_sim_push_pipeline_stage.shift
  simp only [kindWM_slots, kindMA_slots, kindAD_slots, kindDF_slots, dataWM_slots, dataMA_slots,
    dataAD_slots, dataDF_slots, h, if_true, ite_self]

theorem shift_store_WRITEBACK (p : Pipeline) (h : p.MEM.itype = instruction_type.SW) :
    (iplc_sim_push_pipeline_stage.shift p).WRITEBACK.stage.data_address
      = p.MEM.stage.data_address := by
  unfold iplc_sim_push_pipeline_stage.shift
  simp only [kindWM_slots, kindMA_slots, kindAD_slots, kindDF_slots, dataWM_slots, dataMA_slots,
    dataAD_slots, dataDF_slots, h, if_true, ite_self]

/-- The forced shift when DECODE holds a BRANCH: kinds and addresses. -/
theorem squash_branch (p : Pipeline) :
    (iplc_sim_push_pipeline_stage.squash p).FETCH = p.FETCH
    ∧ (iplc_sim_push_pipeline_stage.squash p).DECODE.itype = instruction_type.NOP
    ∧ (iplc_sim_push_pipeline_stage.squash p).DECODE.instruction_address = 0
    ∧ (iplc_sim_push_pipeline_stage.squash p).ALU.itype = p.DECODE.itype
    ∧ (iplc_sim_push_pipeline_stage.squash p).ALU.instruction_address
        = p.DECODE.instruction_address
    ∧ (iplc_sim_push_pipeline_stage.squash p).MEM.itype = p.ALU.itype
    ∧ (iplc_sim_push_pipeline_stage.squash p).MEM.instruction_address
        = p.ALU.instruction_address
    ∧ (iplc_sim_push_pipeline_stage.squash p).WRITEBACK.itype = p.MEM.itype
    ∧ (iplc_sim_push_pipeline_stage.squash p).WRITEBACK.instruction_address
        = p.MEM.instruction_address := by
  unfold iplc_sim_push_pipeline_stage.squash
  simp only [kindWM_slots, kindMA_slots, kindAD_slots, nopD_slots, dataWM_slots, dataMA_slots,
    dataAD_slots, and_self]

/-- The forced shift when DECODE holds a BRANCH: the data address of the slot
that comes from ALU. -/
theorem squash_data_MEM (p : Pipeline) (hD : p.DECODE.itype = instruction_type.BRANCH)
    (h : p.ALU.itype = instruction_type.LW ∨ p.ALU.itype = instruction_type.SW) :
    (iplc_sim_push_pipeline_stage.squash p).MEM.stage.data_address
      = p.ALU.stage.data_address := by
  unfold iplc_sim_push_pipeline_stage.squash
  rcases h with h | h
  · simp [kindWM_slots, kindMA_slots, kindAD_slots, nopD_slots, dataWM_slots, dataMA_slots,
      dataAD_slots, hD, h]
  · simp [kindWM_slots, kindMA_slots, kindAD_slots, nopD_slots, dataWM_slots, dataMA_slots,
      dataAD_slots, hD, h]


/-- The pipeline after one cycle: the shift of the pipeline of step 3, with
FETCH cleared. -/
theorem push_pipeline_eq (s : Sim) :
    (iplc_sim_push_pipeline_stage s).pipeline
      = { iplc_sim_push_pipeline_stage.shift s.atStep3.pipeline with
          FETCH := pipeline_t.zero } := by
  rw [push_eq]
  show ({ iplc_sim_push_pipeline_stage.shift
      (iplc_sim_push_pipeline_stage.memory s.atStep3).pipeline with
        FETCH := pipeline_t.zero } : Pipeline) = _
  rw [(memory_frame s.atStep3).1]

theorem atStep3_instruction_count (s : Sim) :
    s.atStep3.instruction_count
      = if s.penalty = 1 then
          (if s.pipeline.MEM.instruction_address ≠ 0 then
            u32 ((iplc_sim_push_pipeline_stage.retire s).instruction_count + 1)
           else (iplc_sim_push_pipeline_stage.retire s).instruction_count)
        else (iplc_sim_push_pipeline_stage.retire s).instruction_count := by
  have hr := retire_frame s
  have hpc := mispredicts_congr _ _ hr.1 hr.2.2.2.2
  unfold Sim.atStep3
  by_cases hb : s.pipeline.DECODE.itype = instruction_type.BRANCH
  · have hb2 : (iplc_sim_push_pipeline_stage.retire s).pipeline.DECODE.itype
        = instruction_type.BRANCH := by rw [hr.1]; exact hb
    by_cases hm : s.mispredicts
    · rw [branch_wrong _ hb2 (hpc.mpr hm), if_pos ((penalty_eq_one_iff s).mpr ⟨hb, hm⟩),
        (mispredict_rest _).2.2.2.2.2.2.2, hr.1, (squash_branch s.pipeline).2.2.2.2.2.2.2.2]
    · rw [branch_correct _ hb2 (fun h => hm (hpc.mp h)),
        if_neg (fun h => hm ((penalty_eq_one_iff s).mp h).2)]
  · have hb2 : (iplc_sim_push_pipeline_stage.retire s).pipeline.DECODE.itype
        ≠ instruction_type.BRANCH := by rw [hr.1]; exact hb
    rw [branch_other _ hb2, if_neg (fun h => hb ((penalty_eq_one_iff s).mp h).1)]

/-- C23. After a cycle that starts with no BRANCH in DECODE, or with a
correctly predicted one: WRITEBACK, MEM, ALU and DECODE have the kind and the
address of the old MEM, ALU, DECODE and FETCH slots; each of them whose kind
is LW or SW has the data address of the slot it comes from; FETCH is all
zero (kind NOP, address 0); and `instruction_count` has grown by one (modulo
`2^32`) when the old WRITEBACK address was nonzero and is unchanged
otherwise. -/
theorem normal_shift (s : Sim)
    (h : ¬ (s.pipeline.DECODE.itype = instruction_type.BRANCH ∧ s.mispredicts)) :
    ((iplc_sim_push_pipeline_stage s).pipeline.WRITEBACK.itype = s.pipeline.MEM.itype
      ∧ (iplc_sim_push_pipeline_stage s).pipeline.WRITEBACK.instruction_address
          = s.pipeline.MEM.instruction_address
      ∧ (s.pipeline.MEM.itype = instruction_type.LW ∨ s.pipeline.MEM.itype = instruction_type.SW →
          (iplc_sim_push_pipeline_stage s).pipeline.WRITEBACK.stage.data_address
            = s.pipeline.MEM.stage.data_address))
    ∧ ((iplc_sim_push_pipeline_stage s).pipeline.MEM.itype = s.pipeline.ALU.itype
      ∧ (iplc_sim_push_pipeline_stage s).pipeline.MEM.instruction_address
          = s.pipeline.ALU.instruction_address
      ∧ (s.pipeline.ALU.itype = instruction_type.LW ∨ s.pipeline.ALU.itype = instruction_type.SW →
          (iplc_sim_push_pipeline_stage s).pipeline.MEM.stage.data_address
            = s.pipeline.ALU.stage.data_address))
    ∧ ((iplc_sim_push_pipeline_stage s).pipeline.ALU.itype = s.pipeline.DECODE.itype
      ∧ (iplc_sim_push_pipeline_stage s).pipeline.ALU.instruction_address
          = s.pipeline.DECODE.instruction_address
      ∧ (s.pipeline.DECODE.itype = instruction_type.LW
            ∨ s.pipeline.DECODE.itype = instruction_type.SW →
          (iplc_sim_push_pipeline_stage s).pipeline.ALU.stage.data_address
            = s.pipeline.DECODE.stage.data_address))
    ∧ ((iplc_sim_push_pipeline_stage s).pipeline.DECODE.itype = s.pipeline.FETCH.itype
      ∧ (iplc_sim_push_pipeline_stage s).pipeline.DECODE.instruction_address
          = s.pipeline.FETCH.instruction_address
      ∧ (s.pipeline.FETCH.itype = instruction_type.LW
            ∨ s.pipeline.FETCH.itype = instruction_type.SW →
          (iplc_sim_push_pipeline_stage s).pipeline.DECODE.stage.data_address
            = s.pipeline.FETCH.stage.data_address))
    ∧ (iplc_sim_push_pipeline_stage s).pipeline.FETCH = pipeline_t.zero
    ∧ (iplc_sim_push_pipeline_stage s).pipeline.FETCH.itype = instruction_type.NOP
    ∧ (iplc_sim_push_pipeline_stage s).pipeline.FETCH.instruction_address = 0
    ∧ (iplc_sim_push_pipeline_stage s).instruction_count
        = (if s.pipeline.WRITEBACK.instruction_address ≠ 0 then
            (s.instruction_count + 1) % 2 ^ 32
           else s.instruction_count) := by
  have hp : ¬ s.penalty = 1 := fun e => h ((penalty_eq_one_iff s).mp e)
  have h3 : s.atStep3.pipeline = s.pipeline := by
    rw [atStep3_pipeline, if_neg hp]
  have hpipe := push_pipeline_eq s
  rw [h3] at hpipe
  have hF : (iplc_sim_push_pipeline_stage s).pipeline.FETCH = pipeline_t.zero := by
    rw [hpipe]
  refine ⟨?_, ?_, ?_, ?_, hF, by rw [hF]; rfl, by rw [hF]; rfl, ?_⟩
  · rw [hpipe]
    exact ⟨shift_itype_WRITEBACK _, shift_address_WRITEBACK _,
      fun hk => hk.elim (shift_data_WRITEBACK _) (shift_store_WRITEBACK _)⟩
  · rw [hpipe]
    exact ⟨shift_itype_MEM _, shift_address_MEM _,
      fun hk => hk.elim (shift_data_MEM _) (shift_store_MEM _)⟩
  · rw [hpipe]
    exact ⟨shift_itype_ALU _, shift_address_ALU _,
      fun hk => hk.elim (shift_data_ALU _) (shift_store_ALU _)⟩
  · rw [hpipe]
    exact ⟨shift_itype_DECODE _, shift_address_DECODE _,
      fun hk => hk.elim (shift_data_DECODE _) (shift_store_DECODE _)⟩
  · rw [(push_counters s).2.1, atStep3_instruction_count, if_neg hp,
      (retire_rest s).2.2.2.2.2.2.2]
    rfl

/-- Witness of C23: the cycle after the first driver step of a load. -/
theorem normal_shift_witness :
    (iplc_sim_push_pipeline_stage afterLoad).pipeline.DECODE.itype = instruction_type.LW
    ∧ (iplc_sim_push_pipeline_stage afterLoad).pipeline.DECODE.instruction_address = 256
    ∧ (iplc_sim_push_pipeline_stage afterLoad).pipeline.DECODE.stage.data_address = 512
    ∧ (iplc_sim_push_pipeline_stage afterLoad).pipeline.FETCH = pipeline_t.zero
    ∧ (iplc_sim_push_pipeline_stage afterLoad).instruction_count = 0 := by
  have h := normal_shift afterLoad (by decide!)
  have e1 : afterLoad.pipeline.FETCH.itype = instruction_type.LW := by decide!
  have e2 : afterLoad.pipeline.FETCH.instruction_address = 256 := by decide!
  have e3 : afterLoad.pipeline.FETCH.stage.data_address = 512 := by decide!
  have e4 : afterLoad.pipeline.WRITEBACK.instruction_address = 0 := by decide!
  have e5 : afterLoad.instruction_count = 0 := by decide!
  refine ⟨h.2.2.2.1.1.trans e1, h.2.2.2.1.2.1.trans e2,
    (h.2.2.2.1.2.2 (Or.inl e1)).trans e3, h.2.2.2.2.1, ?_⟩
  rw [h.2.2.2.2.2.2.2, e4, e5]
  rfl


/-- C22. After a cycle that starts with a mispredicted BRANCH in DECODE:
WRITEBACK has the kind and address of the old ALU slot, and its data address
when that is a LW or SW; MEM has the kind and address of the branch (the old
DECODE); ALU is a NOP with address 0; DECODE has the kind and address of the
old FETCH slot, and its data address when that is a LW or SW; FETCH is all
zero. `instruction_count`, an `unsigned int`, has grown (modulo `2^32`) by one for a
nonzero old WRITEBACK address and by one for a nonzero old MEM address. The slot in MEM at
step 3, the one that steps 3 and 4 probe, is the old ALU slot: the cycle makes
a data probe exactly when the old ALU slot is a LW or SW, with the data
address of that slot, on the cache as it was at the start of the cycle. -/
theorem mispredicted_shift (s : Sim) (hD : s.pipeline.DECODE.itype = instruction_type.BRANCH)
    (hm : s.mispredicts) :
    ((iplc_sim_push_pipeline_stage s).pipeline.WRITEBACK.itype = s.pipeline.ALU.itype
      ∧ (iplc_sim_push_pipeline_stage s).pipeline.WRITEBACK.instruction_address
          = s.pipeline.ALU.instruction_address
      ∧ (s.pipeline.ALU.itype = instruction_type.LW ∨ s.pipeline.ALU.itype = instruction_type.SW →
          (iplc_sim_push_pipeline_stage s).pipeline.WRITEBACK.stage.data_address
            = s.pipeline.ALU.stage.data_address))
    ∧ ((iplc_sim_push_pipeline_stage s).pipeline.MEM.itype = instruction_type.BRANCH
      ∧ (iplc_sim_push_pipeline_stage s).pipeline.MEM.instruction_address
          = s.pipeline.DECODE.instruction_address)
    ∧ ((iplc_sim_push_pipeline_stage s).pipeline.ALU.itype = instruction_type.NOP
      ∧ (iplc_sim_push_pipeline_stage s).pipeline.ALU.instruction_address = 0)
    ∧ ((iplc_sim_push_pipeline_stage s).pipeline.DECODE.itype = s.pipeline.FETCH.itype
      ∧ (iplc_sim_push_pipeline_stage s).pipeline.DECODE.instruction_address
          = s.pipeline.FETCH.instruction_address
      ∧ (s.pipeline.FETCH.itype = instruction_type.LW
            ∨ s.pipeline.FETCH.itype = instruction_type.SW →
          (iplc_sim_push_pipeline_stage s).pipeline.DECODE.stage.data_address
            = s.pipeline.FETCH.stage.data_address))
    ∧ (iplc_sim_push_pipeline_stage s).pipeline.FETCH = pipeline_t.zero
    ∧ (s.instruction_count < 2 ^ 32 →
        (iplc_sim_push_pipeline_stage s).instruction_count
          = (s.instruction_count
              + (if s.pipeline.WRITEBACK.instruction_address ≠ 0 then 1 else 0)
              + (if s.pipeline.MEM.instruction_address ≠ 0 then 1 else 0)) % 2 ^ 32)
    ∧ (s.atStep3.pipeline.MEM.itype = s.pipeline.ALU.itype
      ∧ s.atStep3.pipeline.MEM.instruction_address = s.pipeline.ALU.instruction_address
      ∧ s.atStep3.sameCache s
      ∧ iplc_sim_push_pipeline_stage.probes s
          = (if s.pipeline.ALU.isMemory = 1 then
              [{ address := s.pipeline.ALU.stage.data_address,
                 result := (iplc_sim_trap_address s.atStep3 s.pipeline.ALU.stage.data_address).2,
                 cycles := (iplc_sim_push_pipeline_stage s).pipeline_cycles - s.pipeline_cycles }]
             else [])
      ∧ (iplc_sim_push_pipeline_stage s).sameCache
          (if s.pipeline.ALU.isMemory = 1 then
            (iplc_sim_trap_address s.atStep3 s.pipeline.ALU.stage.data_address).1
           else s)) := by
  have hp : s.penalty = 1 := (penalty_eq_one_iff s).mpr ⟨hD, hm⟩
  have h3 : s.atStep3.pipeline = iplc_sim_push_pipeline_stage.squash s.pipeline := by
    rw [atStep3_pipeline, if_pos hp]
  obtain ⟨q1, q2, q3, q4, q5, q6, q7, q8, q9⟩ := squash_branch s.pipeline
  have hpipe := push_pipeline_eq s
  rw [h3] at hpipe
  have hmem : s.atStep3.pipeline.MEM.isMemory = s.pipeline.ALU.isMemory := by
    rw [h3]
    exact isMemory_congr _ _ q6
  have hdata : s.pipeline.ALU.isMemory = 1 →
      s.atStep3.pipeline.MEM.stage.data_address = s.pipeline.ALU.stage.data_address := by
    intro hk
    rw [h3]
    exact squash_data_MEM s.pipeline hD ((isMemory_eq_one_iff _).mp hk)
  refine ⟨?_, ?_, ?_, ?_, by rw [hpipe], ?_, ?_⟩
  · rw [hpipe]
    refine ⟨(shift_itype_WRITEBACK _).trans q6, (shift_address_WRITEBACK _).trans q7,
      fun hk => ?_⟩
    have e := squash_data_MEM s.pipeline hD hk
    rcases hk with hk | hk
    · exact (shift_data_WRITEBACK _ (q6.trans hk)).trans e
    · exact (shift_store_WRITEBACK _ (q6.trans hk)).trans e
  · rw [hpipe]
    exact ⟨(shift_itype_MEM _).trans (q4.trans hD), (shift_address_MEM _).trans q5⟩
  · rw [hpipe]
    exact ⟨(shift_itype_ALU _).trans q2, (shift_address_ALU _).trans q3⟩
  · rw [hpipe]
    refine ⟨(shift_itype_DECODE _).trans (by rw [q1]), (shift_address_DECODE _).trans (by rw [q1]),
      fun hk => ?_⟩
    rcases hk with hk | hk
    · exact (shift_data_DECODE _ (by rw [q1]; exact hk)).trans (by rw [q1])
    · exact (shift_store_DECODE _ (by rw [q1]; exact hk)).trans (by rw [q1])
  · intro hic
    rw [(push_counters s).2.1, atStep3_instruction_count, if_pos hp,
      (retire_rest s).2.2.2.2.2.2.2]
    unfold u32
    by_cases hw : s.pipeline.WRITEBACK.instruction_address ≠ 0
    · by_cases hmm : s.pipeline.MEM.instruction_address ≠ 0
      · rw [if_pos hw, if_pos hmm, if_pos hw, if_pos hmm]
        omega
      · rw [if_pos hw, if_neg hmm, if_pos hw, if_neg hmm]
    · by_cases hmm : s.pipeline.MEM.instruction_address ≠ 0
      · rw [if_neg hw, if_pos hmm, if_neg hw, if_pos hmm]
      · rw [if_neg hw, if_neg hmm, if_neg hw, if_neg hmm]
        exact (Nat.mod_eq_of_lt hic).symm
  · refine ⟨by rw [h3]; exact q6, by rw [h3]; exact q7, atStep3_sameCache s, ?_, ?_⟩
    · unfold iplc_sim_push_pipeline_stage.probes
      rw [hmem]
      by_cases hk : s.pipeline.ALU.isMemory = 1
      · rw [if_pos hk, if_pos hk, hdata hk]
      · rw [if_neg hk, if_neg hk]
    · have hsc := push_sameCache s
      rw [hmem] at hsc
      by_cases hk : s.pipeline.ALU.isMemory = 1
      · rw [if_pos hk] at hsc ⊢
        rw [hdata hk] at hsc
        exact hsc
      · rw [if_neg hk] at hsc ⊢
        exact hsc


/-- Witness of C22: the cycle started in `takenBranch`, where DECODE holds the
mispredicted BRANCH, ALU the load of `0x204` and MEM the load of `0x200`. The
load of `0x204` ends in WRITEBACK and is the one probed; one instruction, the
load that was in MEM, is counted. -/
theorem mispredicted_shift_witness :
    (iplc_sim_push_pipeline_stage takenBranch).pipeline.WRITEBACK.itype = instruction_type.LW
    ∧ (iplc_sim_push_pipeline_stage takenBranch).pipeline.WRITEBACK.instruction_address = 260
    ∧ (iplc_sim_push_pipeline_stage takenBranch).pipeline.WRITEBACK.stage.data_address = 516
    ∧ (iplc_sim_push_pipeline_stage takenBranch).pipeline.MEM.itype = instruction_type.BRANCH
    ∧ (iplc_sim_push_pipeline_stage takenBranch).pipeline.MEM.instruction_address = 264
    ∧ (iplc_sim_push_pipeline_stage takenBranch).pipeline.ALU.itype = instruction_type.NOP
    ∧ (iplc_sim_push_pipeline_stage takenBranch).pipeline.DECODE.instruction_address = 256
    ∧ (iplc_sim_push_pipeline_stage takenBranch).pipeline.FETCH = pipeline_t.zero
    ∧ (iplc_sim_push_pipeline_stage takenBranch).instruction_count = 1 := by
  have h := mispredicted_shift takenBranch (by decide!) (by decide!)
  have e1 : takenBranch.pipeline.ALU.itype = instruction_type.LW := by decide!
  have e2 : takenBranch.pipeline.ALU.instruction_address = 260 := by decide!
  have e3 : takenBranch.pipeline.ALU.stage.data_address = 516 := by decide!
  have e4 : takenBranch.pipeline.DECODE.instruction_address = 264 := by decide!
  have e5 : takenBranch.pipeline.FETCH.instruction_address = 256 := by decide!
  have e6 : takenBranch.pipeline.WRITEBACK.instruction_address = 0 := by decide!
  have e7 : takenBranch.pipeline.MEM.instruction_address = 256 := by decide!
  have e8 : takenBranch.instruction_count = 0 := by decide!
  refine ⟨h.1.1.trans e1, h.1.2.1.trans e2, (h.1.2.2 (Or.inl e1)).trans e3, h.2.1.1,
    h.2.1.2.trans e4, h.2.2.1.1, h.2.2.2.1.2.1.trans e5, h.2.2.2.2.1, ?_⟩
  rw [h.2.2.2.2.2.1 (by rw [e8]; decide), e6, e7, e8]
  rfl


/-! ## Theorems: a load squashed out of MEM, and the forwarding block -/

/-- C24: the code at the failing input. On `wideBlock` (prediction mode
not-taken) the trace `takenBranchTrace` inserts two loads, of the data
addresses `0x200` and `0x204`. When the branch is resolved as mispredicted,
the load of `0x200` is in MEM; the forced shift moves it to WRITEBACK before
steps 3 and 4, which probe the load of `0x204` instead. The whole run makes
one data probe, of `0x204`, and none of `0x200`: `cache_access` ends at 6 (four
fetches and two loads) while `cache_hit + cache_miss` ends at 5. -/
theorem squashed_load_never_probed :
    takenBranch.pipeline.DECODE.itype = instruction_type.BRANCH
    ∧ takenBranch.mispredicts
    ∧ takenBranch.pipeline.MEM.itype = instruction_type.LW
    ∧ takenBranch.pipeline.MEM.stage.data_address = 512
    ∧ dataProbes wideBlock takenBranchTrace = [{ address := 516, result := 0, cycles := 11 }]
    ∧ (iplc_sim_finalize takenBranch).cache_access = 6
    ∧ (iplc_sim_finalize takenBranch).cache_hit = 3
    ∧ (iplc_sim_finalize takenBranch).cache_miss = 2 := by
  decide!

/-- C25. The register forwarding block changes nothing: each of its four
statements writes into `dest_reg` a value equal to the one it holds, so each
leaves the pipeline as it is, and a cycle gives the same globals as the cycle
without the block; in particular the same `pipeline_cycles` (no stall). -/
theorem forwarding_changes_nothing (s : Sim) (p : Pipeline) :
    iplc_sim_push_pipeline_stage s = iplc_sim_push_pipeline_stage.withoutForwarding s
    ∧ (iplc_sim_push_pipeline_stage s).pipeline_cycles
        = (iplc_sim_push_pipeline_stage.withoutForwarding s).pipeline_cycles
    ∧ p.forwardA1 = p ∧ p.forwardA2 = p ∧ p.forwardM1 = p ∧ p.forwardM2 = p
    ∧ iplc_sim_push_pipeline_stage.forward p = p := by
  have h : iplc_sim_push_pipeline_stage s
      = iplc_sim_push_pipeline_stage.withoutForwarding s := by
    unfold iplc_sim_push_pipeline_stage iplc_sim_push_pipeline_stage.withoutForwarding
    simp only [forward_eq]
  exact ⟨h, by rw [h], forwardA1_eq p, forwardA2_eq p, forwardM1_eq p, forwardM2_eq p,
    forward_eq p⟩


/-! ## Theorems: the branch counter wraps -/

theorem push_instruction_address (s : Sim) :
    (iplc_sim_push_pipeline_stage s).instruction_address = s.instruction_address := by
  have e1 : (iplc_sim_push_pipeline_stage s).instruction_address
      = (iplc_sim_push_pipeline_stage.memory s.atStep3).instruction_address := by
    rw [push_eq]
  have e2 : (iplc_sim_push_pipeline_stage.memory s.atStep3).instruction_address
      = s.atStep3.instruction_address := by
    rw [memory_eq]
    split
    · unfold iplc_sim_push_pipeline_stage.dataProbe
      simp only
      split
      · exact (trap_rest _ _).2.2.2.2.2.1
      · exact (trap_rest _ _).2.2.2.2.2.1
    · rfl
  have e3 : s.atStep3.instruction_address = s.instruction_address := by
    have hr : (iplc_sim_push_pipeline_stage.retire s).instruction_address
        = s.instruction_address := by
      unfold iplc_sim_push_pipeline_stage.retire
      split <;> rfl
    unfold Sim.atStep3
    by_cases hb : (iplc_sim_push_pipeline_stage.retire s).pipeline.DECODE.itype
        = instruction_type.BRANCH
    · by_cases hm : (iplc_sim_push_pipeline_stage.retire s).mispredicts
      · rw [branch_wrong _ hb hm]
        unfold iplc_sim_push_pipeline_stage.mispredict
        simp only
        split <;> exact hr
      · rw [branch_correct _ hb hm]
        exact hr
    · rw [branch_other _ hb]
      exact hr
  rw [e1, e2, e3]

/-- A probe that hits leaves the residency of every address as it was. -/
theorem hit_keeps_resident (s : Sim) (a b : Nat) (h : (iplc_sim_trap_address s a).2 = 1) :
    (iplc_sim_trap_address s a).1.resident b ↔ s.resident b := by
  obtain ⟨_, _, _, e1, e2, e3⟩ := trap_effect s a
  have hw : ∀ j k, wayOf (iplc_sim_trap_address s a).1 j k = wayOf s j k := by
    intro j k
    rcases trap_cases s a with ⟨h1, _⟩ | ⟨w, _, _, _, h4⟩
    · rw [h1] at h
      exact absurd (show (0 : Nat) = 1 from h) (by decide)
    · rw [h4]
      exact hit_keeps_ways s _ w j k
  unfold Sim.resident
  rw [e3, indexOf_congr s _ b e1 e2, tagOf_congr s _ b e1 e2]
  simp only [hw]

/-- One more line of the branch loop. -/
theorem loop_step (n : Nat) (s : Sim) (hn : 2 ≤ n) (h : LoopState n s) :
    LoopState (n + 1) (iplc_sim_parse_instruction s 256 TraceOp.beq) := by
  obtain ⟨hF, hFa, hD, hDa, hA, hM, hP, hR, hB, hC⟩ := h
  -- the fetch probe hits
  have hres0 : ({ s with instruction_address := 256 } : Sim).resident 256 := hR
  have hhit : (iplc_sim_parse_instruction.probe s 256).2 = 1 := by
    rcases trap_result_cases { s with instruction_address := 256 } 256 with ⟨r, _⟩ | ⟨_, r⟩
    · exact r
    · exact absurd hres0 r
  obtain ⟨_, _, pB, pC, pP, pT⟩ := probe_rest s 256
  have pR : (iplc_sim_parse_instruction.probe s 256).1.resident 256 :=
    (hit_keeps_resident { s with instruction_address := 256 } 256 256 hhit).mpr hres0
  have pI : (iplc_sim_parse_instruction.probe s 256).1.instruction_address = 256 :=
    (trap_rest { s with instruction_address := 256 } 256).2.2.2.2.2.1
  have hparse : iplc_sim_parse_instruction s 256 TraceOp.beq
      = iplc_sim_parse_instruction.dispatch (iplc_sim_parse_instruction.probe s 256).1
          TraceOp.beq := by
    unfold iplc_sim_parse_instruction
    simp only
    rw [if_neg (by rw [hhit]; decide)]
  rw [hparse]
  generalize (iplc_sim_parse_instruction.probe s 256).1 = p at pB pC pP pT pR pI
  -- the state in which the cycle of the insert starts
  have qpipe : ({ p with branch_count := u32 (p.branch_count + 1) } : Sim).pipeline
      = s.pipeline := pP
  have qnm : ¬ ({ p with branch_count := u32 (p.branch_count + 1) } : Sim).mispredicts := by
    rw [mispredicts_iff, qpipe, hFa, hDa]
    intro hiff
    have h0 : ({ p with branch_count := u32 (p.branch_count + 1) } : Sim).branch_predict_taken
        = 0 := hiff.mp (by decide)
    have h1 : ({ p with branch_count := u32 (p.branch_count + 1) } : Sim).branch_predict_taken
        = 1 := pT.trans hP
    omega
  have qD : ({ p with branch_count := u32 (p.branch_count + 1) } : Sim).pipeline.DECODE.itype
      = instruction_type.BRANCH := by rw [qpipe]; exact hD
  have qpen : ¬ (({ p with branch_count := u32 (p.branch_count + 1) } : Sim).pipeline.DECODE.itype
      = instruction_type.BRANCH
      ∧ ({ p with branch_count := u32 (p.branch_count + 1) } : Sim).mispredicts) :=
    fun hh => qnm hh.2
  generalize hq : ({ p with branch_count := u32 (p.branch_count + 1) } : Sim) = q
    at qpipe qnm qD qpen
  have qB : q.branch_count = u32 (p.branch_count + 1) := by rw [← hq]
  have qC : q.correct_branch_predictions = p.correct_branch_predictions := by rw [← hq]
  have qT : q.branch_predict_taken = p.branch_predict_taken := by rw [← hq]
  have qI : q.instruction_address = 256 := by rw [← hq]; exact pI
  have qR : q.resident 256 := by rw [← hq]; exact pR
  have hdisp : iplc_sim_parse_instruction.dispatch p TraceOp.beq
      = iplc_sim_process_pipeline_branch q minusOne minusOne := by rw [← hq]; rfl
  rw [hdisp]
  have hp3 : q.atStep3.pipeline = q.pipeline := by
    rw [atStep3_pipeline, if_neg (fun e => qpen ((penalty_eq_one_iff q).mp e))]
  have hpipe := push_pipeline_eq q
  rw [hp3] at hpipe
  obtain ⟨_, t2, t3, _⟩ := push_itypes q
  obtain ⟨tA, tM, _⟩ := t3 qpen
  have hmem0 : ¬ q.atStep3.pipeline.MEM.isMemory = 1 := by
    rw [hp3, qpipe, hM]
    decide
  have hsc := push_sameCache q
  rw [if_neg hmem0] at hsc
  obtain ⟨_, _, _, cB, cT⟩ := push_counters q
  have hcorr := push_correct q
  rw [if_pos ⟨qD, qnm⟩] at hcorr
  refine ⟨rfl, ?_, ?_, ?_, ?_, ?_, ?_, ?_, ?_, ?_⟩
  · exact (push_instruction_address q).trans qI
  · show (iplc_sim_push_pipeline_stage q).pipeline.DECODE.itype = _
    rw [t2, qpipe]
    exact hF
  · show (iplc_sim_push_pipeline_stage q).pipeline.DECODE.instruction_address = _
    rw [hpipe]
    show (iplc_sim_push_pipeline_stage.shift q.pipeline).DECODE.instruction_address = _
    rw [shift_address_DECODE, qpipe]
    exact hFa
  · show (iplc_sim_push_pipeline_stage q).pipeline.ALU.isMemory = 0
    exact isMemory_of_itype _ _ (tA.trans qD) (by decide) (by decide)
  · show (iplc_sim_push_pipeline_stage q).pipeline.MEM.isMemory = 0
    rw [isMemory_congr _ _ tM, qpipe]
    exact hA
  · show (iplc_sim_push_pipeline_stage q).branch_predict_taken = 1
    rw [cT, qT, pT]
    exact hP
  · exact (resident_congr (iplc_sim_process_pipeline_branch q minusOne minusOne)
      (iplc_sim_push_pipeline_stage q) 256 ⟨rfl, rfl, rfl, rfl⟩).mpr
      ((resident_congr _ _ 256 hsc).mpr qR)
  · show (iplc_sim_push_pipeline_stage q).branch_count = _
    rw [cB, qB, pB, hB]
    unfold u32
    omega
  · show (iplc_sim_push_pipeline_stage q).correct_branch_predictions = _
    rw [hcorr, qC, pC, hC]
    unfold u32
    omega


theorem runTrace_append (s : Sim) (t u : List (Nat × TraceOp)) :
    runTrace s (t ++ u) = runTrace (runTrace s t) u := by
  induction t generalizing s with
  | nil => rfl
  | cons line rest ih => exact ih _

theorem loop_run (n : Nat) :
    ∀ (m : Nat) (s : Sim), 2 ≤ m → LoopState m s →
      LoopState (m + n) (runTrace s (branchLoop n)) := by
  induction n with
  | zero => exact fun m s _ h => h
  | succ n ih =>
    intro m s hm h
    have e : runTrace s (branchLoop (n + 1))
        = runTrace (iplc_sim_parse_instruction s 256 TraceOp.beq) (branchLoop n) := rfl
    rw [e, show m + (n + 1) = (m + 1) + n by omega]
    exact ih (m + 1) _ (by omega) (loop_step m s hm h)

theorem takenMode_configured :
    iplc_sim_init { Sim.start with branch_predict_taken := 1 } 1 1 1 = some takenMode := by
  decide

/-- The state after the first two lines of the branch loop. -/
theorem loop_start : LoopState 2 (runTrace takenMode (branchLoop 2)) := by
  refine ⟨by decide!, by decide!, by decide!, by decide!, by decide!, by decide!, by decide!,
    ⟨0, by decide!, by decide!, by decide!⟩, by decide!, by decide!⟩

/-- A run of the driver stays within the reachable states. -/
theorem reachable_runTrace (index blocksize assoc predict : Nat)
    (trace : List (Nat × TraceOp)) :
    ∀ s : Sim, DriverReachable anyCycle index blocksize assoc predict s →
      DriverReachable anyCycle index blocksize assoc predict (runTrace s trace) := by
  induction trace with
  | nil => exact fun s h => h
  | cons line rest ih =>
    intro s h
    exact ih _ (reachable_parse index blocksize assoc predict s line.1 line.2 h)

/-- C19, as stated, fails when `branch_count` wraps. In prediction mode taken,
after the trace of `2^32` lines `100 beq` (a branch followed by itself, taken
and correctly predicted) the `unsigned int` counter `branch_count` is back at
0 while `correct_branch_predictions` is `2^32 - 2`; the state is reached from
the fresh configured simulator by driver steps. -/
theorem branch_count_wraps :
    DriverReachable anyCycle 1 1 1 1 (runTrace takenMode (branchLoop (2 ^ 32)))
    ∧ (runTrace takenMode (branchLoop (2 ^ 32))).branch_count = 0
    ∧ (runTrace takenMode (branchLoop (2 ^ 32))).correct_branch_predictions = 2 ^ 32 - 2
    ∧ ¬ ((runTrace takenMode (branchLoop (2 ^ 32))).correct_branch_predictions
          ≤ (runTrace takenMode (branchLoop (2 ^ 32))).branch_count) := by
  have hsplit : branchLoop (2 ^ 32) = branchLoop 2 ++ branchLoop (2 ^ 32 - 2) := by
    have e : (2 : Nat) ^ 32 = 2 + (2 ^ 32 - 2) := by norm_num
    unfold branchLoop
    rw [← List.replicate_add, ← e]
  have h := loop_run (2 ^ 32 - 2) 2 _ (le_refl 2) loop_start
  rw [← runTrace_append, ← hsplit] at h
  obtain ⟨_, _, _, _, _, _, _, _, hB, hC⟩ := h
  have e1 : (2 + (2 ^ 32 - 2)) % 2 ^ 32 = 0 := by norm_num
  have e2 : (2 + (2 ^ 32 - 2) - 2) % 2 ^ 32 = 2 ^ 32 - 2 := by norm_num
  rw [e1] at hB
  rw [e2] at hC
  refine ⟨reachable_runTrace 1 1 1 1 _ _
    (DriverReachable.configure takenMode takenMode_configured), hB, hC, ?_⟩
  rw [hB, hC]
  norm_num

end IplcSim
